import Mathlib

/-!
The board model of pi-sweeper, `src/js/main.js`.

A shallow embedding of `MainScene` (the Minesweeper scene of `src/js/main.js`)
and theorems about it.

Modelling conventions.

* The scene object is the record `MainScene`; every method is a function from
  scene to scene.  Only the fields that carry game logic are kept; sprites,
  texts and the HUD are presentation and are left out, except that the
  *presence* of `cell.flagSprite` and of `this.timerEvent` is kept as a `Bool`,
  because `toggleFlag` and `gameOver` branch on it.
* `this.grid` is a list of rows, each a list of cells, as in the source.  A cell
  object is addressed by its coordinates; the `row` and `col` fields written by
  `createGrid` are kept, and `revealNeighbors` reads them as the source does.
* `Phaser.Math.Between` is modelled by an explicit list of draws that
  `placeMines` consumes; the loop finishes (`some`) or runs out of draws
  (`none`).
* The recursion `revealCell` / `revealNeighbors` carries a fuel argument that
  bounds the depth of nested calls; `revealCell` supplies `rows * cols + 1`,
  which is shown to be enough.
* The source fixes `rows = 9`, `cols = 9`, `mines = 10` in the constructor; the
  embedding keeps the three as fields of arbitrary value.
-/

namespace PiSweeper

/-! ## Data model -/

/-- A cell object of `this.grid[r][c]` (`createGrid`, lines 71-79).  `flagSprite`
records whether `cell.flagSprite` is set (truthy). -/
structure Cell where
  row : Nat
  col : Nat
  isMine : Bool
  isRevealed : Bool
  isFlagged : Bool
  number : Nat
  flagSprite : Bool
deriving DecidableEq, Repr

instance : Inhabited Cell :=
  ⟨{ row := 0, col := 0, isMine := false, isRevealed := false, isFlagged := false,
     number := 0, flagSprite := false }⟩

/-- The grid `this.grid`: rows of cells. -/
abbrev Grid := List (List Cell)

/-- The fields of `MainScene` that carry game logic (constructor, lines 32-43,
and `firstClick`, line 51).  `timerEvent` records whether `this.timerEvent` is
non-null. -/
structure MainScene where
  rows : Nat
  cols : Nat
  mines : Nat
  grid : Grid
  isGameOver : Bool
  timerEvent : Bool
  flagsLeft : Int
  firstClick : Bool
deriving DecidableEq, Repr

/-- The lookup `grid[r][c]`, `none` outside the stored rows and columns. -/
def cellLookup (g : Grid) (r c : Nat) : Option Cell :=
  match g[r]? with
  | some cs => cs[c]?
  | none => none

/-- The cell `this.grid[r][c]`.  The source indexes the grid only inside the
bounds; outside them the default cell is returned. -/
def cellAt (g : Grid) (r c : Nat) : Cell :=
  (cellLookup g r c).getD default

/-- An in-place update of the object `this.grid[r][c]`. -/
def modifyCell (g : Grid) (r c : Nat) (f : Cell → Cell) : Grid :=
  List.modify (fun cs => List.modify f c cs) r g

/-- The eight neighbour offsets `dirs` (lines 97-101 and 200-204), in source
order. -/
def dirs : List (Int × Int) :=
  [(-1, -1), (-1, 0), (-1, 1),
   (0, -1),           (0, 1),
   (1, -1), (1, 0), (1, 1)]

/-! ## Operations -/

/-- The constructor (lines 32-43), with the three sizes as parameters. -/
def MainScene.new (rows cols mines : Nat) : MainScene :=
  { rows := rows, cols := cols, mines := mines, grid := [],
    isGameOver := false, timerEvent := false, flagsLeft := mines,
    firstClick := false }

/-- The cell literal of `createGrid` (lines 71-79). -/
def freshCell (r c : Nat) : Cell :=
  { row := r, col := c, isMine := false, isRevealed := false, isFlagged := false,
    number := 0, flagSprite := false }

/-- The function `createGrid` (lines 66-82): the grid is rebuilt row by row, each row cell
by cell. -/
def createGrid (st : MainScene) : MainScene :=
  { st with
    grid := (List.range st.rows).foldl
      (fun g r => g ++ [(List.range st.cols).foldl (fun cs c => cs ++ [freshCell r c]) []])
      [] }

/-- The loop of `placeMines` (lines 86-93) over a list of draws `(r, c)`.
A draw on an existing mine places nothing.  `none`: the draws ran out while
`placed < mines`. -/
def placeMinesLoop (mines : Nat) : Nat → Grid → List (Nat × Nat) → Option Grid
  | placed, g, [] => if placed < mines then none else some g
  | placed, g, (r, c) :: rest =>
    if placed < mines then
      if !(cellAt g r c).isMine then
        placeMinesLoop mines (placed + 1)
          (modifyCell g r c (fun x => { x with isMine := true })) rest
      else
        placeMinesLoop mines placed g rest
    else some g

/-- The function `placeMines` (lines 84-94). -/
def placeMines (st : MainScene) (draws : List (Nat × Nat)) : Option MainScene :=
  match placeMinesLoop st.mines 0 st.grid draws with
  | some g => some { st with grid := g }
  | none => none

/-- The function `isInside` (lines 143-145). -/
def isInside (st : MainScene) (r c : Int) : Bool :=
  decide (r ≥ 0) && decide (r < st.rows) && decide (c ≥ 0) && decide (c < st.cols)

/-- The counter of `calculateNumbers` for the cell `(r, c)` (lines 105-109). -/
def countAdjacentMines (st : MainScene) (r c : Nat) : Nat :=
  dirs.foldl
    (fun count d =>
      let nr : Int := (r : Int) + d.1
      let nc : Int := (c : Int) + d.2
      if isInside st nr nc && (cellAt st.grid nr.toNat nc.toNat).isMine then count + 1
      else count)
    0

/-- The body of the inner loop of `calculateNumbers` (lines 104-110). -/
def numberCell (st : MainScene) (r c : Nat) : MainScene :=
  if (cellAt st.grid r c).isMine then st
  else
    { st with
      grid := modifyCell st.grid r c (fun x => { x with number := countAdjacentMines st r c }) }

/-- The function `calculateNumbers` (lines 96-113). -/
def calculateNumbers (st : MainScene) : MainScene :=
  (List.range st.rows).foldl
    (fun s r => (List.range s.cols).foldl (fun s c => numberCell s r c) s) st

/-- The function `create` (lines 45-57).  `drawGrid` only builds sprites and handlers. -/
def create (st : MainScene) (draws : List (Nat × Nat)) : Option MainScene :=
  match placeMines (createGrid st) draws with
  | none => none
  | some st1 =>
    let st2 := calculateNumbers st1
    some { st2 with isGameOver := false, firstClick := true, flagsLeft := st2.mines }

/-- The function `toggleFlag` (lines 147-164) on the cell at `(r, c)`. -/
def toggleFlag (st : MainScene) (r c : Nat) : MainScene :=
  let cell := cellAt st.grid r c
  if cell.isRevealed then st
  else if !cell.isFlagged && decide (st.flagsLeft ≤ 0) then st
  else
    let g1 := modifyCell st.grid r c (fun x => { x with isFlagged := !x.isFlagged })
    if (cellAt g1 r c).flagSprite then
      { st with
        grid := modifyCell g1 r c (fun x => { x with flagSprite := false })
        flagsLeft := st.flagsLeft + 1 }
    else
      { st with
        grid := modifyCell g1 r c (fun x => { x with flagSprite := true })
        flagsLeft := st.flagsLeft - 1 }

/-- The function `checkWin` (lines 227-235). -/
def checkWin (st : MainScene) : Bool :=
  let revealed : Nat :=
    (List.range st.rows).foldl
      (fun acc r =>
        (List.range st.cols).foldl
          (fun acc c => if (cellAt st.grid r c).isRevealed then acc + 1 else acc) acc)
      0
  decide ((revealed : Int) = (st.rows : Int) * (st.cols : Int) - (st.mines : Int))

/-- The function `gameOver` (lines 237-250); the banner text is presentation. -/
def gameOver (st : MainScene) (_won : Bool) : MainScene :=
  { st with isGameOver := true, timerEvent := false }

/-- The function `startTimer` (lines 252-255). -/
def startTimer (st : MainScene) : MainScene :=
  { st with timerEvent := true }

/-- The function `revealNeighbors` (lines 199-211), with the recursive call to `revealCell`
passed in as `reveal`. -/
def revealNeighbors (reveal : MainScene → Nat → Nat → Option MainScene)
    (st : MainScene) (cell : Cell) : Option MainScene :=
  dirs.foldlM
    (fun s d =>
      let nr : Int := (cell.row : Int) + d.1
      let nc : Int := (cell.col : Int) + d.2
      if isInside s nr nc then reveal s nr.toNat nc.toNat else some s)
    st

/-- The function `revealCell` (lines 166-197) on the cell at `(r, c)`, with `fuel` bounding
the depth of nested calls; `none` when the fuel runs out. -/
def revealCellAux : Nat → MainScene → Nat → Nat → Option MainScene
  | 0, _, _, _ => none
  | fuel + 1, st, r, c =>
    let cell := cellAt st.grid r c
    if cell.isRevealed || cell.isFlagged then some st
    else
      let st1 := if st.firstClick then { startTimer st with firstClick := false } else st
      let st2 :=
        { st1 with grid := modifyCell st1.grid r c (fun x => { x with isRevealed := true }) }
      if cell.isMine then some (gameOver st2 false)
      else
        match (if cell.number > 0 then some st2
               else revealNeighbors (revealCellAux fuel) st2 cell) with
        | none => none
        | some st3 => if checkWin st3 then some (gameOver st3 true) else some st3

/-- The function `revealCell` with the fuel that every board of `rows * cols` cells needs at
most. -/
def revealCell (st : MainScene) (r c : Nat) : Option MainScene :=
  revealCellAux (st.rows * st.cols + 1) st r c

/-- The `pointerdown` handler of the sprite of cell `(r, c)` (lines 131-138);
`flagMode` is the global toggle of line 285. -/
def pointerdown (st : MainScene) (r c : Nat) (flagMode : Bool) : Option MainScene :=
  if st.isGameOver then some st
  else if flagMode then some (toggleFlag st r c)
  else revealCell st r c

/-! ## Specification-level notions -/

/-- The grid has a cell object at every `(r, c)` with `r < rows`, `c < cols`,
and that cell carries its own coordinates, as `createGrid` builds it. -/
def GridWF (rows cols : Nat) (g : Grid) : Prop :=
  ∀ r, r < rows → ∀ c, c < cols →
    (cellLookup g r c).isSome = true ∧ (cellAt g r c).row = r ∧ (cellAt g r c).col = c

instance (rows cols : Nat) (g : Grid) : Decidable (GridWF rows cols g) := by
  unfold GridWF; infer_instance

/-- The scene holds a well-formed grid of its own size. -/
def WellFormed (st : MainScene) : Prop :=
  GridWF st.rows st.cols st.grid

instance (st : MainScene) : Decidable (WellFormed st) := by
  unfold WellFormed; infer_instance

/-- The number of positions `(r, c)`, `r < rows`, `c < cols`, whose cell
satisfies `p`. -/
def gridCount (rows cols : Nat) (g : Grid) (p : Cell → Bool) : Nat :=
  ((Finset.range rows ×ˢ Finset.range cols).filter
    (fun q => p (cellAt g q.1 q.2) = true)).card

/-- The number of cells of the board that satisfy `p`. -/
def cellCount (st : MainScene) (p : Cell → Bool) : Nat :=
  gridCount st.rows st.cols st.grid p

/-- Moore adjacency of two positions: different, and at most one apart in each
coordinate. -/
def Adjacent (p q : Nat × Nat) : Prop :=
  p ≠ q ∧ p.1 ≤ q.1 + 1 ∧ q.1 ≤ p.1 + 1 ∧ p.2 ≤ q.2 + 1 ∧ q.2 ≤ p.2 + 1

instance (p q : Nat × Nat) : Decidable (Adjacent p q) := by
  unfold Adjacent; infer_instance

/-- The number of mine cells among the Moore neighbours of `(r, c)` that lie
inside the grid. -/
def mineNeighbours (st : MainScene) (r c : Nat) : Nat :=
  ((Finset.range st.rows ×ˢ Finset.range st.cols).filter
    (fun q => Adjacent (r, c) q ∧ (cellAt st.grid q.1 q.2).isMine = true)).card

/-! ## Predicates used in the proofs -/

/-- Two cells agree on every field but `number`. -/
def SameButNumber (a b : Cell) : Prop :=
  a.row = b.row ∧ a.col = b.col ∧ a.isMine = b.isMine ∧ a.isRevealed = b.isRevealed ∧
    a.isFlagged = b.isFlagged ∧ a.flagSprite = b.flagSprite

/-- The scene `s` is `st` with some `number` fields rewritten, mine cells
untouched. -/
def NumbersOnly (st s : MainScene) : Prop :=
  s.rows = st.rows ∧ s.cols = st.cols ∧ s.mines = st.mines ∧
  s.isGameOver = st.isGameOver ∧ s.timerEvent = st.timerEvent ∧
  s.flagsLeft = st.flagsLeft ∧ s.firstClick = st.firstClick ∧
  WellFormed s ∧
  (∀ r c, SameButNumber (cellAt s.grid r c) (cellAt st.grid r c)) ∧
  ∀ r c, (cellAt st.grid r c).isMine = true → cellAt s.grid r c = cellAt st.grid r c

/-- The cell at `p` of `s` holds the count that `st` determines, if it is not a
mine. -/
def Numbered (st : MainScene) (p : Nat × Nat) (s : MainScene) : Prop :=
  (cellAt st.grid p.1 p.2).isMine = false →
    (cellAt s.grid p.1 p.2).number = countAdjacentMines st p.1 p.2

/-- Two cells agree on every field but `isRevealed`. -/
def SameButRevealed (a b : Cell) : Prop :=
  a.row = b.row ∧ a.col = b.col ∧ a.isMine = b.isMine ∧ a.number = b.number ∧
    a.isFlagged = b.isFlagged ∧ a.flagSprite = b.flagSprite

/-- The frame of a reveal: `st'` is `st` with some more cells revealed; sizes,
`mines`, `flagsLeft` and every other field of every cell are as before. -/
def RevealFrame (st st' : MainScene) : Prop :=
  st'.rows = st.rows ∧ st'.cols = st.cols ∧ st'.mines = st.mines ∧
  st'.flagsLeft = st.flagsLeft ∧ WellFormed st' ∧
  ∀ r c, SameButRevealed (cellAt st'.grid r c) (cellAt st.grid r c) ∧
    ((cellAt st.grid r c).isRevealed = true → (cellAt st'.grid r c).isRevealed = true)

/-- The cell at `p` is revealed in `st'` and was not in `st`. -/
def NewlyRevealed (st st' : MainScene) (p : Nat × Nat) : Prop :=
  (cellAt st'.grid p.1 p.2).isRevealed = true ∧ (cellAt st.grid p.1 p.2).isRevealed = false

/-- A cell the cascade passes through: inside the grid, unrevealed, unflagged
and with number 0. -/
def Passable (st : MainScene) (p : Nat × Nat) : Prop :=
  p.1 < st.rows ∧ p.2 < st.cols ∧ (cellAt st.grid p.1 p.2).isRevealed = false ∧
    (cellAt st.grid p.1 p.2).isFlagged = false ∧ (cellAt st.grid p.1 p.2).number = 0

/-- One step of a cascade path: from a passable cell to a Moore-adjacent cell
inside the grid. -/
def CascadeStep (st : MainScene) (p q : Nat × Nat) : Prop :=
  Passable st p ∧ Adjacent p q ∧ q.1 < st.rows ∧ q.2 < st.cols

/-- There is a path `s = p0, p1, ..., pk = x` (`k ≥ 0`) of Moore-adjacent cells
inside the grid in which every cell before `x` is unrevealed, unflagged and has
number 0 in `st`. -/
def CascadePath (st : MainScene) (s x : Nat × Nat) : Prop :=
  Relation.ReflTransGen (CascadeStep st) s x

/-- The number of unrevealed cells of the board. -/
def unrevealedCount (st : MainScene) : Nat :=
  cellCount st (fun x => !x.isRevealed)

/-- The step of the loop of `revealNeighbors` for the offset `d`. -/
def neighborStep (reveal : MainScene → Nat → Nat → Option MainScene) (cell : Cell)
    (s : MainScene) (d : Int × Int) : Option MainScene :=
  let nr : Int := (cell.row : Int) + d.1
  let nc : Int := (cell.col : Int) + d.2
  if isInside s nr nc then reveal s nr.toNat nc.toNat else some s

/-- The scene of `revealCell` right after `cell.isRevealed = true` (line 175):
the timer is started on the first click and the cell is marked. -/
def markRevealed (st : MainScene) (r c : Nat) : MainScene :=
  let st1 := if st.firstClick then { startTimer st with firstClick := false } else st
  { st1 with grid := modifyCell st1.grid r c (fun x => { x with isRevealed := true }) }

/-- The end of `revealCell` (lines 194-196): the win check. -/
def winCheck (st : MainScene) : MainScene :=
  if checkWin st then gameOver st true else st

/-- Every cell newly revealed between `st` and `st'` that is a non-mine cell
with number 0 has all its in-grid Moore neighbours revealed in `st'` or
flagged. -/
def CascadeClosed (st st' : MainScene) : Prop :=
  ∀ y, NewlyRevealed st st' y → (cellAt st.grid y.1 y.2).isMine = false →
    (cellAt st.grid y.1 y.2).number = 0 →
    ∀ n : Nat × Nat, n.1 < st.rows → n.2 < st.cols → Adjacent y n →
      (cellAt st'.grid n.1 n.2).isRevealed = true ∨ (cellAt st.grid n.1 n.2).isFlagged = true

/-- The neighbour of `p` at offset `d`. -/
def neighbourAt (p : Nat × Nat) (d : Int × Int) : Nat × Nat :=
  (((p.1 : Int) + d.1).toNat, ((p.2 : Int) + d.2).toNat)

/-- What a returning `revealCell` on the cell at `p` establishes. -/
def RevealPost (st : MainScene) (p : Nat × Nat) (st' : MainScene) : Prop :=
  RevealFrame st st' ∧
  ((cellAt st'.grid p.1 p.2).isRevealed = true ∨ (cellAt st.grid p.1 p.2).isFlagged = true) ∧
  (∀ x, NewlyRevealed st st' x →
    x.1 < st.rows ∧ x.2 < st.cols ∧ (cellAt st.grid x.1 x.2).isFlagged = false ∧
      CascadePath st p x) ∧
  CascadeClosed st st'

/-- What a returning loop of `revealNeighbors` around `p` over the offsets `ds`
establishes. -/
def NeighboursPost (st : MainScene) (p : Nat × Nat) (ds : List (Int × Int))
    (st' : MainScene) : Prop :=
  RevealFrame st st' ∧
  (∀ d ∈ ds, isInside st ((p.1 : Int) + d.1) ((p.2 : Int) + d.2) = true →
    (cellAt st'.grid (neighbourAt p d).1 (neighbourAt p d).2).isRevealed = true ∨
      (cellAt st.grid (neighbourAt p d).1 (neighbourAt p d).2).isFlagged = true) ∧
  (∀ x, NewlyRevealed st st' x →
    x.1 < st.rows ∧ x.2 < st.cols ∧ (cellAt st.grid x.1 x.2).isFlagged = false ∧
      ∃ d ∈ ds, isInside st ((p.1 : Int) + d.1) ((p.2 : Int) + d.2) = true ∧
        CascadePath st (neighbourAt p d) x) ∧
  CascadeClosed st st'

/-! ## Games -/

/-- A run of clicks `(r, c, flagMode)`, each handled by `pointerdown`. -/
def pointerdowns (st : MainScene) : List (Nat × Nat × Bool) → Option MainScene
  | [] => some st
  | (r, c, flagMode) :: rest =>
    match pointerdown st r c flagMode with
    | some st1 => pointerdowns st1 rest
    | none => none

/-- The states of a game: `create` run on a scene object with in-range draws on
which the placement loop finishes, followed by any clicks on cells of the
grid in either mode. -/
inductive Reachable : MainScene → Prop
  | created (prev : MainScene) (draws : List (Nat × Nat)) (st : MainScene) :
      (∀ d ∈ draws, d.1 < prev.rows ∧ d.2 < prev.cols) → create prev draws = some st →
      Reachable st
  | click (st st' : MainScene) (r c : Nat) (flagMode : Bool) :
      Reachable st → r < st.rows → c < st.cols → pointerdown st r c flagMode = some st' →
      Reachable st'

/-- Every non-mine cell of the grid is revealed. -/
def AllSafeRevealed (st : MainScene) : Prop :=
  ∀ r, r < st.rows → ∀ c, c < st.cols →
    (cellAt st.grid r c).isMine = false → (cellAt st.grid r c).isRevealed = true

instance (st : MainScene) : Decidable (AllSafeRevealed st) := by
  unfold AllSafeRevealed; infer_instance

/-- No mine cell of the grid is revealed. -/
def NoMineRevealed (st : MainScene) : Prop :=
  ∀ r, r < st.rows → ∀ c, c < st.cols →
    (cellAt st.grid r c).isMine = true → (cellAt st.grid r c).isRevealed = false

instance (st : MainScene) : Decidable (NoMineRevealed st) := by
  unfold NoMineRevealed; infer_instance

/-- The facts that hold in every state of a game. -/
def GameInv (st : MainScene) : Prop :=
  WellFormed st ∧
  cellCount st (fun x => x.isMine) = st.mines ∧
  (∀ r, r < st.rows → ∀ c, c < st.cols →
    (cellAt st.grid r c).flagSprite = (cellAt st.grid r c).isFlagged) ∧
  st.flagsLeft + (cellCount st (fun x => x.isFlagged) : Int) = (st.mines : Int) ∧
  0 ≤ st.flagsLeft ∧
  (∀ r, r < st.rows → ∀ c, c < st.cols →
    ¬ ((cellAt st.grid r c).isRevealed = true ∧ (cellAt st.grid r c).isFlagged = true)) ∧
  (∀ r, r < st.rows → ∀ c, c < st.cols → (cellAt st.grid r c).isMine = false →
    (cellAt st.grid r c).number = mineNeighbours st r c)

/-! ## Sample boards -/

/-- A fresh 2 x 2 game with its single mine drawn at `(0, 0)`. -/
def sampleStart : MainScene :=
  (create (MainScene.new 2 2 1) [(0, 0)]).getD (MainScene.new 2 2 1)

/-- The sample game after a click in flag mode on `(1, 1)`. -/
def sampleFlagged : MainScene :=
  (pointerdowns sampleStart [(1, 1, true)]).getD sampleStart

/-- The sample game after the reveal clicks `(0, 1)`, `(1, 0)` and then the
mine `(0, 0)`. -/
def sampleLost : MainScene :=
  (pointerdowns sampleStart [(0, 1, false), (1, 0, false), (0, 0, false)]).getD sampleStart

/-- A 3 x 3 board right after `placeMines`, its single mine drawn at `(2, 2)`. -/
def sampleMined : MainScene :=
  (placeMines (createGrid (MainScene.new 3 3 1)) [(2, 2)]).getD (MainScene.new 3 3 1)

/-- The sample game after the reveal clicks `(0, 1)`, `(1, 0)` and `(1, 1)`: all
three safe cells are revealed. -/
def sampleWon : MainScene :=
  (pointerdowns sampleStart [(0, 1, false), (1, 0, false), (1, 1, false)]).getD sampleStart

/-- A 2 x 2 board right after `placeMines` with two mines, the second draw
repeating the first. -/
def sampleTwoMines : MainScene :=
  (placeMines (createGrid (MainScene.new 2 2 2)) [(0, 0), (0, 0), (1, 1), (1, 0)]).getD
    (MainScene.new 2 2 2)

/-! ## The reveal with the neighbour order as a parameter -/

/-- The loop of `revealNeighbors` (lines 205-210) with the offsets visited in
the order `ds` instead of the fixed `dirs`. -/
def revealNeighborsWith (ds : List (Int × Int))
    (reveal : MainScene → Nat → Nat → Option MainScene)
    (st : MainScene) (cell : Cell) : Option MainScene :=
  ds.foldlM
    (fun s d =>
      let nr : Int := (cell.row : Int) + d.1
      let nc : Int := (cell.col : Int) + d.2
      if isInside s nr nc then reveal s nr.toNat nc.toNat else some s)
    st

/-- The function `revealCell` (lines 166-197) with `revealNeighbors` visiting
the offsets in the order `ds`; `revealCellAux` is the case `ds = dirs`. -/
def revealCellAuxWith (ds : List (Int × Int)) : Nat → MainScene → Nat → Nat → Option MainScene
  | 0, _, _, _ => none
  | fuel + 1, st, r, c =>
    let cell := cellAt st.grid r c
    if cell.isRevealed || cell.isFlagged then some st
    else
      let st1 := if st.firstClick then { startTimer st with firstClick := false } else st
      let st2 :=
        { st1 with grid := modifyCell st1.grid r c (fun x => { x with isRevealed := true }) }
      if cell.isMine then some (gameOver st2 false)
      else
        match (if cell.number > 0 then some st2
               else revealNeighborsWith ds (revealCellAuxWith ds fuel) st2 cell) with
        | none => none
        | some st3 => if checkWin st3 then some (gameOver st3 true) else some st3

/-- The reveal in the order `ds`, with the fuel of `revealCell`. -/
def revealCellWith (ds : List (Int × Int)) (st : MainScene) (r c : Nat) : Option MainScene :=
  revealCellAuxWith ds (st.rows * st.cols + 1) st r c

/-- A cell from which the cascade continues: inside the grid, unrevealed,
unflagged, not a mine and with number 0. -/
def Cascading (st : MainScene) (p : Nat × Nat) : Prop :=
  Passable st p ∧ (cellAt st.grid p.1 p.2).isMine = false

/-- One step of the cascade: from a cascading cell to a Moore-adjacent cell
inside the grid. -/
def SpreadStep (st : MainScene) (p q : Nat × Nat) : Prop :=
  Cascading st p ∧ Adjacent p q ∧ q.1 < st.rows ∧ q.2 < st.cols

/-- There is a path from `s` to `x` of Moore-adjacent cells inside the grid in
which every cell before `x` is a cascading cell of `st`. -/
def SpreadPath (st : MainScene) (s x : Nat × Nat) : Prop :=
  Relation.ReflTransGen (SpreadStep st) s x

/-- Some mine cell of the grid is revealed: the game is lost. -/
def MineRevealed (st : MainScene) : Prop :=
  ∃ r, r < st.rows ∧ ∃ c, c < st.cols ∧
    (cellAt st.grid r c).isMine = true ∧ (cellAt st.grid r c).isRevealed = true

instance (st : MainScene) : Decidable (MineRevealed st) := by
  unfold MineRevealed; infer_instance

/-- What a returning reveal on the cell at `p` establishes, in any neighbour
order: the contract `RevealPost` with the paths running through cascading
cells only. -/
def SpreadPost (st : MainScene) (p : Nat × Nat) (st' : MainScene) : Prop :=
  RevealFrame st st' ∧
  ((cellAt st'.grid p.1 p.2).isRevealed = true ∨ (cellAt st.grid p.1 p.2).isFlagged = true) ∧
  (∀ x, NewlyRevealed st st' x →
    x.1 < st.rows ∧ x.2 < st.cols ∧ (cellAt st.grid x.1 x.2).isFlagged = false ∧
      SpreadPath st p x) ∧
  CascadeClosed st st'

/-- What a returning neighbour loop around `p` over the offsets `ds`
establishes, with the paths running through cascading cells only. -/
def SpreadNeighboursPost (st : MainScene) (p : Nat × Nat) (ds : List (Int × Int))
    (st' : MainScene) : Prop :=
  RevealFrame st st' ∧
  (∀ d ∈ ds, isInside st ((p.1 : Int) + d.1) ((p.2 : Int) + d.2) = true →
    (cellAt st'.grid (neighbourAt p d).1 (neighbourAt p d).2).isRevealed = true ∨
      (cellAt st.grid (neighbourAt p d).1 (neighbourAt p d).2).isFlagged = true) ∧
  (∀ x, NewlyRevealed st st' x →
    x.1 < st.rows ∧ x.2 < st.cols ∧ (cellAt st.grid x.1 x.2).isFlagged = false ∧
      ∃ d ∈ ds, isInside st ((p.1 : Int) + d.1) ((p.2 : Int) + d.2) = true ∧
        SpreadPath st (neighbourAt p d) x) ∧
  CascadeClosed st st'

/-- What a reveal does to the game-level fields: `isGameOver` is never reset
and, on a board with exactly `mines` mines, is set only when a mine is
revealed or every safe cell is; a consumed first click stays consumed. -/
def SessionStep (st st' : MainScene) : Prop :=
  RevealFrame st st' ∧
  (st.isGameOver = true → st'.isGameOver = true) ∧
  (cellCount st (fun x => x.isMine) = st.mines → st'.isGameOver = true →
    st.isGameOver = true ∨ MineRevealed st' ∨ AllSafeRevealed st') ∧
  (st.firstClick = false → st'.firstClick = false)

/-- The link between `isGameOver` and the board in the states of a game: a
revealed mine means the game is over, and in a game with fewer mines than
cells the game is over exactly when a mine is revealed (lost) or every safe
cell is revealed (won), never both. -/
def SessionInv (st : MainScene) : Prop :=
  (MineRevealed st → st.isGameOver = true) ∧
  (st.mines < st.rows * st.cols →
    (st.isGameOver = true ↔ (MineRevealed st ∨ AllSafeRevealed st)) ∧
      ¬ (MineRevealed st ∧ AllSafeRevealed st))

/-- The board conditions that every state of a game meets and on which the
win check is sound: exactly `mines` mines, every safe cell numbered with its
mine-neighbour count, and `isGameOver` set whenever a mine is revealed. -/
def GameBoard (st : MainScene) : Prop :=
  cellCount st (fun x => x.isMine) = st.mines ∧
  (∀ r, r < st.rows → ∀ c, c < st.cols → (cellAt st.grid r c).isMine = false →
    (cellAt st.grid r c).number = mineNeighbours st r c) ∧
  (MineRevealed st → st.isGameOver = true)

/-! ## Sample boards for the scenarios -/

/-- A fresh 3 x 3 game with its single mine drawn at the centre `(1, 1)`. -/
def sampleCentre : MainScene :=
  (create (MainScene.new 3 3 1) [(1, 1)]).getD (MainScene.new 3 3 1)

/-- The centre-mine game after the reveal of `(0, 0)`. -/
def sampleCentreClicked : MainScene :=
  (revealCell sampleCentre 0 0).getD sampleCentre

/-- A fresh 2 x 2 game with `mines = 4 = rows * cols`: every cell is a mine. -/
def sampleFull : MainScene :=
  (create (MainScene.new 2 2 4) [(0, 0), (0, 1), (1, 0), (1, 1)]).getD (MainScene.new 2 2 4)

/-- A fresh 3 x 3 game with its single mine drawn at the corner `(2, 2)`. -/
def sampleCorner : MainScene :=
  (create (MainScene.new 3 3 1) [(2, 2)]).getD (MainScene.new 3 3 1)

/-- A hand-made 1 x 5 board that no game reaches: the single mine at `(0, 0)` is
already revealed while `isGameOver` is false; numbers are computed. -/
def sampleRevealedMine : MainScene :=
  let st := calculateNumbers
    ((placeMines (createGrid (MainScene.new 1 5 1)) [(0, 0)]).getD (MainScene.new 1 5 1))
  { st with grid := modifyCell st.grid 0 0 (fun x => { x with isRevealed := true }) }

/-! ## Lookup and update -/

theorem cellLookup_modifyCell (g : Grid) (r c : Nat) (f : Cell → Cell) (r' c' : Nat) :
    cellLookup (modifyCell g r c f) r' c' =
      (cellLookup g r' c').map (fun x => if r = r' ∧ c = c' then f x else x) := by
  unfold cellLookup modifyCell
  rw [List.getElem?_modify]
  cases hg : g[r']? with
  | none => simp
  | some cs =>
    by_cases hr : r = r'
    · subst hr
      simp only [Option.map_eq_map, Option.map_some', if_true, true_and]
      rw [List.getElem?_modify]
      rfl
    · simp [hr]

theorem cellAt_modifyCell_ne (g : Grid) (r c : Nat) (f : Cell → Cell) (r' c' : Nat)
    (h : ¬ (r = r' ∧ c = c')) : cellAt (modifyCell g r c f) r' c' = cellAt g r' c' := by
  unfold cellAt
  rw [cellLookup_modifyCell]
  cases cellLookup g r' c' <;> simp [h]

theorem cellAt_modifyCell_eq (g : Grid) (r c : Nat) (f : Cell → Cell)
    (h : (cellLookup g r c).isSome = true) :
    cellAt (modifyCell g r c f) r c = f (cellAt g r c) := by
  unfold cellAt
  rw [cellLookup_modifyCell]
  cases hx : cellLookup g r c with
  | none => simp [hx] at h
  | some x => simp

theorem cellLookup_modifyCell_isSome (g : Grid) (r c : Nat) (f : Cell → Cell) (r' c' : Nat) :
    (cellLookup (modifyCell g r c f) r' c').isSome = (cellLookup g r' c').isSome := by
  rw [cellLookup_modifyCell]
  cases cellLookup g r' c' <;> simp

/-- The cell at `(r', c')` after an update at `(r, c)` of a well-formed grid. -/
theorem cellAt_modifyCell {rows cols : Nat} {g : Grid} (hwf : GridWF rows cols g) (r c : Nat)
    (hr : r < rows) (hc : c < cols) (f : Cell → Cell) (r' c' : Nat) :
    cellAt (modifyCell g r c f) r' c' =
      if r = r' ∧ c = c' then f (cellAt g r c) else cellAt g r' c' := by
  by_cases h : r = r' ∧ c = c'
  · obtain ⟨h1, h2⟩ := h
    subst h1; subst h2
    simp [cellAt_modifyCell_eq _ _ _ _ (hwf r hr c hc).1]
  · simp [h, cellAt_modifyCell_ne _ _ _ _ _ _ h]

/-- An update that keeps the coordinates of the cell keeps the grid
well-formed. -/
theorem GridWF.modify {rows cols : Nat} {g : Grid} (hwf : GridWF rows cols g) (r c : Nat)
    (f : Cell → Cell) (hf : ∀ x, (f x).row = x.row ∧ (f x).col = x.col) :
    GridWF rows cols (modifyCell g r c f) := by
  intro r' hr' c' hc'
  obtain ⟨h1, h2, h3⟩ := hwf r' hr' c' hc'
  rw [cellLookup_modifyCell_isSome]
  refine ⟨h1, ?_⟩
  by_cases h : r = r' ∧ c = c'
  · obtain ⟨ha, hb⟩ := h
    subst ha; subst hb
    rw [cellAt_modifyCell_eq _ _ _ _ h1]
    rw [(hf _).1, (hf _).2]; exact ⟨h2, h3⟩
  · rw [cellAt_modifyCell_ne _ _ _ _ _ _ h]; exact ⟨h2, h3⟩

/-! ## Counting cells -/

theorem gridCount_congr {rows cols : Nat} {g g' : Grid} (p : Cell → Bool)
    (h : ∀ r, r < rows → ∀ c, c < cols → p (cellAt g' r c) = p (cellAt g r c)) :
    gridCount rows cols g' p = gridCount rows cols g p := by
  unfold gridCount
  congr 1
  apply Finset.filter_congr
  intro q hq
  simp only [Finset.mem_product, Finset.mem_range] at hq
  rw [h q.1 hq.1 q.2 hq.2]

theorem gridCount_modify_set {rows cols : Nat} {g : Grid} (hwf : GridWF rows cols g) (r c : Nat)
    (hr : r < rows) (hc : c < cols) (f : Cell → Cell) (p : Cell → Bool)
    (h0 : p (cellAt g r c) = false) (h1 : p (f (cellAt g r c)) = true) :
    gridCount rows cols (modifyCell g r c f) p = gridCount rows cols g p + 1 := by
  unfold gridCount
  have hins : (Finset.range rows ×ˢ Finset.range cols).filter
        (fun q => p (cellAt (modifyCell g r c f) q.1 q.2) = true) =
      insert (r, c) ((Finset.range rows ×ˢ Finset.range cols).filter
        (fun q => p (cellAt g q.1 q.2) = true)) := by
    ext q
    obtain ⟨a, b⟩ := q
    simp only [Finset.mem_filter, Finset.mem_product, Finset.mem_range, Finset.mem_insert,
      Prod.mk.injEq]
    rw [cellAt_modifyCell hwf r c hr hc]
    by_cases h : r = a ∧ c = b
    · obtain ⟨ha, hb⟩ := h
      subst ha; subst hb
      simp [h1, hr, hc]
    · have h' : ¬ (a = r ∧ b = c) := fun hh => h ⟨hh.1.symm, hh.2.symm⟩
      simp [h, h']
  rw [hins, Finset.card_insert_of_not_mem]
  simp [h0]

theorem gridCount_modify_clear {rows cols : Nat} {g : Grid} (hwf : GridWF rows cols g)
    (r c : Nat) (hr : r < rows) (hc : c < cols) (f : Cell → Cell) (p : Cell → Bool)
    (h0 : p (cellAt g r c) = true) (h1 : p (f (cellAt g r c)) = false) :
    gridCount rows cols (modifyCell g r c f) p + 1 = gridCount rows cols g p := by
  unfold gridCount
  have hers : (Finset.range rows ×ˢ Finset.range cols).filter
        (fun q => p (cellAt (modifyCell g r c f) q.1 q.2) = true) =
      ((Finset.range rows ×ˢ Finset.range cols).filter
        (fun q => p (cellAt g q.1 q.2) = true)).erase (r, c) := by
    ext q
    obtain ⟨a, b⟩ := q
    simp only [Finset.mem_filter, Finset.mem_product, Finset.mem_range, Finset.mem_erase,
      Prod.mk.injEq, ne_eq]
    rw [cellAt_modifyCell hwf r c hr hc]
    by_cases h : r = a ∧ c = b
    · obtain ⟨ha, hb⟩ := h
      subst ha; subst hb
      simp [h1]
    · have h' : ¬ (a = r ∧ b = c) := fun hh => h ⟨hh.1.symm, hh.2.symm⟩
      simp [h, h']
  rw [hers, Finset.card_erase_of_mem]
  · have hpos : 0 < ((Finset.range rows ×ˢ Finset.range cols).filter
        (fun q => p (cellAt g q.1 q.2) = true)).card := by
      apply Finset.card_pos.mpr
      exact ⟨(r, c), by simp [h0, hr, hc]⟩
    omega
  · simp [h0, hr, hc]

theorem gridCount_modify_same {rows cols : Nat} {g : Grid} (r c : Nat) (f : Cell → Cell)
    (p : Cell → Bool) (h : ∀ x, p (f x) = p x) :
    gridCount rows cols (modifyCell g r c f) p = gridCount rows cols g p := by
  apply gridCount_congr
  intro r' _ c' _
  unfold cellAt
  rw [cellLookup_modifyCell]
  cases cellLookup g r' c' with
  | none => rfl
  | some x =>
    simp only [Option.map_some', Option.getD_some]
    split
    · exact h x
    · rfl

/-! ## `createGrid` -/

theorem foldl_append_singleton {α β : Type} (f : α → β) (l : List α) (init : List β) :
    l.foldl (fun acc x => acc ++ [f x]) init = init ++ l.map f := by
  induction l generalizing init with
  | nil => simp
  | cons a l ih => simp [ih]

theorem createGrid_grid (st : MainScene) :
    (createGrid st).grid =
      (List.range st.rows).map (fun r => (List.range st.cols).map (fun c => freshCell r c)) := by
  unfold createGrid
  simp only [foldl_append_singleton, List.nil_append]

theorem cellLookup_createGrid (st : MainScene) (r c : Nat) (hr : r < st.rows)
    (hc : c < st.cols) : cellLookup (createGrid st).grid r c = some (freshCell r c) := by
  rw [createGrid_grid]
  unfold cellLookup
  simp [List.getElem?_map, List.getElem?_range, hr, hc]

theorem cellAt_createGrid (st : MainScene) (r c : Nat) (hr : r < st.rows)
    (hc : c < st.cols) : cellAt (createGrid st).grid r c = freshCell r c := by
  unfold cellAt
  rw [cellLookup_createGrid st r c hr hc]
  rfl

theorem createGrid_wf (st : MainScene) : WellFormed (createGrid st) := by
  intro r hr c hc
  have hr' : r < st.rows := hr
  have hc' : c < st.cols := hc
  rw [cellAt_createGrid st r c hr' hc', cellLookup_createGrid st r c hr' hc']
  simp [freshCell]

theorem cellCount_createGrid (st : MainScene) (p : Cell → Bool)
    (hp : ∀ r c, p (freshCell r c) = false) : cellCount (createGrid st) p = 0 := by
  unfold cellCount gridCount
  rw [Finset.card_eq_zero, Finset.filter_eq_empty_iff]
  intro q hq
  simp only [Finset.mem_product, Finset.mem_range] at hq
  have h1 : q.1 < st.rows := hq.1
  have h2 : q.2 < st.cols := hq.2
  rw [cellAt_createGrid st q.1 q.2 h1 h2, hp]
  simp

/-! ## `placeMines` -/

/-- What the placement loop does to a well-formed grid when it finishes: the
grid stays well-formed, only `isMine` fields change, and the number of mines
grows by exactly `mines - placed`. -/
theorem placeMinesLoop_spec (rows cols mines : Nat) :
    ∀ (draws : List (Nat × Nat)) (placed : Nat) (g g' : Grid),
      GridWF rows cols g → (∀ d ∈ draws, d.1 < rows ∧ d.2 < cols) → placed ≤ mines →
      placeMinesLoop mines placed g draws = some g' →
      GridWF rows cols g' ∧
      gridCount rows cols g' (fun x => x.isMine) + placed =
        gridCount rows cols g (fun x => x.isMine) + mines ∧
      ∀ r c, cellAt g' r c = { cellAt g r c with isMine := (cellAt g' r c).isMine } := by
  intro draws
  induction draws with
  | nil =>
    intro placed g g' hwf _ hle h
    unfold placeMinesLoop at h
    by_cases hlt : placed < mines
    · simp [hlt] at h
    · simp only [hlt, if_false, Option.some.injEq] at h
      subst h
      exact ⟨hwf, by omega, fun _ _ => rfl⟩
  | cons d rest ih =>
    intro placed g g' hwf hin hle h
    obtain ⟨r, c⟩ := d
    have hrc := hin (r, c) (List.mem_cons_self _ _)
    have hrest : ∀ d ∈ rest, d.1 < rows ∧ d.2 < cols :=
      fun d hd => hin d (List.mem_cons_of_mem _ hd)
    unfold placeMinesLoop at h
    by_cases hlt : placed < mines
    · simp only [hlt, if_true] at h
      by_cases hm : (cellAt g r c).isMine = true
      · simp only [hm, Bool.not_true, Bool.false_eq_true, if_false] at h
        exact ih placed g g' hwf hrest hle h
      · have hm' : (cellAt g r c).isMine = false := by simpa using hm
        simp only [hm', Bool.not_false, if_true] at h
        have hwf1 : GridWF rows cols (modifyCell g r c (fun x => { x with isMine := true })) :=
          hwf.modify r c _ (fun x => ⟨rfl, rfl⟩)
        obtain ⟨h1, h2, h3⟩ := ih (placed + 1) _ g' hwf1 hrest (by omega) h
        have hcount := gridCount_modify_set hwf r c hrc.1 hrc.2
          (fun x => { x with isMine := true }) (fun x => x.isMine) hm' rfl
        refine ⟨h1, by omega, ?_⟩
        intro r' c'
        rw [h3 r' c', cellAt_modifyCell hwf r c hrc.1 hrc.2]
        split <;> rename_i hEq
        · obtain ⟨ha, hb⟩ := hEq
          subst ha; subst hb
          rfl
        · rfl
    · simp only [hlt, if_false, Option.some.injEq] at h
      subst h
      exact ⟨hwf, by omega, fun _ _ => rfl⟩

/-- The scene after `createGrid` and a finished `placeMines`. -/
theorem placeMines_createGrid_spec (st st' : MainScene) (draws : List (Nat × Nat))
    (hin : ∀ d ∈ draws, d.1 < st.rows ∧ d.2 < st.cols)
    (h : placeMines (createGrid st) draws = some st') :
    st'.rows = st.rows ∧ st'.cols = st.cols ∧ st'.mines = st.mines ∧
    st'.isGameOver = st.isGameOver ∧ st'.timerEvent = st.timerEvent ∧
    st'.flagsLeft = st.flagsLeft ∧ st'.firstClick = st.firstClick ∧
    WellFormed st' ∧ cellCount st' (fun x => x.isMine) = st.mines ∧
    ∀ r, r < st.rows → ∀ c, c < st.cols →
      cellAt st'.grid r c = { freshCell r c with isMine := (cellAt st'.grid r c).isMine } := by
  unfold placeMines at h
  cases hloop : placeMinesLoop (createGrid st).mines 0 (createGrid st).grid draws with
  | none => simp [hloop] at h
  | some g =>
    simp only [hloop, Option.some.injEq] at h
    subst h
    have hspec := placeMinesLoop_spec st.rows st.cols st.mines draws 0 (createGrid st).grid g
      (createGrid_wf st) hin (Nat.zero_le _) hloop
    obtain ⟨h1, h2, h3⟩ := hspec
    have h0 : gridCount st.rows st.cols (createGrid st).grid (fun x => x.isMine) = 0 :=
      cellCount_createGrid st (fun x => x.isMine) (fun _ _ => rfl)
    refine ⟨rfl, rfl, rfl, rfl, rfl, rfl, rfl, h1, ?_, ?_⟩
    · show gridCount st.rows st.cols g (fun x => x.isMine) = st.mines
      omega
    · intro r hr c hc
      show cellAt g r c = _
      rw [h3 r c, cellAt_createGrid st r c hr hc]

/-! ## `calculateNumbers` -/

/-- A loop that settles one key per step: when every step keeps the invariant,
settles its own key, and never unsettles a key, all keys of the list are
settled at the end. -/
theorem foldl_settles {σ κ : Type} (Inv : σ → Prop) (Done : κ → σ → Prop) (step : σ → κ → σ)
    (Ok : κ → Prop)
    (hInv : ∀ s k, Inv s → Ok k → Inv (step s k))
    (hDone : ∀ s k, Inv s → Ok k → Done k (step s k))
    (hKeep : ∀ s k k', Inv s → Ok k → Done k' s → Done k' (step s k)) :
    ∀ (l : List κ) (s : σ), Inv s → (∀ k ∈ l, Ok k) →
      Inv (l.foldl step s) ∧ (∀ k ∈ l, Done k (l.foldl step s)) ∧
      ∀ k', Done k' s → Done k' (l.foldl step s) := by
  intro l
  induction l with
  | nil => intro s hs _; exact ⟨hs, by simp, fun _ h => h⟩
  | cons k l ih =>
    intro s hs hok
    have hk : Ok k := hok k (List.mem_cons_self _ _)
    have hl : ∀ k ∈ l, Ok k := fun k' hk' => hok k' (List.mem_cons_of_mem _ hk')
    obtain ⟨h1, h2, h3⟩ := ih (step s k) (hInv s k hs hk) hl
    refine ⟨h1, ?_, ?_⟩
    · intro k' hk'
      rcases List.mem_cons.mp hk' with heq | hmem
      · subst heq
        exact h3 _ (hDone s _ hs hk)
      · exact h2 k' hmem
    · intro k' hd
      exact h3 k' (hKeep s k k' hs hk hd)

theorem countAdjacentMines_congr {st s : MainScene} (hrows : s.rows = st.rows)
    (hcols : s.cols = st.cols)
    (hmine : ∀ r c, (cellAt s.grid r c).isMine = (cellAt st.grid r c).isMine) (r c : Nat) :
    countAdjacentMines s r c = countAdjacentMines st r c := by
  unfold countAdjacentMines
  congr 1
  funext count d
  simp only [isInside, hrows, hcols, hmine]

theorem numberCell_spec {st s : MainScene} (h : NumbersOnly st s) (r c : Nat)
    (hr : r < st.rows) (hc : c < st.cols) :
    NumbersOnly st (numberCell s r c) ∧ Numbered st (r, c) (numberCell s r c) ∧
    ∀ p, Numbered st p s → Numbered st p (numberCell s r c) := by
  obtain ⟨h1, h2, h3, h4, h5, h6, h7, hwf, hcell, hmine⟩ := h
  have hr' : r < s.rows := by omega
  have hc' : c < s.cols := by omega
  have hcnt : countAdjacentMines s r c = countAdjacentMines st r c :=
    countAdjacentMines_congr h1 h2 (fun a b => (hcell a b).2.2.1) r c
  by_cases hm : (cellAt s.grid r c).isMine = true
  · have hstep : numberCell s r c = s := by unfold numberCell; simp [hm]
    rw [hstep]
    refine ⟨⟨h1, h2, h3, h4, h5, h6, h7, hwf, hcell, hmine⟩, ?_, fun _ hp => hp⟩
    intro hno
    rw [(hcell r c).2.2.1] at hm
    simp only at hno
    rw [hm] at hno
    exact absurd hno (by simp)
  · have hm' : (cellAt s.grid r c).isMine = false := by simpa using hm
    have hstep : numberCell s r c =
        { s with
          grid := (modifyCell s.grid r c (fun x => { x with number := countAdjacentMines s r c })) } := by
      unfold numberCell; simp [hm']
    have hat : ∀ r' c', cellAt (modifyCell s.grid r c
          (fun x => { x with number := countAdjacentMines s r c })) r' c' =
        if r = r' ∧ c = c' then { cellAt s.grid r c with number := countAdjacentMines s r c }
        else cellAt s.grid r' c' := fun r' c' => cellAt_modifyCell hwf r c hr' hc' _ r' c'
    rw [hstep]
    refine ⟨⟨h1, h2, h3, h4, h5, h6, h7, ?_, ?_, ?_⟩, ?_, ?_⟩
    · exact GridWF.modify hwf r c _ (fun x => ⟨rfl, rfl⟩)
    · intro r' c'
      dsimp only
      rw [hat]
      split
      · rename_i hEq
        obtain ⟨ha, hb⟩ := hEq
        subst ha; subst hb
        exact hcell r c
      · exact hcell r' c'
    · intro r' c' hmn
      dsimp only
      rw [hat]
      split
      · rename_i hEq
        obtain ⟨ha, hb⟩ := hEq
        subst ha; subst hb
        rw [(hcell r c).2.2.1, hmn] at hm'
        exact absurd hm' (by simp)
      · exact hmine r' c' hmn
    · intro _
      dsimp only
      rw [hat]
      simp [hcnt]
    · intro p hp hno
      dsimp only
      rw [hat]
      split
      · rename_i hEq
        obtain ⟨ha, hb⟩ := hEq
        simp only [← ha, ← hb, hcnt]
      · exact hp hno

/-- What `calculateNumbers` does to a well-formed scene: only `number` fields
change, and every non-mine cell inside the grid holds the counter of
`calculateNumbers` evaluated on the scene before the call. -/
theorem calculateNumbers_spec (st : MainScene) (hwf : WellFormed st) :
    NumbersOnly st (calculateNumbers st) ∧
    ∀ r, r < st.rows → ∀ c, c < st.cols → (cellAt st.grid r c).isMine = false →
      (cellAt (calculateNumbers st).grid r c).number = countAdjacentMines st r c := by
  have hinner : ∀ (r : Nat), r < st.rows → ∀ (Extra : MainScene → Prop),
      (∀ s r c, NumbersOnly st s → Extra s → r < st.rows → c < st.cols →
        Extra (numberCell s r c)) →
      ∀ s, NumbersOnly st s → Extra s →
        (NumbersOnly st ((List.range s.cols).foldl (fun s c => numberCell s r c) s) ∧
          Extra ((List.range s.cols).foldl (fun s c => numberCell s r c) s)) ∧
        ∀ c, c < st.cols →
          Numbered st (r, c) ((List.range s.cols).foldl (fun s c => numberCell s r c) s) := by
    intro r hr Extra hExtra s hs hx
    have hcols : s.cols = st.cols := hs.2.1
    have := foldl_settles (fun s => NumbersOnly st s ∧ Extra s)
      (fun c s => Numbered st (r, c) s) (fun s c => numberCell s r c) (fun c => c < st.cols)
      (fun s c hs hc => ⟨(numberCell_spec hs.1 r c hr hc).1, hExtra s r c hs.1 hs.2 hr hc⟩)
      (fun s c hs hc => (numberCell_spec hs.1 r c hr hc).2.1)
      (fun s c c' hs hc hd => (numberCell_spec hs.1 r c hr hc).2.2 (r, c') hd)
      (List.range s.cols) s ⟨hs, hx⟩ (fun c hc => by rw [hcols] at hc; exact List.mem_range.mp hc)
    refine ⟨this.1, fun c hc => this.2.1 c ?_⟩
    rw [hcols]; exact List.mem_range.mpr hc
  have hst : NumbersOnly st st :=
    ⟨rfl, rfl, rfl, rfl, rfl, rfl, rfl, hwf, fun _ _ => ⟨rfl, rfl, rfl, rfl, rfl, rfl⟩,
      fun _ _ _ => rfl⟩
  have houter := foldl_settles (fun s => NumbersOnly st s)
    (fun r s => ∀ c, c < st.cols → Numbered st (r, c) s)
    (fun s r => (List.range s.cols).foldl (fun s c => numberCell s r c) s)
    (fun r => r < st.rows)
    (fun s r hs hr => (hinner r hr (fun _ => True) (fun _ _ _ _ _ _ _ => trivial) s hs trivial).1.1)
    (fun s r hs hr => (hinner r hr (fun _ => True) (fun _ _ _ _ _ _ _ => trivial) s hs trivial).2)
    (fun s r r' hs hr hd =>
      (hinner r hr (fun s => ∀ c, c < st.cols → Numbered st (r', c) s)
        (fun s a b hs hx ha hb c hc => (numberCell_spec hs a b ha hb).2.2 (r', c) (hx c hc))
        s hs hd).1.2)
    (List.range st.rows) st hst (fun r hr => List.mem_range.mp hr)
  refine ⟨houter.1, ?_⟩
  intro r hr c hc hm
  exact houter.2.1 r (List.mem_range.mpr hr) c hc hm

/-! ## The counter of `calculateNumbers` counts the mine neighbours -/

theorem foldl_count {α : Type} (P : α → Bool) (l : List α) (acc : Nat) :
    l.foldl (fun a d => if P d = true then a + 1 else a) acc = acc + (l.filter P).length := by
  induction l generalizing acc with
  | nil => simp
  | cons d l ih =>
    simp only [List.foldl_cons, List.filter_cons]
    by_cases h : P d = true
    · simp only [h, if_true, List.length_cons]; rw [ih]; omega
    · simp only [h, if_false]; rw [ih]; simp

theorem mem_dirs (d : Int × Int) :
    d ∈ dirs ↔ (d.1 = -1 ∨ d.1 = 0 ∨ d.1 = 1) ∧ (d.2 = -1 ∨ d.2 = 0 ∨ d.2 = 1) ∧
      ¬ (d.1 = 0 ∧ d.2 = 0) := by
  obtain ⟨a, b⟩ := d
  simp only [dirs, List.mem_cons, Prod.mk.injEq, List.mem_singleton, List.not_mem_nil, or_false]
  omega

theorem dirs_nodup : dirs.Nodup := by decide

theorem isInside_iff (st : MainScene) (r c : Int) :
    isInside st r c = true ↔ 0 ≤ r ∧ r < st.rows ∧ 0 ≤ c ∧ c < st.cols := by
  unfold isInside
  simp only [Bool.and_eq_true, decide_eq_true_eq, ge_iff_le]
  tauto

/-- Every in-grid Moore neighbour of `(r, c)` is reached by exactly the offset
`(q.1 - r, q.2 - c)` of `dirs`. -/
theorem adjacent_iff_dirs (st : MainScene) (r c : Nat) (q : Nat × Nat) :
    (q.1 < st.rows ∧ q.2 < st.cols ∧ Adjacent (r, c) q) ↔
      ∃ d ∈ dirs, isInside st ((r : Int) + d.1) ((c : Int) + d.2) = true ∧
        q = (((r : Int) + d.1).toNat, ((c : Int) + d.2).toNat) := by
  obtain ⟨a, b⟩ := q
  constructor
  · rintro ⟨h1, h2, hne, h3, h4, h5, h6⟩
    refine ⟨((a : Int) - r, (b : Int) - c), ?_, ?_, ?_⟩
    · rw [mem_dirs]
      have : ¬ (r = a ∧ c = b) := fun h => hne (by rw [h.1, h.2])
      simp only at h3 h4 h5 h6 ⊢
      omega
    · rw [isInside_iff]
      simp only at h1 h2 ⊢
      omega
    · simp only [Prod.mk.injEq]
      omega
  · rintro ⟨d, hd, hin, hq⟩
    rw [mem_dirs] at hd
    rw [isInside_iff] at hin
    simp only [Prod.mk.injEq] at hq
    obtain ⟨hq1, hq2⟩ := hq
    refine ⟨by simp only; omega, by simp only; omega, ?_, ?_⟩
    · intro h
      simp only [Prod.mk.injEq] at h
      omega
    · simp only
      omega

theorem countAdjacentMines_eq (st : MainScene) (r c : Nat) :
    countAdjacentMines st r c = mineNeighbours st r c := by
  have hfold : countAdjacentMines st r c =
      (dirs.filter (fun d => isInside st ((r : Int) + d.1) ((c : Int) + d.2) &&
        (cellAt st.grid ((r : Int) + d.1).toNat ((c : Int) + d.2).toNat).isMine)).length := by
    unfold countAdjacentMines
    rw [foldl_count
      (fun d => isInside st ((r : Int) + d.1) ((c : Int) + d.2) &&
        (cellAt st.grid ((r : Int) + d.1).toNat ((c : Int) + d.2).toNat).isMine) dirs 0]
    simp
  rw [hfold, ← List.toFinset_card_of_nodup (dirs_nodup.filter _)]
  unfold mineNeighbours
  apply Finset.card_bij (fun d _ => (((r : Int) + d.1).toNat, ((c : Int) + d.2).toNat))
  · intro d hd
    simp only [List.mem_toFinset, List.mem_filter, Bool.and_eq_true] at hd
    obtain ⟨hd, hin, hm⟩ := hd
    have hadj := (adjacent_iff_dirs st r c _).mpr ⟨d, hd, hin, rfl⟩
    simp only [Finset.mem_filter, Finset.mem_product, Finset.mem_range]
    exact ⟨⟨hadj.1, hadj.2.1⟩, hadj.2.2, hm⟩
  · intro d1 hd1 d2 hd2 heq
    simp only [List.mem_toFinset, List.mem_filter, Bool.and_eq_true] at hd1 hd2
    obtain ⟨_, hin1, _⟩ := hd1
    obtain ⟨_, hin2, _⟩ := hd2
    rw [isInside_iff] at hin1 hin2
    simp only [Prod.mk.injEq] at heq
    obtain ⟨a1, b1⟩ := d1
    obtain ⟨a2, b2⟩ := d2
    simp only [Prod.mk.injEq] at hin1 hin2 heq ⊢
    omega
  · intro q hq
    simp only [Finset.mem_filter, Finset.mem_product, Finset.mem_range] at hq
    obtain ⟨⟨hq1, hq2⟩, hadj, hm⟩ := hq
    obtain ⟨d, hd, hin, hqd⟩ := (adjacent_iff_dirs st r c q).mp ⟨hq1, hq2, hadj⟩
    refine ⟨d, ?_, hqd.symm⟩
    simp only [List.mem_toFinset, List.mem_filter, Bool.and_eq_true]
    refine ⟨hd, hin, ?_⟩
    rw [hqd] at hm
    exact hm

/-! ## `revealCell`: unfolding -/

theorem revealNeighbors_eq (reveal : MainScene → Nat → Nat → Option MainScene)
    (st : MainScene) (cell : Cell) :
    revealNeighbors reveal st cell = dirs.foldlM (neighborStep reveal cell) st := rfl

theorem revealCellAux_succ_raw (fuel : Nat) (st : MainScene) (r c : Nat) :
    revealCellAux (fuel + 1) st r c =
      if ((cellAt st.grid r c).isRevealed || (cellAt st.grid r c).isFlagged) = true then some st
      else if (cellAt st.grid r c).isMine = true then some (gameOver (markRevealed st r c) false)
      else
        match (if (cellAt st.grid r c).number > 0 then some (markRevealed st r c)
               else revealNeighbors (revealCellAux fuel) (markRevealed st r c)
                 (cellAt st.grid r c)) with
        | none => none
        | some st3 => if checkWin st3 = true then some (gameOver st3 true) else some st3 := rfl

theorem revealCellAux_succ (fuel : Nat) (st : MainScene) (r c : Nat) :
    revealCellAux (fuel + 1) st r c =
      if (cellAt st.grid r c).isRevealed = true ∨ (cellAt st.grid r c).isFlagged = true then
        some st
      else if (cellAt st.grid r c).isMine = true then some (gameOver (markRevealed st r c) false)
      else if (cellAt st.grid r c).number > 0 then some (winCheck (markRevealed st r c))
      else
        (revealNeighbors (revealCellAux fuel) (markRevealed st r c) (cellAt st.grid r c)).map
          winCheck := by
  rw [revealCellAux_succ_raw]
  have hw : ∀ s : MainScene,
      (if checkWin s = true then some (gameOver s true) else some s) = some (winCheck s) := by
    intro s; unfold winCheck; split <;> rfl
  cases h1 : (cellAt st.grid r c).isRevealed <;> cases h2 : (cellAt st.grid r c).isFlagged <;>
    cases h3 : (cellAt st.grid r c).isMine <;>
    simp only [Bool.or_self, Bool.or_true, Bool.or_false, Bool.true_or, Bool.false_eq_true,
      if_false, if_true, or_self, or_true, true_or, or_false]
  by_cases h4 : (cellAt st.grid r c).number > 0
  · simp only [h4, if_true, hw]
  · simp only [h4, if_false]
    cases revealNeighbors (revealCellAux fuel) (markRevealed st r c) (cellAt st.grid r c) with
    | none => rfl
    | some st3 => simp only [Option.map_some', hw]

theorem markRevealed_fields (st : MainScene) (r c : Nat) :
    (markRevealed st r c).rows = st.rows ∧ (markRevealed st r c).cols = st.cols ∧
    (markRevealed st r c).mines = st.mines ∧ (markRevealed st r c).flagsLeft = st.flagsLeft ∧
    (markRevealed st r c).isGameOver = st.isGameOver ∧
    (markRevealed st r c).firstClick = false ∧
    (markRevealed st r c).timerEvent = (st.timerEvent || st.firstClick) ∧
    (markRevealed st r c).grid = modifyCell st.grid r c (fun x => { x with isRevealed := true }) := by
  unfold markRevealed startTimer
  cases hf : st.firstClick <;> simp [hf]

theorem winCheck_fields (st : MainScene) :
    (winCheck st).rows = st.rows ∧ (winCheck st).cols = st.cols ∧
    (winCheck st).mines = st.mines ∧ (winCheck st).flagsLeft = st.flagsLeft ∧
    (winCheck st).firstClick = st.firstClick ∧ (winCheck st).grid = st.grid := by
  unfold winCheck gameOver
  split <;> simp

theorem gameOver_fields (st : MainScene) (won : Bool) :
    (gameOver st won).rows = st.rows ∧ (gameOver st won).cols = st.cols ∧
    (gameOver st won).mines = st.mines ∧ (gameOver st won).flagsLeft = st.flagsLeft ∧
    (gameOver st won).firstClick = st.firstClick ∧ (gameOver st won).grid = st.grid ∧
    (gameOver st won).isGameOver = true ∧ (gameOver st won).timerEvent = false :=
  ⟨rfl, rfl, rfl, rfl, rfl, rfl, rfl, rfl⟩

/-! ## `revealCell`: frame, soundness and closure of the cascade -/

theorem RevealFrame.refl {st : MainScene} (hwf : WellFormed st) : RevealFrame st st :=
  ⟨rfl, rfl, rfl, rfl, hwf, fun _ _ => ⟨⟨rfl, rfl, rfl, rfl, rfl, rfl⟩, fun h => h⟩⟩

theorem RevealFrame.trans {a b c : MainScene} (h1 : RevealFrame a b) (h2 : RevealFrame b c) :
    RevealFrame a c := by
  obtain ⟨a1, a2, a3, a4, _, a6⟩ := h1
  obtain ⟨b1, b2, b3, b4, b5, b6⟩ := h2
  refine ⟨b1.trans a1, b2.trans a2, b3.trans a3, b4.trans a4, b5, ?_⟩
  intro r c'
  obtain ⟨⟨x1, x2, x3, x4, x5, x6⟩, x7⟩ := a6 r c'
  obtain ⟨⟨y1, y2, y3, y4, y5, y6⟩, y7⟩ := b6 r c'
  exact ⟨⟨y1.trans x1, y2.trans x2, y3.trans x3, y4.trans x4, y5.trans x5, y6.trans x6⟩,
    fun h => y7 (x7 h)⟩

/-- The frame only looks at the sizes, `mines`, `flagsLeft` and the grid. -/
theorem revealFrame_of_eq {st s s' : MainScene} (h : RevealFrame st s)
    (h1 : s'.rows = s.rows) (h2 : s'.cols = s.cols) (h3 : s'.mines = s.mines)
    (h4 : s'.flagsLeft = s.flagsLeft) (h5 : s'.grid = s.grid) : RevealFrame st s' := by
  obtain ⟨a1, a2, a3, a4, a5, a6⟩ := h
  refine ⟨h1.trans a1, h2.trans a2, h3.trans a3, h4.trans a4, ?_, ?_⟩
  · unfold WellFormed; rw [h1, h2, h5]; exact a5
  · rw [h5]; exact a6

theorem cellAt_markRevealed {st : MainScene} (hwf : WellFormed st) (r c : Nat)
    (hr : r < st.rows) (hc : c < st.cols) (r' c' : Nat) :
    cellAt (markRevealed st r c).grid r' c' =
      if r = r' ∧ c = c' then { cellAt st.grid r c with isRevealed := true }
      else cellAt st.grid r' c' := by
  rw [(markRevealed_fields st r c).2.2.2.2.2.2.2]
  exact cellAt_modifyCell hwf r c hr hc _ r' c'

theorem markRevealed_frame {st : MainScene} (hwf : WellFormed st) (r c : Nat)
    (hr : r < st.rows) (hc : c < st.cols) : RevealFrame st (markRevealed st r c) := by
  obtain ⟨m1, m2, m3, m4, _, _, _, m8⟩ := markRevealed_fields st r c
  refine ⟨m1, m2, m3, m4, ?_, ?_⟩
  · unfold WellFormed
    rw [m1, m2, m8]
    exact GridWF.modify hwf r c _ (fun x => ⟨rfl, rfl⟩)
  · intro r' c'
    rw [cellAt_markRevealed hwf r c hr hc]
    split
    · rename_i hEq
      obtain ⟨ha, hb⟩ := hEq
      subst ha; subst hb
      exact ⟨⟨rfl, rfl, rfl, rfl, rfl, rfl⟩, fun _ => rfl⟩
    · exact ⟨⟨rfl, rfl, rfl, rfl, rfl, rfl⟩, fun h => h⟩

theorem passable_mono {st s : MainScene} (h : RevealFrame st s) {p : Nat × Nat}
    (hp : Passable s p) : Passable st p := by
  obtain ⟨a1, a2, _, _, _, a6⟩ := h
  obtain ⟨p1, p2, p3, p4, p5⟩ := hp
  obtain ⟨⟨_, _, _, x4, x5, _⟩, x7⟩ := a6 p.1 p.2
  refine ⟨by omega, by omega, ?_, by rw [← x5]; exact p4, by rw [← x4]; exact p5⟩
  cases hrev : (cellAt st.grid p.1 p.2).isRevealed with
  | false => rfl
  | true => rw [x7 hrev] at p3; exact absurd p3 (by simp)

theorem cascadePath_mono {st s : MainScene} (h : RevealFrame st s) {a x : Nat × Nat}
    (hp : CascadePath s a x) : CascadePath st a x := by
  unfold CascadePath at hp ⊢
  refine Relation.ReflTransGen.mono ?_ hp
  intro p q hstep
  obtain ⟨h1, h2, h3, h4⟩ := hstep
  exact ⟨passable_mono h h1, h2, by rw [← h.1]; exact h3, by rw [← h.2.1]; exact h4⟩

theorem NewlyRevealed.split {st s s' : MainScene} {x : Nat × Nat}
    (h : NewlyRevealed st s' x) :
    NewlyRevealed st s x ∨ NewlyRevealed s s' x := by
  obtain ⟨hx1, hx2⟩ := h
  cases hrev : (cellAt s.grid x.1 x.2).isRevealed with
  | false => exact Or.inr ⟨hx1, hrev⟩
  | true => exact Or.inl ⟨hrev, hx2⟩

theorem neighbourAt_inside {st : MainScene} {p : Nat × Nat} {d : Int × Int} (hd : d ∈ dirs)
    (hin : isInside st ((p.1 : Int) + d.1) ((p.2 : Int) + d.2) = true) :
    (neighbourAt p d).1 < st.rows ∧ (neighbourAt p d).2 < st.cols ∧
      Adjacent p (neighbourAt p d) := by
  have h := (adjacent_iff_dirs st p.1 p.2 (neighbourAt p d)).mpr ⟨d, hd, hin, rfl⟩
  exact h

/-- The loop of `revealNeighbors`, given the contract of the calls it makes. -/
theorem neighbours_spec (reveal : MainScene → Nat → Nat → Option MainScene)
    (hrev : ∀ s r c s', WellFormed s → r < s.rows → c < s.cols → reveal s r c = some s' →
      RevealPost s (r, c) s')
    (cell : Cell) (p : Nat × Nat) (hrow : cell.row = p.1) (hcol : cell.col = p.2) :
    ∀ (ds : List (Int × Int)), (∀ d ∈ ds, d ∈ dirs) → ∀ (s s' : MainScene), WellFormed s →
      ds.foldlM (neighborStep reveal cell) s = some s' → NeighboursPost s p ds s' := by
  intro ds
  induction ds with
  | nil =>
    intro _ s s' hwf h
    simp only [List.foldlM_nil, pure, Option.some.injEq] at h
    subst h
    refine ⟨RevealFrame.refl hwf, by simp, ?_, ?_⟩
    · intro x hx
      obtain ⟨h1, h2⟩ := hx
      rw [h1] at h2; exact absurd h2 (by simp)
    · intro y hy
      obtain ⟨h1, h2⟩ := hy
      rw [h1] at h2; exact absurd h2 (by simp)
  | cons d ds ih =>
    intro hds s s' hwf h
    have hd : d ∈ dirs := hds d (List.mem_cons_self _ _)
    have hds' : ∀ d ∈ ds, d ∈ dirs := fun e he => hds e (List.mem_cons_of_mem _ he)
    simp only [List.foldlM_cons, bind, Option.bind_eq_some] at h
    obtain ⟨s1, hs1, hrest⟩ := h
    -- the call for the offset `d`
    have hstep : RevealFrame s s1 ∧ CascadeClosed s s1 ∧
        (isInside s ((p.1 : Int) + d.1) ((p.2 : Int) + d.2) = true →
          (cellAt s1.grid (neighbourAt p d).1 (neighbourAt p d).2).isRevealed = true ∨
            (cellAt s.grid (neighbourAt p d).1 (neighbourAt p d).2).isFlagged = true) ∧
        (∀ x, NewlyRevealed s s1 x →
          x.1 < s.rows ∧ x.2 < s.cols ∧ (cellAt s.grid x.1 x.2).isFlagged = false ∧
            isInside s ((p.1 : Int) + d.1) ((p.2 : Int) + d.2) = true ∧
            CascadePath s (neighbourAt p d) x) := by
      unfold neighborStep at hs1
      rw [hrow, hcol] at hs1
      by_cases hin : isInside s ((p.1 : Int) + d.1) ((p.2 : Int) + d.2) = true
      · simp only [hin, if_true] at hs1
        obtain ⟨hb1, hb2, _⟩ := neighbourAt_inside hd hin
        obtain ⟨q1, q2, q3, q4⟩ := hrev s _ _ s1 hwf hb1 hb2 hs1
        refine ⟨q1, q4, fun _ => q2, ?_⟩
        intro x hx
        obtain ⟨x1, x2, x3, x4⟩ := q3 x hx
        exact ⟨x1, x2, x3, hin, x4⟩
      · simp only [hin, Bool.false_eq_true, if_false, Option.some.injEq] at hs1
        subst hs1
        refine ⟨RevealFrame.refl hwf, ?_, fun h => absurd h hin, ?_⟩
        · intro y hy
          obtain ⟨h1, h2⟩ := hy
          rw [h1] at h2; exact absurd h2 (by simp)
        · intro x hx
          obtain ⟨h1, h2⟩ := hx
          rw [h1] at h2; exact absurd h2 (by simp)
    obtain ⟨f1, c1, n1, p1⟩ := hstep
    obtain ⟨f2, n2, p2, c2⟩ := ih hds' s1 s' f1.2.2.2.2.1 hrest
    have hflag : ∀ r c, (cellAt s1.grid r c).isFlagged = (cellAt s.grid r c).isFlagged :=
      fun r c => (f1.2.2.2.2.2 r c).1.2.2.2.2.1
    have hins : ∀ a b : Int, isInside s1 a b = isInside s a b := by
      intro a b; unfold isInside; rw [f1.1, f1.2.1]
    refine ⟨f1.trans f2, ?_, ?_, ?_⟩
    · intro e he hin
      rcases List.mem_cons.mp he with heq | hmem
      · subst heq
        rcases n1 hin with h | h
        · exact Or.inl ((f2.2.2.2.2.2 _ _).2 h)
        · exact Or.inr h
      · rw [← hins] at hin
        rcases n2 e hmem hin with h | h
        · exact Or.inl h
        · exact Or.inr (by rw [← hflag]; exact h)
    · intro x hx
      rcases hx.split (s := s1) with h | h
      · obtain ⟨x1, x2, x3, x4, x5⟩ := p1 x h
        exact ⟨x1, x2, x3, d, List.mem_cons_self _ _, x4, x5⟩
      · obtain ⟨x1, x2, x3, e, he, x4, x5⟩ := p2 x h
        refine ⟨by rw [← f1.1]; exact x1, by rw [← f1.2.1]; exact x2, by rw [← hflag]; exact x3,
          e, List.mem_cons_of_mem _ he, by rw [← hins]; exact x4, cascadePath_mono f1 x5⟩
    · intro y hy hm hn n hn1 hn2 hadj
      rcases hy.split (s := s1) with h | h
      · rcases c1 y h hm hn n hn1 hn2 hadj with h' | h'
        · exact Or.inl ((f2.2.2.2.2.2 _ _).2 h')
        · exact Or.inr h'
      · have e := (f1.2.2.2.2.2 y.1 y.2).1
        rcases c2 y h (by rw [e.2.2.1]; exact hm) (by rw [e.2.2.2.1]; exact hn) n
            (by rw [f1.1]; exact hn1) (by rw [f1.2.1]; exact hn2) hadj with h' | h'
        · exact Or.inl h'
        · exact Or.inr (by rw [← hflag]; exact h')

/-- The contract of `revealCell` only looks at the sizes, `mines`, `flagsLeft`
and the grid of the scene it returns. -/
theorem revealPost_of_eq {st s s' : MainScene} {p : Nat × Nat} (h : RevealPost st p s)
    (h1 : s'.rows = s.rows) (h2 : s'.cols = s.cols) (h3 : s'.mines = s.mines)
    (h4 : s'.flagsLeft = s.flagsLeft) (h5 : s'.grid = s.grid) : RevealPost st p s' := by
  obtain ⟨a1, a2, a3, a4⟩ := h
  refine ⟨revealFrame_of_eq a1 h1 h2 h3 h4 h5, ?_, ?_, ?_⟩
  · rw [h5]; exact a2
  · intro x hx
    exact a3 x (by unfold NewlyRevealed at hx ⊢; rw [h5] at hx; exact hx)
  · intro y hy hm hn n hn1 hn2 hadj
    rw [h5]
    exact a4 y (by unfold NewlyRevealed at hy ⊢; rw [h5] at hy; exact hy) hm hn n hn1 hn2 hadj

theorem RevealPost.winCheck {st s : MainScene} {p : Nat × Nat} (h : RevealPost st p s) :
    RevealPost st p (winCheck s) := by
  obtain ⟨w1, w2, w3, w4, _, w6⟩ := winCheck_fields s
  exact revealPost_of_eq h w1 w2 w3 w4 w6

/-- The only cell that `markRevealed` newly reveals is the marked one. -/
theorem newly_markRevealed {st : MainScene} (hwf : WellFormed st) {r c : Nat}
    (hr : r < st.rows) (hc : c < st.cols) {x : Nat × Nat}
    (hx : NewlyRevealed st (markRevealed st r c) x) : x = (r, c) := by
  obtain ⟨h1, h2⟩ := hx
  rw [cellAt_markRevealed hwf r c hr hc] at h1
  by_cases hEq : r = x.1 ∧ c = x.2
  · obtain ⟨ha, hb⟩ := hEq
    exact Prod.ext ha.symm hb.symm
  · simp only [hEq, if_false] at h1
    rw [h1] at h2; exact absurd h2 (by simp)

/-- Marking a cell from which the cascade does not continue. -/
theorem markRevealed_post {st : MainScene} (hwf : WellFormed st) {r c : Nat}
    (hr : r < st.rows) (hc : c < st.cols)
    (hflag : (cellAt st.grid r c).isFlagged = false)
    (hstop : (cellAt st.grid r c).isMine = true ∨ (cellAt st.grid r c).number > 0) :
    RevealPost st (r, c) (markRevealed st r c) := by
  refine ⟨markRevealed_frame hwf r c hr hc, ?_, ?_, ?_⟩
  · left
    rw [cellAt_markRevealed hwf r c hr hc]
    simp
  · intro x hx
    have := newly_markRevealed hwf hr hc hx
    subst this
    exact ⟨hr, hc, hflag, Relation.ReflTransGen.refl⟩
  · intro y hy hm hn
    have := newly_markRevealed hwf hr hc hy
    subst this
    rcases hstop with h | h
    · simp only at hm; rw [h] at hm; exact absurd hm (by simp)
    · simp only at hn; omega

/-- The contract of `revealCell`: whenever the call on an in-grid cell of a
well-formed board returns, it returns the board with more cells revealed, the
clicked cell revealed or flagged, every newly revealed cell unflagged and at
the end of a cascade path from the clicked cell, and the cascade closed. -/
theorem revealCellAux_spec : ∀ (fuel : Nat) (st : MainScene) (r c : Nat) (st' : MainScene),
    WellFormed st → r < st.rows → c < st.cols → revealCellAux fuel st r c = some st' →
    RevealPost st (r, c) st' := by
  intro fuel
  induction fuel with
  | zero => intro st r c st' _ _ _ h; simp [revealCellAux] at h
  | succ fuel ih =>
    intro st r c st' hwf hr hc h
    rw [revealCellAux_succ] at h
    by_cases h1 : (cellAt st.grid r c).isRevealed = true ∨ (cellAt st.grid r c).isFlagged = true
    · rw [if_pos h1, Option.some.injEq] at h
      subst h
      refine ⟨RevealFrame.refl hwf, h1, ?_, ?_⟩
      · intro x hx
        obtain ⟨a, b⟩ := hx
        rw [a] at b; exact absurd b (by simp)
      · intro y hy
        obtain ⟨a, b⟩ := hy
        rw [a] at b; exact absurd b (by simp)
    rw [if_neg h1] at h
    have hrev0 : (cellAt st.grid r c).isRevealed = false := by
      cases hh : (cellAt st.grid r c).isRevealed with
      | false => rfl
      | true => exact absurd (Or.inl hh) h1
    have hflag0 : (cellAt st.grid r c).isFlagged = false := by
      cases hh : (cellAt st.grid r c).isFlagged with
      | false => rfl
      | true => exact absurd (Or.inr hh) h1
    by_cases h2 : (cellAt st.grid r c).isMine = true
    · rw [if_pos h2, Option.some.injEq] at h
      subst h
      obtain ⟨g1, g2, g3, g4, _, g6, _⟩ := gameOver_fields (markRevealed st r c) false
      exact revealPost_of_eq (markRevealed_post hwf hr hc hflag0 (Or.inl h2)) g1 g2 g3 g4 g6
    rw [if_neg h2] at h
    have hmine0 : (cellAt st.grid r c).isMine = false := by simpa using h2
    by_cases h3 : (cellAt st.grid r c).number > 0
    · rw [if_pos h3, Option.some.injEq] at h
      subst h
      exact (markRevealed_post hwf hr hc hflag0 (Or.inr h3)).winCheck
    rw [if_neg h3, Option.map_eq_some'] at h
    obtain ⟨s3, hs3, hst'⟩ := h
    subst hst'
    apply RevealPost.winCheck
    have hnum0 : (cellAt st.grid r c).number = 0 := by omega
    have hm := markRevealed_frame hwf r c hr hc
    obtain ⟨hrow, hcol⟩ := (hwf r hr c hc).2
    rw [revealNeighbors_eq] at hs3
    obtain ⟨f2, n2, p2, c2⟩ := neighbours_spec (revealCellAux fuel) ih (cellAt st.grid r c) (r, c)
      hrow hcol dirs (fun _ hd => hd) (markRevealed st r c) s3 hm.2.2.2.2.1 hs3
    have hfl : ∀ a b, (cellAt (markRevealed st r c).grid a b).isFlagged =
        (cellAt st.grid a b).isFlagged := fun a b => (hm.2.2.2.2.2 a b).1.2.2.2.2.1
    have hins : ∀ a b : Int, isInside (markRevealed st r c) a b = isInside st a b := by
      intro a b; unfold isInside; rw [hm.1, hm.2.1]
    have hpass : Passable st (r, c) := ⟨hr, hc, hrev0, hflag0, hnum0⟩
    refine ⟨hm.trans f2, ?_, ?_, ?_⟩
    · left
      apply (f2.2.2.2.2.2 r c).2
      rw [cellAt_markRevealed hwf r c hr hc]
      simp
    · intro x hx
      rcases hx.split (s := markRevealed st r c) with h | h
      · have := newly_markRevealed hwf hr hc h
        subst this
        exact ⟨hr, hc, hflag0, Relation.ReflTransGen.refl⟩
      · obtain ⟨x1, x2, x3, d, hd, x4, x5⟩ := p2 x h
        rw [hins] at x4
        obtain ⟨b1, b2, b3⟩ := neighbourAt_inside hd x4
        refine ⟨by rw [← hm.1]; exact x1, by rw [← hm.2.1]; exact x2, by rw [← hfl]; exact x3, ?_⟩
        exact Relation.ReflTransGen.head ⟨hpass, b3, b1, b2⟩ (cascadePath_mono hm x5)
    · intro y hy hmy hny n hn1 hn2 hadj
      rcases hy.split (s := markRevealed st r c) with h | h
      · have := newly_markRevealed hwf hr hc h
        subst this
        obtain ⟨d, hd, hin, hnd⟩ := (adjacent_iff_dirs st r c n).mp ⟨hn1, hn2, hadj⟩
        have hnd' : n = neighbourAt (r, c) d := hnd
        rw [← hins] at hin
        rcases n2 d hd hin with h' | h'
        · left; rw [hnd']; exact h'
        · right; rw [hnd', ← hfl]; exact h'
      · have e := (hm.2.2.2.2.2 y.1 y.2).1
        rcases c2 y h (by rw [e.2.2.1]; exact hmy) (by rw [e.2.2.2.1]; exact hny) n
            (by rw [hm.1]; exact hn1) (by rw [hm.2.1]; exact hn2) hadj with h' | h'
        · exact Or.inl h'
        · exact Or.inr (by rw [← hfl]; exact h')

/-! ## `revealCell` returns -/

theorem unrevealedCount_le_size (st : MainScene) : unrevealedCount st ≤ st.rows * st.cols := by
  unfold unrevealedCount cellCount gridCount
  refine (Finset.card_filter_le _ _).trans ?_
  simp

theorem unrevealedCount_frame {s s' : MainScene} (h : RevealFrame s s') :
    unrevealedCount s' ≤ unrevealedCount s := by
  unfold unrevealedCount cellCount gridCount
  rw [h.1, h.2.1]
  apply Finset.card_le_card
  intro q hq
  simp only [Finset.mem_filter, Bool.not_eq_true'] at hq ⊢
  refine ⟨hq.1, ?_⟩
  cases hrev : (cellAt s.grid q.1 q.2).isRevealed with
  | false => rfl
  | true =>
    have := (h.2.2.2.2.2 q.1 q.2).2 hrev
    rw [this] at hq
    exact absurd hq.2 (by simp)

theorem unrevealedCount_markRevealed {st : MainScene} (hwf : WellFormed st) {r c : Nat}
    (hr : r < st.rows) (hc : c < st.cols) (hrev : (cellAt st.grid r c).isRevealed = false) :
    unrevealedCount (markRevealed st r c) + 1 = unrevealedCount st := by
  obtain ⟨m1, m2, _, _, _, _, _, m8⟩ := markRevealed_fields st r c
  unfold unrevealedCount cellCount
  rw [m1, m2, m8]
  exact gridCount_modify_clear hwf r c hr hc _ (fun x => !x.isRevealed) (by simp [hrev]) rfl

theorem neighbours_total (fuel : Nat)
    (ih : ∀ s r c, WellFormed s → r < s.rows → c < s.cols → unrevealedCount s < fuel →
      ∃ s', revealCellAux fuel s r c = some s')
    (cell : Cell) (p : Nat × Nat) (hrow : cell.row = p.1) (hcol : cell.col = p.2) :
    ∀ (ds : List (Int × Int)), (∀ d ∈ ds, d ∈ dirs) → ∀ (s : MainScene), WellFormed s →
      unrevealedCount s < fuel →
      ∃ s', ds.foldlM (neighborStep (revealCellAux fuel) cell) s = some s' := by
  intro ds
  induction ds with
  | nil => intro _ s _ _; exact ⟨s, rfl⟩
  | cons d ds ihds =>
    intro hds s hwf hcount
    have hd : d ∈ dirs := hds d (List.mem_cons_self _ _)
    have hds' : ∀ d ∈ ds, d ∈ dirs := fun e he => hds e (List.mem_cons_of_mem _ he)
    have hstep : ∃ s1, neighborStep (revealCellAux fuel) cell s d = some s1 ∧
        WellFormed s1 ∧ unrevealedCount s1 < fuel := by
      unfold neighborStep
      rw [hrow, hcol]
      by_cases hin : isInside s ((p.1 : Int) + d.1) ((p.2 : Int) + d.2) = true
      · obtain ⟨b1, b2, _⟩ := neighbourAt_inside hd hin
        obtain ⟨s1, hs1⟩ := ih s _ _ hwf b1 b2 hcount
        have hpost := revealCellAux_spec fuel s _ _ s1 hwf b1 b2 hs1
        refine ⟨s1, ?_, hpost.1.2.2.2.2.1, ?_⟩
        · simp only [hin, if_true]; exact hs1
        · exact lt_of_le_of_lt (unrevealedCount_frame hpost.1) hcount
      · exact ⟨s, by rw [if_neg hin], hwf, hcount⟩
    obtain ⟨s1, hs1, hwf1, hc1⟩ := hstep
    obtain ⟨s', hs'⟩ := ihds hds' s1 hwf1 hc1
    refine ⟨s', ?_⟩
    simp only [List.foldlM_cons, bind, Option.bind_eq_some]
    exact ⟨s1, hs1, hs'⟩

/-- With more fuel than unrevealed cells, `revealCell` returns. -/
theorem revealCellAux_total : ∀ (fuel : Nat) (st : MainScene) (r c : Nat),
    WellFormed st → r < st.rows → c < st.cols → unrevealedCount st < fuel →
    ∃ st', revealCellAux fuel st r c = some st' := by
  intro fuel
  induction fuel with
  | zero => intro st r c _ _ _ h; omega
  | succ fuel ih =>
    intro st r c hwf hr hc hcount
    rw [revealCellAux_succ]
    by_cases h1 : (cellAt st.grid r c).isRevealed = true ∨ (cellAt st.grid r c).isFlagged = true
    · exact ⟨st, by rw [if_pos h1]⟩
    rw [if_neg h1]
    by_cases h2 : (cellAt st.grid r c).isMine = true
    · exact ⟨_, by rw [if_pos h2]⟩
    rw [if_neg h2]
    by_cases h3 : (cellAt st.grid r c).number > 0
    · exact ⟨_, by rw [if_pos h3]⟩
    rw [if_neg h3]
    have hrev0 : (cellAt st.grid r c).isRevealed = false := by
      cases hh : (cellAt st.grid r c).isRevealed with
      | false => rfl
      | true => exact absurd (Or.inl hh) h1
    have hm := markRevealed_frame hwf r c hr hc
    have hcm := unrevealedCount_markRevealed hwf hr hc hrev0
    obtain ⟨hrow, hcol⟩ := (hwf r hr c hc).2
    obtain ⟨s3, hs3⟩ := neighbours_total fuel ih (cellAt st.grid r c) (r, c) hrow hcol dirs
      (fun _ hd => hd) (markRevealed st r c) hm.2.2.2.2.1 (by omega)
    rw [revealNeighbors_eq, hs3]
    exact ⟨_, rfl⟩

/-- On a well-formed board `revealCell` returns for every cell of the grid. -/
theorem revealCell_total (st : MainScene) (r c : Nat) (hwf : WellFormed st)
    (hr : r < st.rows) (hc : c < st.cols) : ∃ st', revealCell st r c = some st' :=
  revealCellAux_total _ st r c hwf hr hc (Nat.lt_succ_of_le (unrevealedCount_le_size st))

theorem revealCell_spec (st : MainScene) (r c : Nat) (st' : MainScene) (hwf : WellFormed st)
    (hr : r < st.rows) (hc : c < st.cols) (h : revealCell st r c = some st') :
    RevealPost st (r, c) st' :=
  revealCellAux_spec _ st r c st' hwf hr hc h

/-! ## Boards with computed numbers -/

theorem mineNeighbours_congr {st s : MainScene} (hrows : s.rows = st.rows)
    (hcols : s.cols = st.cols)
    (hmine : ∀ r c, (cellAt s.grid r c).isMine = (cellAt st.grid r c).isMine) (r c : Nat) :
    mineNeighbours s r c = mineNeighbours st r c := by
  unfold mineNeighbours
  rw [hrows, hcols]
  congr 1
  apply Finset.filter_congr
  intro q _
  rw [hmine]

/-- After `calculateNumbers` the number of a non-mine cell of the grid is the
number of mines among its in-grid Moore neighbours. -/
theorem calculateNumbers_number (st : MainScene) (hwf : WellFormed st) (r c : Nat)
    (hr : r < st.rows) (hc : c < st.cols)
    (hm : (cellAt (calculateNumbers st).grid r c).isMine = false) :
    (cellAt (calculateNumbers st).grid r c).number = mineNeighbours (calculateNumbers st) r c := by
  obtain ⟨hno, hnum⟩ := calculateNumbers_spec st hwf
  have hmine : ∀ a b, (cellAt (calculateNumbers st).grid a b).isMine = (cellAt st.grid a b).isMine :=
    fun a b => (hno.2.2.2.2.2.2.2.2.1 a b).2.2.1
  rw [hmine] at hm
  rw [hnum r hr c hc hm, countAdjacentMines_eq, mineNeighbours_congr hno.1 hno.2.1 hmine]

/-- A cell whose number is its mine-neighbour count and is 0 has no mine among
its in-grid Moore neighbours. -/
theorem no_mine_neighbour {st : MainScene} {p n : Nat × Nat}
    (hnum : mineNeighbours st p.1 p.2 = 0) (hn1 : n.1 < st.rows) (hn2 : n.2 < st.cols)
    (hadj : Adjacent p n) : (cellAt st.grid n.1 n.2).isMine = false := by
  unfold mineNeighbours at hnum
  rw [Finset.card_eq_zero, Finset.filter_eq_empty_iff] at hnum
  have := hnum (x := n) (by simp [hn1, hn2])
  cases hm : (cellAt st.grid n.1 n.2).isMine with
  | false => rfl
  | true => exact absurd ⟨hadj, hm⟩ this

/-- Completeness of the cascade: on a board whose non-mine cells carry their
mine-neighbour counts, a revealed non-mine cell at the start of a cascade path
has the unflagged end of the path revealed. -/
theorem cascade_complete {st st' : MainScene}
    (hnum : ∀ r, r < st.rows → ∀ c, c < st.cols → (cellAt st.grid r c).isMine = false →
      (cellAt st.grid r c).number = mineNeighbours st r c)
    (hclosed : CascadeClosed st st') {a x : Nat × Nat} (hpath : CascadePath st a x)
    (hx : (cellAt st.grid x.1 x.2).isFlagged = false) :
    (cellAt st.grid a.1 a.2).isMine = false → (cellAt st'.grid a.1 a.2).isRevealed = true →
      (cellAt st'.grid x.1 x.2).isRevealed = true := by
  unfold CascadePath at hpath
  induction hpath using Relation.ReflTransGen.head_induction_on with
  | refl => intro _ h; exact h
  | head hstep hrest ih =>
    rename_i a b
    intro hma hra
    obtain ⟨⟨pa1, pa2, pa3, pa4, pa5⟩, hadj, hb1, hb2⟩ := hstep
    have hnb : mineNeighbours st a.1 a.2 = 0 := by rw [← hnum a.1 pa1 a.2 pa2 hma]; exact pa5
    have hmb : (cellAt st.grid b.1 b.2).isMine = false := no_mine_neighbour hnb hb1 hb2 hadj
    have hbflag : (cellAt st.grid b.1 b.2).isFlagged = false := by
      rcases Relation.ReflTransGen.cases_head hrest with h | ⟨_, hs, _⟩
      · rw [h]; exact hx
      · exact hs.1.2.2.2.1
    have hrb : (cellAt st'.grid b.1 b.2).isRevealed = true := by
      rcases hclosed a ⟨hra, pa3⟩ hma pa5 b hb1 hb2 hadj with h | h
      · exact h
      · rw [hbflag] at h; exact absurd h (by simp)
    exact ih hmb hrb

/-! ## `toggleFlag` -/

theorem modifyCell_modifyCell (g : Grid) (r c : Nat) (f h : Cell → Cell) :
    modifyCell (modifyCell g r c f) r c h = modifyCell g r c (fun x => h (f x)) := by
  have hrow : ∀ (cs : List Cell), List.modify h c (List.modify f c cs) =
      List.modify (fun x => h (f x)) c cs := by
    intro cs
    apply List.ext_getElem?
    intro i
    rw [List.getElem?_modify, List.getElem?_modify, List.getElem?_modify]
    cases cs[i]? with
    | none => rfl
    | some x => by_cases hc : c = i <;> simp [hc]
  unfold modifyCell
  apply List.ext_getElem?
  intro i
  rw [List.getElem?_modify, List.getElem?_modify, List.getElem?_modify]
  cases g[i]? with
  | none => rfl
  | some cs => by_cases hr : r = i <;> simp [hr, hrow]

/-- The two branches of `toggleFlag` that change nothing. -/
theorem toggleFlag_noop (st : MainScene) (r c : Nat)
    (h : (cellAt st.grid r c).isRevealed = true ∨
      ((cellAt st.grid r c).isFlagged = false ∧ st.flagsLeft ≤ 0)) :
    toggleFlag st r c = st := by
  unfold toggleFlag
  rcases h with h | ⟨h1, h2⟩
  · simp [h]
  · simp [h1, h2]

/-- The branch of `toggleFlag` that flips the flag. -/
theorem toggleFlag_flip (st : MainScene) (hwf : WellFormed st) (r c : Nat)
    (hr : r < st.rows) (hc : c < st.cols)
    (hrev : (cellAt st.grid r c).isRevealed = false)
    (hgo : (cellAt st.grid r c).isFlagged = true ∨ 0 < st.flagsLeft) :
    toggleFlag st r c =
      { st with
        grid := modifyCell st.grid r c
          (fun x => { x with isFlagged := !x.isFlagged, flagSprite := !(cellAt st.grid r c).flagSprite })
        flagsLeft :=
          if (cellAt st.grid r c).flagSprite = true then st.flagsLeft + 1 else st.flagsLeft - 1 } := by
  have hguard : (!(cellAt st.grid r c).isFlagged && decide (st.flagsLeft ≤ 0)) = false := by
    rcases hgo with h | h
    · simp [h]
    · simp [h]
  have hsprite : (cellAt (modifyCell st.grid r c (fun x => { x with isFlagged := !x.isFlagged }))
      r c).flagSprite = (cellAt st.grid r c).flagSprite := by
    rw [cellAt_modifyCell_eq _ _ _ _ (hwf r hr c hc).1]
  unfold toggleFlag
  simp only [hrev, hguard, Bool.false_eq_true, if_false, hsprite, modifyCell_modifyCell]
  cases hs : (cellAt st.grid r c).flagSprite <;> simp

/-! ## The invariant of a game -/

theorem gridCount_eq_zero {rows cols : Nat} {g : Grid} (p : Cell → Bool)
    (h : ∀ r, r < rows → ∀ c, c < cols → p (cellAt g r c) = false) :
    gridCount rows cols g p = 0 := by
  unfold gridCount
  rw [Finset.card_eq_zero, Finset.filter_eq_empty_iff]
  intro q hq
  simp only [Finset.mem_product, Finset.mem_range] at hq
  rw [h q.1 hq.1 q.2 hq.2]
  simp

/-- The scene that `create` returns: a well-formed board with exactly `mines`
mines, computed numbers, nothing revealed or flagged, and the counters reset. -/
theorem create_spec (prev st : MainScene) (draws : List (Nat × Nat))
    (hin : ∀ d ∈ draws, d.1 < prev.rows ∧ d.2 < prev.cols) (h : create prev draws = some st) :
    st.rows = prev.rows ∧ st.cols = prev.cols ∧ st.mines = prev.mines ∧
    st.isGameOver = false ∧ st.firstClick = true ∧ st.timerEvent = prev.timerEvent ∧
    st.flagsLeft = (prev.mines : Int) ∧ GameInv st ∧
    ∀ r, r < st.rows → ∀ c, c < st.cols →
      (cellAt st.grid r c).isRevealed = false ∧ (cellAt st.grid r c).isFlagged = false := by
  unfold create at h
  cases hp : placeMines (createGrid prev) draws with
  | none => simp [hp] at h
  | some st1 =>
    simp only [hp, Option.some.injEq] at h
    obtain ⟨p1, p2, p3, _, p5, _, _, pwf, pcount, pcell⟩ :=
      placeMines_createGrid_spec prev st1 draws hin hp
    obtain ⟨hno, _⟩ := calculateNumbers_spec st1 pwf
    obtain ⟨n1, n2, n3, _, n5, _, _, nwf, ncell, _⟩ := hno
    have hcell : ∀ r, r < prev.rows → ∀ c, c < prev.cols →
        (cellAt (calculateNumbers st1).grid r c).isRevealed = false ∧
        (cellAt (calculateNumbers st1).grid r c).isFlagged = false ∧
        (cellAt (calculateNumbers st1).grid r c).flagSprite = false := by
      intro r hr c hc
      obtain ⟨_, _, _, e4, e5, e6⟩ := ncell r c
      rw [e4, e5, e6, pcell r hr c hc]
      exact ⟨rfl, rfl, rfl⟩
    have hnumber := calculateNumbers_number st1 pwf
    subst h
    refine ⟨n1.trans p1, n2.trans p2, n3.trans p3, rfl, rfl, n5.trans p5, ?_, ?_, ?_⟩
    · show ((calculateNumbers st1).mines : Int) = prev.mines
      rw [n3, p3]
    · refine ⟨nwf, ?_, ?_, ?_, ?_, ?_, ?_⟩
      · show gridCount (calculateNumbers st1).rows (calculateNumbers st1).cols
          (calculateNumbers st1).grid (fun x => x.isMine) = (calculateNumbers st1).mines
        rw [n1, n2, n3, p3, ← pcount]
        exact gridCount_congr _ (fun r _ c _ => (ncell r c).2.2.1)
      · intro r hr c hc
        have hr' : r < prev.rows := by rw [← p1, ← n1]; exact hr
        have hc' : c < prev.cols := by rw [← p2, ← n2]; exact hc
        obtain ⟨_, e2, e3⟩ := hcell r hr' c hc'
        show (cellAt (calculateNumbers st1).grid r c).flagSprite =
          (cellAt (calculateNumbers st1).grid r c).isFlagged
        rw [e2, e3]
      · show ((calculateNumbers st1).mines : Int) +
          (gridCount (calculateNumbers st1).rows (calculateNumbers st1).cols
            (calculateNumbers st1).grid (fun x => x.isFlagged) : Int) =
          ((calculateNumbers st1).mines : Int)
        rw [gridCount_eq_zero]
        · simp
        · intro r hr c hc
          exact (hcell r (by rw [← p1, ← n1]; exact hr) c (by rw [← p2, ← n2]; exact hc)).2.1
      · show (0 : Int) ≤ ((calculateNumbers st1).mines : Int)
        exact Int.natCast_nonneg _
      · intro r hr c hc hboth
        have hr' : r < prev.rows := by rw [← p1, ← n1]; exact hr
        have hc' : c < prev.cols := by rw [← p2, ← n2]; exact hc
        have := (hcell r hr' c hc').1
        have h1 : (cellAt (calculateNumbers st1).grid r c).isRevealed = true := hboth.1
        rw [this] at h1
        exact absurd h1 (by simp)
      · intro r hr c hc hm
        have hr' : r < st1.rows := by rw [← n1]; exact hr
        have hc' : c < st1.cols := by rw [← n2]; exact hc
        exact hnumber r c hr' hc' hm
    · intro r hr c hc
      have hr' : r < prev.rows := by rw [← p1, ← n1]; exact hr
      have hc' : c < prev.cols := by rw [← p2, ← n2]; exact hc
      exact ⟨(hcell r hr' c hc').1, (hcell r hr' c hc').2.1⟩

/-- The invariant survives a flag flip on an unrevealed cell, given what
`toggleFlag` writes. -/
theorem GameInv.flip {st st' : MainScene} (h : GameInv st) (r c : Nat) (hr : r < st.rows)
    (hc : c < st.cols) (hrev : (cellAt st.grid r c).isRevealed = false)
    (hgo : (cellAt st.grid r c).isFlagged = true ∨ 0 < st.flagsLeft) (f : Cell → Cell)
    (hf : ∀ x, f x = { x with
      isFlagged := !x.isFlagged, flagSprite := !(cellAt st.grid r c).flagSprite })
    (h1 : st'.rows = st.rows) (h2 : st'.cols = st.cols) (h3 : st'.mines = st.mines)
    (hg : st'.grid = modifyCell st.grid r c f)
    (hfl : st'.flagsLeft =
      if (cellAt st.grid r c).flagSprite = true then st.flagsLeft + 1 else st.flagsLeft - 1) :
    GameInv st' := by
  obtain ⟨hwf, hmines, hsprite, hflags, hpos, hexcl, hnum⟩ := h
  have hat : ∀ r' c', cellAt st'.grid r' c' =
      if r = r' ∧ c = c' then f (cellAt st.grid r c) else cellAt st.grid r' c' := by
    intro r' c'; rw [hg]; exact cellAt_modifyCell hwf r c hr hc f r' c'
  have hsp := hsprite r hr c hc
  have hmine : ∀ a b, (cellAt st'.grid a b).isMine = (cellAt st.grid a b).isMine := by
    intro a b
    rw [hat]
    split
    · rename_i hEq
      rw [← hEq.1, ← hEq.2, hf]
    · rfl
  have hfl' : (cellAt st.grid r c).isFlagged = true ∧ st'.flagsLeft = st.flagsLeft + 1 ∨
      (cellAt st.grid r c).isFlagged = false ∧ st'.flagsLeft = st.flagsLeft - 1 ∧
        0 < st.flagsLeft := by
    cases hfg : (cellAt st.grid r c).isFlagged with
    | true =>
      have hfs : (cellAt st.grid r c).flagSprite = true := by rw [hsp, hfg]
      rw [if_pos hfs] at hfl
      exact Or.inl ⟨rfl, hfl⟩
    | false =>
      have hfs : ¬ (cellAt st.grid r c).flagSprite = true := by rw [hsp, hfg]; simp
      rw [if_neg hfs] at hfl
      rcases hgo with h | h
      · rw [hfg] at h; exact absurd h (by simp)
      · exact Or.inr ⟨rfl, hfl, h⟩
  have hflags' : st.flagsLeft + (gridCount st.rows st.cols st.grid (fun x => x.isFlagged) : Int)
      = (st.mines : Int) := hflags
  refine ⟨?_, ?_, ?_, ?_, ?_, ?_, ?_⟩
  · unfold WellFormed
    rw [h1, h2, hg]
    exact GridWF.modify hwf r c f (fun x => by rw [hf]; exact ⟨rfl, rfl⟩)
  · unfold cellCount
    rw [h1, h2, h3, hg, gridCount_modify_same r c f (fun x => x.isMine) (fun x => by rw [hf])]
    exact hmines
  · intro r' hr' c' hc'
    rw [hat]
    split
    · rw [hf]; simp only; rw [hsp]
    · exact hsprite r' (by rw [← h1]; exact hr') c' (by rw [← h2]; exact hc')
  · unfold cellCount
    rw [h1, h2, h3, hg]
    rcases hfl' with ⟨hfg, hleft⟩ | ⟨hfg, hleft, _⟩
    · have := gridCount_modify_clear hwf r c hr hc f (fun x => x.isFlagged) hfg
        (by rw [hf]; simp [hfg])
      rw [hleft]
      omega
    · have := gridCount_modify_set hwf r c hr hc f (fun x => x.isFlagged) hfg
        (by rw [hf]; simp [hfg])
      rw [hleft]
      omega
  · rcases hfl' with ⟨_, hleft⟩ | ⟨_, hleft, hlt⟩
    · rw [hleft]; omega
    · rw [hleft]; omega
  · intro r' hr' c' hc'
    rw [hat]
    split
    · rw [hf]
      simp only [hrev, Bool.false_eq_true, false_and, not_false_eq_true]
    · exact hexcl r' (by rw [← h1]; exact hr') c' (by rw [← h2]; exact hc')
  · intro r' hr' c' hc' hm
    rw [mineNeighbours_congr h1 h2 hmine]
    rw [hmine] at hm
    have hn := hnum r' (by rw [← h1]; exact hr') c' (by rw [← h2]; exact hc') hm
    rw [← hn, hat]
    split
    · rename_i hEq
      rw [← hEq.1, ← hEq.2, hf]
    · rfl

theorem GameInv.toggleFlag {st : MainScene} (h : GameInv st) (r c : Nat) (hr : r < st.rows)
    (hc : c < st.cols) : GameInv (toggleFlag st r c) := by
  by_cases hnoop : (cellAt st.grid r c).isRevealed = true ∨
      ((cellAt st.grid r c).isFlagged = false ∧ st.flagsLeft ≤ 0)
  · rw [toggleFlag_noop st r c hnoop]
    exact h
  have hrev : (cellAt st.grid r c).isRevealed = false := by
    cases hh : (cellAt st.grid r c).isRevealed with
    | false => rfl
    | true => exact absurd (Or.inl hh) hnoop
  have hgo : (cellAt st.grid r c).isFlagged = true ∨ 0 < st.flagsLeft := by
    cases hh : (cellAt st.grid r c).isFlagged with
    | true => exact Or.inl rfl
    | false =>
      right
      by_contra hle
      exact hnoop (Or.inr ⟨hh, by omega⟩)
  rw [toggleFlag_flip st h.1 r c hr hc hrev hgo]
  exact h.flip r c hr hc hrev hgo _ (fun _ => rfl) rfl rfl rfl rfl rfl

theorem GameInv.reveal {st st' : MainScene} (h : GameInv st) {p : Nat × Nat}
    (hpost : RevealPost st p st') : GameInv st' := by
  obtain ⟨hwf, hmines, hsprite, hflags, hpos, hexcl, hnum⟩ := h
  obtain ⟨⟨f1, f2, f3, f4, f5, f6⟩, _, hnew, _⟩ := hpost
  refine ⟨f5, ?_, ?_, ?_, ?_, ?_, ?_⟩
  · unfold cellCount
    rw [f1, f2, f3, ← hmines]
    exact gridCount_congr _ (fun r _ c _ => (f6 r c).1.2.2.1)
  · intro r hr c hc
    obtain ⟨⟨_, _, _, _, e5, e6⟩, _⟩ := f6 r c
    rw [e5, e6]
    exact hsprite r (by rw [← f1]; exact hr) c (by rw [← f2]; exact hc)
  · unfold cellCount
    rw [f1, f2, f3, f4, ← hflags]
    congr 2
    exact gridCount_congr _ (fun r _ c _ => (f6 r c).1.2.2.2.2.1)
  · rw [f4]; exact hpos
  · intro r hr c hc hboth
    obtain ⟨⟨_, _, _, _, e5, _⟩, _⟩ := f6 r c
    obtain ⟨hb1, hb2⟩ := hboth
    rw [e5] at hb2
    cases hold : (cellAt st.grid r c).isRevealed with
    | true => exact hexcl r (by rw [← f1]; exact hr) c (by rw [← f2]; exact hc) ⟨hold, hb2⟩
    | false =>
      have := (hnew (r, c) ⟨hb1, hold⟩).2.2.1
      simp only at this
      rw [this] at hb2
      exact absurd hb2 (by simp)
  · intro r hr c hc hm
    obtain ⟨⟨_, _, e3, e4, _, _⟩, _⟩ := f6 r c
    rw [e3] at hm
    rw [e4, mineNeighbours_congr f1 f2 (fun a b => (f6 a b).1.2.2.1)]
    exact hnum r (by rw [← f1]; exact hr) c (by rw [← f2]; exact hc) hm

theorem GameInv.pointerdown {st st' : MainScene} (h : GameInv st) {r c : Nat} {flagMode : Bool}
    (hr : r < st.rows) (hc : c < st.cols) (hstep : pointerdown st r c flagMode = some st') :
    GameInv st' := by
  unfold PiSweeper.pointerdown at hstep
  by_cases hgo : st.isGameOver = true
  · rw [if_pos hgo, Option.some.injEq] at hstep
    subst hstep; exact h
  rw [if_neg hgo] at hstep
  by_cases hfm : flagMode = true
  · rw [if_pos hfm, Option.some.injEq] at hstep
    subst hstep
    exact h.toggleFlag r c hr hc
  · rw [if_neg hfm] at hstep
    exact h.reveal (revealCell_spec st r c st' h.1 hr hc hstep)

/-- Every state of a game satisfies the invariant. -/
theorem Reachable.inv {st : MainScene} (h : Reachable st) : GameInv st := by
  induction h with
  | created prev draws st hin hc => exact (create_spec prev st draws hin hc).2.2.2.2.2.2.2.1
  | click st st' r c flagMode _ hr hc hstep ih => exact ih.pointerdown hr hc hstep

/-! ## `checkWin` -/

theorem foldl_range_count (P : Nat → Bool) (n acc : Nat) :
    (List.range n).foldl (fun a c => if P c = true then a + 1 else a) acc =
      acc + ∑ c in Finset.range n, if P c = true then 1 else 0 := by
  induction n with
  | zero => simp
  | succ n ih =>
    rw [List.range_succ, List.foldl_append, ih, Finset.sum_range_succ]
    simp only [List.foldl_cons, List.foldl_nil]
    split <;> omega

theorem gridCount_eq_sum (rows cols : Nat) (g : Grid) (p : Cell → Bool) :
    gridCount rows cols g p =
      ∑ r in Finset.range rows, ∑ c in Finset.range cols,
        if p (cellAt g r c) = true then 1 else 0 := by
  unfold gridCount
  rw [Finset.card_filter, Finset.sum_product]

/-- The counter of `checkWin` is the number of revealed cells of the grid. -/
theorem checkWin_loop (st : MainScene) :
    (List.range st.rows).foldl
      (fun acc r =>
        (List.range st.cols).foldl
          (fun acc c => if (cellAt st.grid r c).isRevealed then acc + 1 else acc) acc)
      0 = cellCount st (fun x => x.isRevealed) := by
  unfold cellCount
  rw [gridCount_eq_sum]
  have hinner : ∀ r acc, (List.range st.cols).foldl
        (fun acc c => if (cellAt st.grid r c).isRevealed then acc + 1 else acc) acc =
      acc + ∑ c in Finset.range st.cols, if (cellAt st.grid r c).isRevealed = true then 1 else 0 :=
    fun r acc => foldl_range_count (fun c => (cellAt st.grid r c).isRevealed) st.cols acc
  simp only [hinner]
  generalize st.rows = m
  induction m with
  | zero => simp
  | succ m ih =>
    rw [List.range_succ, List.foldl_append, ih, Finset.sum_range_succ]
    simp only [List.foldl_cons, List.foldl_nil]

theorem checkWin_iff (st : MainScene) :
    checkWin st = true ↔
      (cellCount st (fun x => x.isRevealed) : Int) =
        (st.rows : Int) * (st.cols : Int) - (st.mines : Int) := by
  unfold checkWin
  simp only [checkWin_loop, decide_eq_true_eq]

/-- On a board with exactly `mines` mines and no mine revealed, the revealed
cells number `rows * cols - mines` exactly when every safe cell is revealed. -/
theorem checkWin_iff_allSafe (st : MainScene)
    (hmines : cellCount st (fun x => x.isMine) = st.mines) (hno : NoMineRevealed st) :
    checkWin st = true ↔ AllSafeRevealed st := by
  rw [checkWin_iff]
  have hsafe : cellCount st (fun x => !x.isMine) + cellCount st (fun x => x.isMine) =
      st.rows * st.cols := by
    unfold cellCount gridCount
    have := Finset.filter_card_add_filter_neg_card_eq_card
      (s := Finset.range st.rows ×ˢ Finset.range st.cols)
      (fun q => (cellAt st.grid q.1 q.2).isMine = true)
    simp only [Finset.card_product, Finset.card_range] at this
    rw [← this, add_comm]
    congr 2
    apply Finset.filter_congr
    intro q _
    simp
  have hsub : (Finset.range st.rows ×ˢ Finset.range st.cols).filter
        (fun q => (cellAt st.grid q.1 q.2).isRevealed = true) ⊆
      (Finset.range st.rows ×ˢ Finset.range st.cols).filter
        (fun q => (!(cellAt st.grid q.1 q.2).isMine) = true) := by
    intro q hq
    simp only [Finset.mem_filter, Finset.mem_product, Finset.mem_range] at hq ⊢
    refine ⟨hq.1, ?_⟩
    cases hm : (cellAt st.grid q.1 q.2).isMine with
    | false => rfl
    | true =>
      have := hno q.1 hq.1.1 q.2 hq.1.2 hm
      rw [this] at hq
      exact absurd hq.2 (by simp)
  have hle := Finset.card_le_card hsub
  constructor
  · intro heq
    have hcard : cellCount st (fun x => x.isRevealed) = cellCount st (fun x => !x.isMine) := by
      omega
    have hEq := Finset.eq_of_subset_of_card_le hsub (le_of_eq hcard.symm)
    intro r hr c hc hm
    have hmem : (r, c) ∈ (Finset.range st.rows ×ˢ Finset.range st.cols).filter
        (fun q => (!(cellAt st.grid q.1 q.2).isMine) = true) := by
      simp [hr, hc, hm]
    rw [← hEq] at hmem
    simpa using (Finset.mem_filter.mp hmem).2
  · intro hall
    have hsup : (Finset.range st.rows ×ˢ Finset.range st.cols).filter
          (fun q => (!(cellAt st.grid q.1 q.2).isMine) = true) ⊆
        (Finset.range st.rows ×ˢ Finset.range st.cols).filter
          (fun q => (cellAt st.grid q.1 q.2).isRevealed = true) := by
      intro q hq
      simp only [Finset.mem_filter, Finset.mem_product, Finset.mem_range,
        Bool.not_eq_true'] at hq ⊢
      exact ⟨hq.1, hall q.1 hq.1.1 q.2 hq.1.2 hq.2⟩
    have hge := Finset.card_le_card hsup
    have hcard : cellCount st (fun x => x.isRevealed) = cellCount st (fun x => !x.isMine) :=
      le_antisymm hle hge
    omega

/-! ## Runs of clicks and the sample games -/

theorem toggleFlag_size (st : MainScene) (r c : Nat) :
    (toggleFlag st r c).rows = st.rows ∧ (toggleFlag st r c).cols = st.cols ∧
      (toggleFlag st r c).mines = st.mines := by
  unfold toggleFlag
  simp only
  split
  · exact ⟨rfl, rfl, rfl⟩
  · split
    · exact ⟨rfl, rfl, rfl⟩
    · split <;> exact ⟨rfl, rfl, rfl⟩

theorem pointerdown_size {st st' : MainScene} (hwf : WellFormed st) {r c : Nat}
    {flagMode : Bool} (hr : r < st.rows) (hc : c < st.cols)
    (h : pointerdown st r c flagMode = some st') :
    st'.rows = st.rows ∧ st'.cols = st.cols ∧ st'.mines = st.mines := by
  unfold pointerdown at h
  by_cases hgo : st.isGameOver = true
  · rw [if_pos hgo, Option.some.injEq] at h
    subst h; exact ⟨rfl, rfl, rfl⟩
  rw [if_neg hgo] at h
  by_cases hfm : flagMode = true
  · rw [if_pos hfm, Option.some.injEq] at h
    subst h
    exact toggleFlag_size st r c
  · rw [if_neg hfm] at h
    have hpost := revealCell_spec st r c st' hwf hr hc h
    exact ⟨hpost.1.1, hpost.1.2.1, hpost.1.2.2.1⟩

/-- A run of clicks on cells of the grid leads from a state of a game to a
state of a game. -/
theorem Reachable.pointerdowns : ∀ (clicks : List (Nat × Nat × Bool)) (st st' : MainScene),
    Reachable st → (∀ k ∈ clicks, k.1 < st.rows ∧ k.2.1 < st.cols) →
    pointerdowns st clicks = some st' → Reachable st' := by
  intro clicks
  induction clicks with
  | nil =>
    intro st st' hst _ h
    simp only [PiSweeper.pointerdowns, Option.some.injEq] at h
    subst h; exact hst
  | cons k rest ih =>
    intro st st' hst hin h
    obtain ⟨r, c, flagMode⟩ := k
    have hk := hin (r, c, flagMode) (List.mem_cons_self _ _)
    simp only [PiSweeper.pointerdowns] at h
    cases hstep : pointerdown st r c flagMode with
    | none => rw [hstep] at h; exact absurd h (by simp)
    | some st1 =>
      rw [hstep] at h
      have hsize := pointerdown_size hst.inv.1 hk.1 hk.2 hstep
      refine ih st1 st' (Reachable.click st st1 r c flagMode hst hk.1 hk.2 hstep) ?_ h
      intro k hk'
      rw [hsize.1, hsize.2.1]
      exact hin k (List.mem_cons_of_mem _ hk')

theorem sampleStart_reachable : Reachable sampleStart :=
  Reachable.created (MainScene.new 2 2 1) [(0, 0)] sampleStart (by decide) (by decide)

theorem sampleFlagged_reachable : Reachable sampleFlagged :=
  Reachable.pointerdowns [(1, 1, true)] sampleStart sampleFlagged sampleStart_reachable
    (by decide) (by decide)

theorem sampleLost_reachable : Reachable sampleLost :=
  Reachable.pointerdowns [(0, 1, false), (1, 0, false), (0, 0, false)] sampleStart sampleLost
    sampleStart_reachable (by decide) (by decide)

theorem sampleWon_reachable : Reachable sampleWon :=
  Reachable.pointerdowns [(0, 1, false), (1, 0, false), (1, 1, false)] sampleStart sampleWon
    sampleStart_reachable (by decide) (by decide)

theorem modifyCell_congr (g : Grid) (r c : Nat) (f h : Cell → Cell)
    (hfh : f (cellAt g r c) = h (cellAt g r c)) :
    modifyCell g r c f = modifyCell g r c h := by
  unfold modifyCell
  apply List.ext_getElem?
  intro i
  rw [List.getElem?_modify, List.getElem?_modify]
  cases hg : g[i]? with
  | none => rfl
  | some cs =>
    by_cases hr : r = i
    · subst hr
      simp only [Option.map_eq_map, Option.map_some', if_true, Option.some.injEq]
      apply List.ext_getElem?
      intro j
      rw [List.getElem?_modify, List.getElem?_modify]
      cases hcs : cs[j]? with
      | none => rfl
      | some x =>
        by_cases hc : c = j
        · subst hc
          have hx : cellAt g r c = x := by
            unfold cellAt cellLookup
            rw [hg]
            simp [hcs]
          rw [hx] at hfh
          simp [hfh]
        · simp [hc]
    · simp [hr]

/-! ## The reveal in any neighbour order: unfolding -/

theorem revealNeighborsWith_eq (ds : List (Int × Int))
    (reveal : MainScene → Nat → Nat → Option MainScene) (st : MainScene) (cell : Cell) :
    revealNeighborsWith ds reveal st cell = ds.foldlM (neighborStep reveal cell) st := rfl

theorem revealNeighborsWith_dirs (reveal : MainScene → Nat → Nat → Option MainScene)
    (st : MainScene) (cell : Cell) :
    revealNeighborsWith dirs reveal st cell = revealNeighbors reveal st cell := rfl

theorem revealCellAuxWith_succ_raw (ds : List (Int × Int)) (fuel : Nat) (st : MainScene)
    (r c : Nat) :
    revealCellAuxWith ds (fuel + 1) st r c =
      if ((cellAt st.grid r c).isRevealed || (cellAt st.grid r c).isFlagged) = true then some st
      else if (cellAt st.grid r c).isMine = true then some (gameOver (markRevealed st r c) false)
      else
        match (if (cellAt st.grid r c).number > 0 then some (markRevealed st r c)
               else revealNeighborsWith ds (revealCellAuxWith ds fuel) (markRevealed st r c)
                 (cellAt st.grid r c)) with
        | none => none
        | some st3 => if checkWin st3 = true then some (gameOver st3 true) else some st3 := rfl

theorem revealCellAuxWith_succ (ds : List (Int × Int)) (fuel : Nat) (st : MainScene)
    (r c : Nat) :
    revealCellAuxWith ds (fuel + 1) st r c =
      if (cellAt st.grid r c).isRevealed = true ∨ (cellAt st.grid r c).isFlagged = true then
        some st
      else if (cellAt st.grid r c).isMine = true then some (gameOver (markRevealed st r c) false)
      else if (cellAt st.grid r c).number > 0 then some (winCheck (markRevealed st r c))
      else
        (revealNeighborsWith ds (revealCellAuxWith ds fuel) (markRevealed st r c)
          (cellAt st.grid r c)).map winCheck := by
  rw [revealCellAuxWith_succ_raw]
  have hw : ∀ s : MainScene,
      (if checkWin s = true then some (gameOver s true) else some s) = some (winCheck s) := by
    intro s; unfold winCheck; split <;> rfl
  cases h1 : (cellAt st.grid r c).isRevealed <;> cases h2 : (cellAt st.grid r c).isFlagged <;>
    cases h3 : (cellAt st.grid r c).isMine <;>
    simp only [Bool.or_self, Bool.or_true, Bool.or_false, Bool.true_or, Bool.false_eq_true,
      if_false, if_true, or_self, or_true, true_or, or_false]
  by_cases h4 : (cellAt st.grid r c).number > 0
  · simp only [h4, if_true, hw]
  · simp only [h4, if_false]
    cases revealNeighborsWith ds (revealCellAuxWith ds fuel) (markRevealed st r c)
        (cellAt st.grid r c) with
    | none => rfl
    | some st3 => simp only [Option.map_some', hw]

/-- The source's `revealCell` is the reveal in the order `dirs`. -/
theorem revealCellAuxWith_dirs : ∀ (fuel : Nat) (st : MainScene) (r c : Nat),
    revealCellAuxWith dirs fuel st r c = revealCellAux fuel st r c := by
  intro fuel
  induction fuel with
  | zero => intro st r c; rfl
  | succ fuel ih =>
    intro st r c
    have hfun : revealCellAuxWith dirs fuel = revealCellAux fuel := by
      funext s a b; exact ih s a b
    rw [revealCellAuxWith_succ, revealCellAux_succ, hfun, revealNeighborsWith_dirs]

theorem revealCellWith_dirs (st : MainScene) (r c : Nat) :
    revealCellWith dirs st r c = revealCell st r c :=
  revealCellAuxWith_dirs _ st r c

/-! ## The reveal in any neighbour order: frame, soundness and closure -/

theorem cascading_mono {st s : MainScene} (h : RevealFrame st s) {p : Nat × Nat}
    (hp : Cascading s p) : Cascading st p := by
  refine ⟨passable_mono h hp.1, ?_⟩
  rw [← (h.2.2.2.2.2 p.1 p.2).1.2.2.1]
  exact hp.2

theorem spreadPath_mono {st s : MainScene} (h : RevealFrame st s) {a x : Nat × Nat}
    (hp : SpreadPath s a x) : SpreadPath st a x := by
  unfold SpreadPath at hp ⊢
  refine Relation.ReflTransGen.mono ?_ hp
  intro p q hstep
  obtain ⟨h1, h2, h3, h4⟩ := hstep
  exact ⟨cascading_mono h h1, h2, by rw [← h.1]; exact h3, by rw [← h.2.1]; exact h4⟩

/-- A path through cascading cells is a cascade path. -/
theorem spreadPath_cascadePath {st : MainScene} {a x : Nat × Nat} (hp : SpreadPath st a x) :
    CascadePath st a x := by
  unfold SpreadPath at hp
  unfold CascadePath
  refine Relation.ReflTransGen.mono ?_ hp
  intro p q hstep
  exact ⟨hstep.1.1, hstep.2⟩

theorem spreadPost_revealPost {st st' : MainScene} {p : Nat × Nat}
    (h : SpreadPost st p st') : RevealPost st p st' := by
  obtain ⟨h1, h2, h3, h4⟩ := h
  refine ⟨h1, h2, ?_, h4⟩
  intro x hx
  obtain ⟨a, b, c, d⟩ := h3 x hx
  exact ⟨a, b, c, spreadPath_cascadePath d⟩

/-- The neighbour loop in any order, given the contract of the calls it makes. -/
theorem spread_neighbours_spec (reveal : MainScene → Nat → Nat → Option MainScene)
    (hrev : ∀ s r c s', WellFormed s → r < s.rows → c < s.cols → reveal s r c = some s' →
      SpreadPost s (r, c) s')
    (cell : Cell) (p : Nat × Nat) (hrow : cell.row = p.1) (hcol : cell.col = p.2) :
    ∀ (ds : List (Int × Int)), (∀ d ∈ ds, d ∈ dirs) → ∀ (s s' : MainScene), WellFormed s →
      ds.foldlM (neighborStep reveal cell) s = some s' → SpreadNeighboursPost s p ds s' := by
  intro ds
  induction ds with
  | nil =>
    intro _ s s' hwf h
    simp only [List.foldlM_nil, pure, Option.some.injEq] at h
    subst h
    refine ⟨RevealFrame.refl hwf, by simp, ?_, ?_⟩
    · intro x hx
      obtain ⟨h1, h2⟩ := hx
      rw [h1] at h2; exact absurd h2 (by simp)
    · intro y hy
      obtain ⟨h1, h2⟩ := hy
      rw [h1] at h2; exact absurd h2 (by simp)
  | cons d ds ih =>
    intro hds s s' hwf h
    have hd : d ∈ dirs := hds d (List.mem_cons_self _ _)
    have hds' : ∀ d ∈ ds, d ∈ dirs := fun e he => hds e (List.mem_cons_of_mem _ he)
    simp only [List.foldlM_cons, bind, Option.bind_eq_some] at h
    obtain ⟨s1, hs1, hrest⟩ := h
    -- the call for the offset `d`
    have hstep : RevealFrame s s1 ∧ CascadeClosed s s1 ∧
        (isInside s ((p.1 : Int) + d.1) ((p.2 : Int) + d.2) = true →
          (cellAt s1.grid (neighbourAt p d).1 (neighbourAt p d).2).isRevealed = true ∨
            (cellAt s.grid (neighbourAt p d).1 (neighbourAt p d).2).isFlagged = true) ∧
        (∀ x, NewlyRevealed s s1 x →
          x.1 < s.rows ∧ x.2 < s.cols ∧ (cellAt s.grid x.1 x.2).isFlagged = false ∧
            isInside s ((p.1 : Int) + d.1) ((p.2 : Int) + d.2) = true ∧
            SpreadPath s (neighbourAt p d) x) := by
      unfold neighborStep at hs1
      rw [hrow, hcol] at hs1
      by_cases hin : isInside s ((p.1 : Int) + d.1) ((p.2 : Int) + d.2) = true
      · simp only [hin, if_true] at hs1
        obtain ⟨hb1, hb2, _⟩ := neighbourAt_inside hd hin
        obtain ⟨q1, q2, q3, q4⟩ := hrev s _ _ s1 hwf hb1 hb2 hs1
        refine ⟨q1, q4, fun _ => q2, ?_⟩
        intro x hx
        obtain ⟨x1, x2, x3, x4⟩ := q3 x hx
        exact ⟨x1, x2, x3, hin, x4⟩
      · simp only [hin, Bool.false_eq_true, if_false, Option.some.injEq] at hs1
        subst hs1
        refine ⟨RevealFrame.refl hwf, ?_, fun h => absurd h hin, ?_⟩
        · intro y hy
          obtain ⟨h1, h2⟩ := hy
          rw [h1] at h2; exact absurd h2 (by simp)
        · intro x hx
          obtain ⟨h1, h2⟩ := hx
          rw [h1] at h2; exact absurd h2 (by simp)
    obtain ⟨f1, c1, n1, p1⟩ := hstep
    obtain ⟨f2, n2, p2, c2⟩ := ih hds' s1 s' f1.2.2.2.2.1 hrest
    have hflag : ∀ r c, (cellAt s1.grid r c).isFlagged = (cellAt s.grid r c).isFlagged :=
      fun r c => (f1.2.2.2.2.2 r c).1.2.2.2.2.1
    have hins : ∀ a b : Int, isInside s1 a b = isInside s a b := by
      intro a b; unfold isInside; rw [f1.1, f1.2.1]
    refine ⟨f1.trans f2, ?_, ?_, ?_⟩
    · intro e he hin
      rcases List.mem_cons.mp he with heq | hmem
      · subst heq
        rcases n1 hin with h | h
        · exact Or.inl ((f2.2.2.2.2.2 _ _).2 h)
        · exact Or.inr h
      · rw [← hins] at hin
        rcases n2 e hmem hin with h | h
        · exact Or.inl h
        · exact Or.inr (by rw [← hflag]; exact h)
    · intro x hx
      rcases hx.split (s := s1) with h | h
      · obtain ⟨x1, x2, x3, x4, x5⟩ := p1 x h
        exact ⟨x1, x2, x3, d, List.mem_cons_self _ _, x4, x5⟩
      · obtain ⟨x1, x2, x3, e, he, x4, x5⟩ := p2 x h
        refine ⟨by rw [← f1.1]; exact x1, by rw [← f1.2.1]; exact x2, by rw [← hflag]; exact x3,
          e, List.mem_cons_of_mem _ he, by rw [← hins]; exact x4, spreadPath_mono f1 x5⟩
    · intro y hy hm hn n hn1 hn2 hadj
      rcases hy.split (s := s1) with h | h
      · rcases c1 y h hm hn n hn1 hn2 hadj with h' | h'
        · exact Or.inl ((f2.2.2.2.2.2 _ _).2 h')
        · exact Or.inr h'
      · have e := (f1.2.2.2.2.2 y.1 y.2).1
        rcases c2 y h (by rw [e.2.2.1]; exact hm) (by rw [e.2.2.2.1]; exact hn) n
            (by rw [f1.1]; exact hn1) (by rw [f1.2.1]; exact hn2) hadj with h' | h'
        · exact Or.inl h'
        · exact Or.inr (by rw [← hflag]; exact h')


/-- The contract `SpreadPost` only looks at the sizes, `mines`, `flagsLeft` and
the grid of the scene the reveal returns. -/
theorem spreadPost_of_eq {st s s' : MainScene} {p : Nat × Nat} (h : SpreadPost st p s)
    (h1 : s'.rows = s.rows) (h2 : s'.cols = s.cols) (h3 : s'.mines = s.mines)
    (h4 : s'.flagsLeft = s.flagsLeft) (h5 : s'.grid = s.grid) : SpreadPost st p s' := by
  obtain ⟨a1, a2, a3, a4⟩ := h
  refine ⟨revealFrame_of_eq a1 h1 h2 h3 h4 h5, ?_, ?_, ?_⟩
  · rw [h5]; exact a2
  · intro x hx
    exact a3 x (by unfold NewlyRevealed at hx ⊢; rw [h5] at hx; exact hx)
  · intro y hy hm hn n hn1 hn2 hadj
    rw [h5]
    exact a4 y (by unfold NewlyRevealed at hy ⊢; rw [h5] at hy; exact hy) hm hn n hn1 hn2 hadj

theorem spreadPost_winCheck {st s : MainScene} {p : Nat × Nat} (h : SpreadPost st p s) :
    SpreadPost st p (winCheck s) := by
  obtain ⟨w1, w2, w3, w4, _, w6⟩ := winCheck_fields s
  exact spreadPost_of_eq h w1 w2 w3 w4 w6

/-- Marking a cell from which the cascade does not continue. -/
theorem markRevealed_spreadPost {st : MainScene} (hwf : WellFormed st) {r c : Nat}
    (hr : r < st.rows) (hc : c < st.cols)
    (hflag : (cellAt st.grid r c).isFlagged = false)
    (hstop : (cellAt st.grid r c).isMine = true ∨ (cellAt st.grid r c).number > 0) :
    SpreadPost st (r, c) (markRevealed st r c) := by
  refine ⟨markRevealed_frame hwf r c hr hc, ?_, ?_, ?_⟩
  · left
    rw [cellAt_markRevealed hwf r c hr hc]
    simp
  · intro x hx
    have := newly_markRevealed hwf hr hc hx
    subst this
    exact ⟨hr, hc, hflag, Relation.ReflTransGen.refl⟩
  · intro y hy hm hn
    have := newly_markRevealed hwf hr hc hy
    subst this
    rcases hstop with h | h
    · simp only at hm; rw [h] at hm; exact absurd hm (by simp)
    · simp only at hn; omega

/-- The contract of the reveal in any order `ds` that holds exactly the offsets
of `dirs`: the contract of `revealCell`, with every newly revealed cell at the
end of a path through cascading cells. -/
theorem revealCellAuxWith_spec (ds : List (Int × Int)) (hds : ∀ d, d ∈ ds ↔ d ∈ dirs) :
    ∀ (fuel : Nat) (st : MainScene) (r c : Nat) (st' : MainScene),
    WellFormed st → r < st.rows → c < st.cols → revealCellAuxWith ds fuel st r c = some st' →
    SpreadPost st (r, c) st' := by
  intro fuel
  induction fuel with
  | zero => intro st r c st' _ _ _ h; simp [revealCellAuxWith] at h
  | succ fuel ih =>
    intro st r c st' hwf hr hc h
    rw [revealCellAuxWith_succ] at h
    by_cases h1 : (cellAt st.grid r c).isRevealed = true ∨ (cellAt st.grid r c).isFlagged = true
    · rw [if_pos h1, Option.some.injEq] at h
      subst h
      refine ⟨RevealFrame.refl hwf, h1, ?_, ?_⟩
      · intro x hx
        obtain ⟨a, b⟩ := hx
        rw [a] at b; exact absurd b (by simp)
      · intro y hy
        obtain ⟨a, b⟩ := hy
        rw [a] at b; exact absurd b (by simp)
    rw [if_neg h1] at h
    have hrev0 : (cellAt st.grid r c).isRevealed = false := by
      cases hh : (cellAt st.grid r c).isRevealed with
      | false => rfl
      | true => exact absurd (Or.inl hh) h1
    have hflag0 : (cellAt st.grid r c).isFlagged = false := by
      cases hh : (cellAt st.grid r c).isFlagged with
      | false => rfl
      | true => exact absurd (Or.inr hh) h1
    by_cases h2 : (cellAt st.grid r c).isMine = true
    · rw [if_pos h2, Option.some.injEq] at h
      subst h
      obtain ⟨g1, g2, g3, g4, _, g6, _⟩ := gameOver_fields (markRevealed st r c) false
      exact spreadPost_of_eq (markRevealed_spreadPost hwf hr hc hflag0 (Or.inl h2)) g1 g2 g3 g4 g6
    rw [if_neg h2] at h
    have hmine0 : (cellAt st.grid r c).isMine = false := by simpa using h2
    by_cases h3 : (cellAt st.grid r c).number > 0
    · rw [if_pos h3, Option.some.injEq] at h
      subst h
      exact spreadPost_winCheck (markRevealed_spreadPost hwf hr hc hflag0 (Or.inr h3))
    rw [if_neg h3, Option.map_eq_some'] at h
    obtain ⟨s3, hs3, hst'⟩ := h
    subst hst'
    apply spreadPost_winCheck
    have hnum0 : (cellAt st.grid r c).number = 0 := by omega
    have hm := markRevealed_frame hwf r c hr hc
    obtain ⟨hrow, hcol⟩ := (hwf r hr c hc).2
    have hmineC : (cellAt st.grid r c).isMine = false := hmine0
    rw [revealNeighborsWith_eq] at hs3
    obtain ⟨f2, n2, p2, c2⟩ := spread_neighbours_spec (revealCellAuxWith ds fuel) ih
      (cellAt st.grid r c) (r, c) hrow hcol ds (fun d hd => (hds d).mp hd) (markRevealed st r c) s3
      hm.2.2.2.2.1 hs3
    have hfl : ∀ a b, (cellAt (markRevealed st r c).grid a b).isFlagged =
        (cellAt st.grid a b).isFlagged := fun a b => (hm.2.2.2.2.2 a b).1.2.2.2.2.1
    have hins : ∀ a b : Int, isInside (markRevealed st r c) a b = isInside st a b := by
      intro a b; unfold isInside; rw [hm.1, hm.2.1]
    have hpass : Cascading st (r, c) := ⟨⟨hr, hc, hrev0, hflag0, hnum0⟩, hmineC⟩
    refine ⟨hm.trans f2, ?_, ?_, ?_⟩
    · left
      apply (f2.2.2.2.2.2 r c).2
      rw [cellAt_markRevealed hwf r c hr hc]
      simp
    · intro x hx
      rcases hx.split (s := markRevealed st r c) with h | h
      · have := newly_markRevealed hwf hr hc h
        subst this
        exact ⟨hr, hc, hflag0, Relation.ReflTransGen.refl⟩
      · obtain ⟨x1, x2, x3, d, hd, x4, x5⟩ := p2 x h
        rw [hins] at x4
        obtain ⟨b1, b2, b3⟩ := neighbourAt_inside ((hds d).mp hd) x4
        refine ⟨by rw [← hm.1]; exact x1, by rw [← hm.2.1]; exact x2, by rw [← hfl]; exact x3, ?_⟩
        exact Relation.ReflTransGen.head ⟨hpass, b3, b1, b2⟩ (spreadPath_mono hm x5)
    · intro y hy hmy hny n hn1 hn2 hadj
      rcases hy.split (s := markRevealed st r c) with h | h
      · have := newly_markRevealed hwf hr hc h
        subst this
        obtain ⟨d, hd, hin, hnd⟩ := (adjacent_iff_dirs st r c n).mp ⟨hn1, hn2, hadj⟩
        have hnd' : n = neighbourAt (r, c) d := hnd
        rw [← hins] at hin
        rcases n2 d ((hds d).mpr hd) hin with h' | h'
        · left; rw [hnd']; exact h'
        · right; rw [hnd', ← hfl]; exact h'
      · have e := (hm.2.2.2.2.2 y.1 y.2).1
        rcases c2 y h (by rw [e.2.2.1]; exact hmy) (by rw [e.2.2.2.1]; exact hny) n
            (by rw [hm.1]; exact hn1) (by rw [hm.2.1]; exact hn2) hadj with h' | h'
        · exact Or.inl h'
        · exact Or.inr (by rw [← hfl]; exact h')

/-! ## The reveal in any neighbour order returns, whatever the fuel above the bound -/

theorem spread_neighbours_total (ds0 : List (Int × Int)) (hds0 : ∀ d, d ∈ ds0 ↔ d ∈ dirs)
    (fuel : Nat)
    (ih : ∀ s r c, WellFormed s → r < s.rows → c < s.cols → unrevealedCount s < fuel →
      ∃ s', revealCellAuxWith ds0 fuel s r c = some s')
    (cell : Cell) (p : Nat × Nat) (hrow : cell.row = p.1) (hcol : cell.col = p.2) :
    ∀ (ds : List (Int × Int)), (∀ d ∈ ds, d ∈ dirs) → ∀ (s : MainScene), WellFormed s →
      unrevealedCount s < fuel →
      ∃ s', ds.foldlM (neighborStep (revealCellAuxWith ds0 fuel) cell) s = some s' := by
  intro ds
  induction ds with
  | nil => intro _ s _ _; exact ⟨s, rfl⟩
  | cons d ds ihds =>
    intro hds s hwf hcount
    have hd : d ∈ dirs := hds d (List.mem_cons_self _ _)
    have hds' : ∀ d ∈ ds, d ∈ dirs := fun e he => hds e (List.mem_cons_of_mem _ he)
    have hstep : ∃ s1, neighborStep (revealCellAuxWith ds0 fuel) cell s d = some s1 ∧
        WellFormed s1 ∧ unrevealedCount s1 < fuel := by
      unfold neighborStep
      rw [hrow, hcol]
      by_cases hin : isInside s ((p.1 : Int) + d.1) ((p.2 : Int) + d.2) = true
      · obtain ⟨b1, b2, _⟩ := neighbourAt_inside hd hin
        obtain ⟨s1, hs1⟩ := ih s _ _ hwf b1 b2 hcount
        have hpost := revealCellAuxWith_spec ds0 hds0 fuel s _ _ s1 hwf b1 b2 hs1
        refine ⟨s1, ?_, hpost.1.2.2.2.2.1, ?_⟩
        · simp only [hin, if_true]; exact hs1
        · exact lt_of_le_of_lt (unrevealedCount_frame hpost.1) hcount
      · exact ⟨s, by rw [if_neg hin], hwf, hcount⟩
    obtain ⟨s1, hs1, hwf1, hc1⟩ := hstep
    obtain ⟨s', hs'⟩ := ihds hds' s1 hwf1 hc1
    refine ⟨s', ?_⟩
    simp only [List.foldlM_cons, bind, Option.bind_eq_some]
    exact ⟨s1, hs1, hs'⟩

/-- With more fuel than unrevealed cells, the reveal returns in any order. -/
theorem revealCellAuxWith_total (ds : List (Int × Int)) (hds : ∀ d, d ∈ ds ↔ d ∈ dirs) :
    ∀ (fuel : Nat) (st : MainScene) (r c : Nat),
    WellFormed st → r < st.rows → c < st.cols → unrevealedCount st < fuel →
    ∃ st', revealCellAuxWith ds fuel st r c = some st' := by
  intro fuel
  induction fuel with
  | zero => intro st r c _ _ _ h; omega
  | succ fuel ih =>
    intro st r c hwf hr hc hcount
    rw [revealCellAuxWith_succ]
    by_cases h1 : (cellAt st.grid r c).isRevealed = true ∨ (cellAt st.grid r c).isFlagged = true
    · exact ⟨st, by rw [if_pos h1]⟩
    rw [if_neg h1]
    by_cases h2 : (cellAt st.grid r c).isMine = true
    · exact ⟨_, by rw [if_pos h2]⟩
    rw [if_neg h2]
    by_cases h3 : (cellAt st.grid r c).number > 0
    · exact ⟨_, by rw [if_pos h3]⟩
    rw [if_neg h3]
    have hrev0 : (cellAt st.grid r c).isRevealed = false := by
      cases hh : (cellAt st.grid r c).isRevealed with
      | false => rfl
      | true => exact absurd (Or.inl hh) h1
    have hm := markRevealed_frame hwf r c hr hc
    have hcm := unrevealedCount_markRevealed hwf hr hc hrev0
    obtain ⟨hrow, hcol⟩ := (hwf r hr c hc).2
    obtain ⟨s3, hs3⟩ := spread_neighbours_total ds hds fuel ih (cellAt st.grid r c) (r, c)
      hrow hcol ds (fun d hd => (hds d).mp hd) (markRevealed st r c) hm.2.2.2.2.1 (by omega)
    rw [revealNeighborsWith_eq, hs3]
    exact ⟨_, rfl⟩

theorem revealCellWith_total (ds : List (Int × Int)) (hds : ∀ d, d ∈ ds ↔ d ∈ dirs)
    (st : MainScene) (r c : Nat) (hwf : WellFormed st) (hr : r < st.rows) (hc : c < st.cols) :
    ∃ st', revealCellWith ds st r c = some st' :=
  revealCellAuxWith_total ds hds _ st r c hwf hr hc
    (Nat.lt_succ_of_le (unrevealedCount_le_size st))

/-- The neighbour loop returns the same scene when the calls it makes are
replaced by calls that return the same scenes. -/
theorem foldlM_neighborStep_mono (f g : MainScene → Nat → Nat → Option MainScene)
    (hfg : ∀ s r c s', f s r c = some s' → g s r c = some s') (cell : Cell) :
    ∀ (ds : List (Int × Int)) (s s' : MainScene),
      ds.foldlM (neighborStep f cell) s = some s' →
      ds.foldlM (neighborStep g cell) s = some s' := by
  intro ds
  induction ds with
  | nil => intro s s' h; exact h
  | cons d ds ih =>
    intro s s' h
    simp only [List.foldlM_cons, bind, Option.bind_eq_some] at h ⊢
    obtain ⟨s1, hs1, hrest⟩ := h
    refine ⟨s1, ?_, ih s1 s' hrest⟩
    unfold neighborStep at hs1 ⊢
    by_cases hin : isInside s ((cell.row : Int) + d.1) ((cell.col : Int) + d.2) = true
    · rw [if_pos hin] at hs1 ⊢
      exact hfg _ _ _ _ hs1
    · rw [if_neg hin] at hs1 ⊢
      exact hs1

/-- More fuel does not change what the reveal returns. -/
theorem revealCellAuxWith_fuel_mono (ds : List (Int × Int)) :
    ∀ (fuel fuel' : Nat) (st : MainScene) (r c : Nat) (st' : MainScene), fuel ≤ fuel' →
      revealCellAuxWith ds fuel st r c = some st' →
      revealCellAuxWith ds fuel' st r c = some st' := by
  intro fuel
  induction fuel with
  | zero => intro fuel' st r c st' _ h; simp [revealCellAuxWith] at h
  | succ fuel ih =>
    intro fuel' st r c st' hle h
    obtain ⟨k, hk⟩ : ∃ k, fuel' = k + 1 := ⟨fuel' - 1, by omega⟩
    subst hk
    rw [revealCellAuxWith_succ] at h ⊢
    by_cases h1 : (cellAt st.grid r c).isRevealed = true ∨ (cellAt st.grid r c).isFlagged = true
    · rw [if_pos h1] at h ⊢; exact h
    rw [if_neg h1] at h ⊢
    by_cases h2 : (cellAt st.grid r c).isMine = true
    · rw [if_pos h2] at h ⊢; exact h
    rw [if_neg h2] at h ⊢
    by_cases h3 : (cellAt st.grid r c).number > 0
    · rw [if_pos h3] at h ⊢; exact h
    rw [if_neg h3, Option.map_eq_some'] at h ⊢
    obtain ⟨s3, hs3, hw⟩ := h
    refine ⟨s3, ?_, hw⟩
    rw [revealNeighborsWith_eq] at hs3 ⊢
    exact foldlM_neighborStep_mono _ _
      (fun s a b s' hs => ih k s a b s' (by omega) hs) _ ds _ _ hs3

/-- Every fuel above the number of unrevealed cells gives the result of
`revealCell`. -/
theorem revealCellAux_fuel_irrelevant (st : MainScene) (r c : Nat) (st' : MainScene)
    (hwf : WellFormed st) (hr : r < st.rows) (hc : c < st.cols)
    (h : revealCell st r c = some st') (fuel : Nat) (hfuel : unrevealedCount st < fuel) :
    revealCellAux fuel st r c = some st' := by
  obtain ⟨s1, hs1⟩ := revealCellAux_total fuel st r c hwf hr hc hfuel
  rw [hs1]
  unfold revealCell at h
  rw [← revealCellAuxWith_dirs] at h hs1
  rcases Nat.le_total fuel (st.rows * st.cols + 1) with hle | hle
  · have := revealCellAuxWith_fuel_mono dirs _ _ st r c s1 hle hs1
    rw [this] at h
    exact h
  · have := revealCellAuxWith_fuel_mono dirs _ _ st r c st' hle h
    rw [this] at hs1
    exact hs1.symm

/-! ## The game-level fields through a reveal -/

theorem mineRevealed_mono {s s' : MainScene} (h : RevealFrame s s') (hm : MineRevealed s) :
    MineRevealed s' := by
  obtain ⟨r, hr, c, hc, h1, h2⟩ := hm
  obtain ⟨e, hmono⟩ := h.2.2.2.2.2 r c
  exact ⟨r, by rw [h.1]; exact hr, c, by rw [h.2.1]; exact hc, by rw [e.2.2.1]; exact h1,
    hmono h2⟩

theorem allSafeRevealed_mono {s s' : MainScene} (h : RevealFrame s s')
    (ha : AllSafeRevealed s) : AllSafeRevealed s' := by
  intro r hr c hc hm
  obtain ⟨e, hmono⟩ := h.2.2.2.2.2 r c
  rw [e.2.2.1] at hm
  exact hmono (ha r (by rw [← h.1]; exact hr) c (by rw [← h.2.1]; exact hc) hm)

theorem mineCount_frame {s s' : MainScene} (h : RevealFrame s s')
    (hc : cellCount s (fun x => x.isMine) = s.mines) :
    cellCount s' (fun x => x.isMine) = s'.mines := by
  unfold cellCount at hc ⊢
  rw [h.1, h.2.1, h.2.2.1, ← hc]
  exact gridCount_congr _ (fun r _ c _ => (h.2.2.2.2.2 r c).1.2.2.1)

/-- On a board with exactly `mines` mines, a true `checkWin` means that a mine
is revealed or every safe cell is. -/
theorem checkWin_outcome (s : MainScene) (hc : cellCount s (fun x => x.isMine) = s.mines)
    (hw : checkWin s = true) : MineRevealed s ∨ AllSafeRevealed s := by
  by_cases hno : NoMineRevealed s
  · exact Or.inr ((checkWin_iff_allSafe s hc hno).mp hw)
  · left
    unfold NoMineRevealed at hno
    push_neg at hno
    obtain ⟨r, hr, c, hcc, hm, hrev⟩ := hno
    exact ⟨r, hr, c, hcc, hm, by simpa using hrev⟩

theorem checkWin_congr {s s' : MainScene} (h1 : s'.rows = s.rows) (h2 : s'.cols = s.cols)
    (h3 : s'.mines = s.mines) (h5 : s'.grid = s.grid) : checkWin s' = checkWin s := by
  unfold checkWin
  rw [h1, h2, h3, h5]

theorem sessionStep_refl {st : MainScene} (hwf : WellFormed st) : SessionStep st st :=
  ⟨RevealFrame.refl hwf, fun h => h, fun _ h => Or.inl h, fun h => h⟩

theorem sessionStep_trans {a b c : MainScene} (h1 : SessionStep a b) (h2 : SessionStep b c) :
    SessionStep a c := by
  obtain ⟨f1, g1, o1, c1⟩ := h1
  obtain ⟨f2, g2, o2, c2⟩ := h2
  refine ⟨f1.trans f2, fun h => g2 (g1 h), ?_, fun h => c2 (c1 h)⟩
  intro hcount hgo
  rcases o2 (mineCount_frame f1 hcount) hgo with h | h | h
  · rcases o1 hcount h with h' | h' | h'
    · exact Or.inl h'
    · exact Or.inr (Or.inl (mineRevealed_mono f2 h'))
    · exact Or.inr (Or.inr (allSafeRevealed_mono f2 h'))
  · exact Or.inr (Or.inl h)
  · exact Or.inr (Or.inr h)

theorem sessionStep_markRevealed {st : MainScene} (hwf : WellFormed st) (r c : Nat)
    (hr : r < st.rows) (hc : c < st.cols) : SessionStep st (markRevealed st r c) := by
  obtain ⟨_, _, _, _, m5, m6, _, _⟩ := markRevealed_fields st r c
  exact ⟨markRevealed_frame hwf r c hr hc, fun h => by rw [m5]; exact h,
    fun _ h => Or.inl (by rw [← m5]; exact h), fun _ => m6⟩

theorem sessionStep_winCheck {s : MainScene} (hwf : WellFormed s) :
    SessionStep s (winCheck s) := by
  obtain ⟨w1, w2, w3, w4, w5, w6⟩ := winCheck_fields s
  have hframe : RevealFrame s (winCheck s) := revealFrame_of_eq (RevealFrame.refl hwf) w1 w2 w3 w4 w6
  refine ⟨hframe, ?_, ?_, fun h => by rw [w5]; exact h⟩
  · intro h
    unfold winCheck
    split
    · rfl
    · exact h
  · intro hcount hgo
    by_cases hw : checkWin s = true
    · rcases checkWin_outcome s hcount hw with h | h
      · exact Or.inr (Or.inl (mineRevealed_mono hframe h))
      · exact Or.inr (Or.inr (allSafeRevealed_mono hframe h))
    · left
      unfold winCheck at hgo
      rw [if_neg hw] at hgo
      exact hgo

/-- Ending the game on a scene with a revealed mine. -/
theorem sessionStep_gameOver {s : MainScene} (hwf : WellFormed s) (hm : MineRevealed s)
    (won : Bool) : SessionStep s (gameOver s won) := by
  have hframe : RevealFrame s (gameOver s won) :=
    revealFrame_of_eq (RevealFrame.refl hwf) rfl rfl rfl rfl rfl
  exact ⟨hframe, fun _ => rfl, fun _ _ => Or.inr (Or.inl (mineRevealed_mono hframe hm)),
    fun h => h⟩

theorem mineRevealed_markRevealed {st : MainScene} (hwf : WellFormed st) {r c : Nat}
    (hr : r < st.rows) (hc : c < st.cols) (hm : (cellAt st.grid r c).isMine = true) :
    MineRevealed (markRevealed st r c) := by
  obtain ⟨m1, m2, _⟩ := markRevealed_fields st r c
  refine ⟨r, by rw [m1]; exact hr, c, by rw [m2]; exact hc, ?_, ?_⟩
  · rw [cellAt_markRevealed hwf r c hr hc]; simp [hm]
  · rw [cellAt_markRevealed hwf r c hr hc]; simp

/-- The neighbour loop in any order, given that each call is a session step. -/
theorem neighbours_sessionStep (reveal : MainScene → Nat → Nat → Option MainScene)
    (hrev : ∀ s r c s', WellFormed s → r < s.rows → c < s.cols → reveal s r c = some s' →
      SessionStep s s')
    (cell : Cell) (p : Nat × Nat) (hrow : cell.row = p.1) (hcol : cell.col = p.2) :
    ∀ (ds : List (Int × Int)), (∀ d ∈ ds, d ∈ dirs) → ∀ (s s' : MainScene), WellFormed s →
      ds.foldlM (neighborStep reveal cell) s = some s' → SessionStep s s' := by
  intro ds
  induction ds with
  | nil =>
    intro _ s s' hwf h
    simp only [List.foldlM_nil, pure, Option.some.injEq] at h
    subst h
    exact sessionStep_refl hwf
  | cons d ds ih =>
    intro hds s s' hwf h
    have hd : d ∈ dirs := hds d (List.mem_cons_self _ _)
    have hds' : ∀ d ∈ ds, d ∈ dirs := fun e he => hds e (List.mem_cons_of_mem _ he)
    simp only [List.foldlM_cons, bind, Option.bind_eq_some] at h
    obtain ⟨s1, hs1, hrest⟩ := h
    have hstep : SessionStep s s1 := by
      unfold neighborStep at hs1
      rw [hrow, hcol] at hs1
      by_cases hin : isInside s ((p.1 : Int) + d.1) ((p.2 : Int) + d.2) = true
      · rw [if_pos hin] at hs1
        obtain ⟨hb1, hb2, _⟩ := neighbourAt_inside hd hin
        exact hrev s _ _ s1 hwf hb1 hb2 hs1
      · rw [if_neg hin, Option.some.injEq] at hs1
        subst hs1
        exact sessionStep_refl hwf
    exact sessionStep_trans hstep (ih hds' s1 s' hstep.1.2.2.2.2.1 hrest)

/-- A returning reveal, in any order, is a session step. -/
theorem revealCellAuxWith_sessionStep (ds : List (Int × Int)) (hds : ∀ d, d ∈ ds ↔ d ∈ dirs) :
    ∀ (fuel : Nat) (st : MainScene) (r c : Nat) (st' : MainScene),
    WellFormed st → r < st.rows → c < st.cols → revealCellAuxWith ds fuel st r c = some st' →
    SessionStep st st' := by
  intro fuel
  induction fuel with
  | zero => intro st r c st' _ _ _ h; simp [revealCellAuxWith] at h
  | succ fuel ih =>
    intro st r c st' hwf hr hc h
    rw [revealCellAuxWith_succ] at h
    by_cases h1 : (cellAt st.grid r c).isRevealed = true ∨ (cellAt st.grid r c).isFlagged = true
    · rw [if_pos h1, Option.some.injEq] at h
      subst h
      exact sessionStep_refl hwf
    rw [if_neg h1] at h
    have hmark := sessionStep_markRevealed hwf r c hr hc
    have hwfm : WellFormed (markRevealed st r c) := hmark.1.2.2.2.2.1
    by_cases h2 : (cellAt st.grid r c).isMine = true
    · rw [if_pos h2, Option.some.injEq] at h
      subst h
      exact sessionStep_trans hmark
        (sessionStep_gameOver hwfm (mineRevealed_markRevealed hwf hr hc h2) false)
    rw [if_neg h2] at h
    by_cases h3 : (cellAt st.grid r c).number > 0
    · rw [if_pos h3, Option.some.injEq] at h
      subst h
      exact sessionStep_trans hmark (sessionStep_winCheck hwfm)
    rw [if_neg h3, Option.map_eq_some'] at h
    obtain ⟨s3, hs3, hst'⟩ := h
    subst hst'
    obtain ⟨hrow, hcol⟩ := (hwf r hr c hc).2
    rw [revealNeighborsWith_eq] at hs3
    have hfold := neighbours_sessionStep (revealCellAuxWith ds fuel) ih (cellAt st.grid r c)
      (r, c) hrow hcol ds (fun d hd => (hds d).mp hd) (markRevealed st r c) s3 hwfm hs3
    exact sessionStep_trans hmark
      (sessionStep_trans hfold (sessionStep_winCheck hfold.1.2.2.2.2.1))

/-- A reveal that passes the guard, in any order: the first click is consumed;
on a mine the game is over; on a safe cell the game is over as soon as
`checkWin` holds of the returned board. -/
theorem revealCellAuxWith_guard_passed (ds : List (Int × Int)) (hds : ∀ d, d ∈ ds ↔ d ∈ dirs)
    (fuel : Nat) (st : MainScene) (r c : Nat) (st' : MainScene) (hwf : WellFormed st)
    (hr : r < st.rows) (hc : c < st.cols)
    (hrev : (cellAt st.grid r c).isRevealed = false)
    (hflag : (cellAt st.grid r c).isFlagged = false)
    (h : revealCellAuxWith ds fuel st r c = some st') :
    st'.firstClick = false ∧
    ((cellAt st.grid r c).isMine = true → st'.isGameOver = true) ∧
    ((cellAt st.grid r c).isMine = false → checkWin st' = true → st'.isGameOver = true) := by
  cases fuel with
  | zero => simp [revealCellAuxWith] at h
  | succ fuel =>
    rw [revealCellAuxWith_succ] at h
    have h1 : ¬ ((cellAt st.grid r c).isRevealed = true ∨ (cellAt st.grid r c).isFlagged = true) := by
      rw [hrev, hflag]; simp
    rw [if_neg h1] at h
    have hmf : (markRevealed st r c).firstClick = false := (markRevealed_fields st r c).2.2.2.2.2.1
    have hwfm : WellFormed (markRevealed st r c) := (markRevealed_frame hwf r c hr hc).2.2.2.2.1
    have hwin : ∀ s : MainScene, s.firstClick = false →
        (winCheck s).firstClick = false ∧
          (checkWin (winCheck s) = true → (winCheck s).isGameOver = true) := by
      intro s hs
      obtain ⟨w1, w2, w3, _, w5, w6⟩ := winCheck_fields s
      refine ⟨by rw [w5]; exact hs, ?_⟩
      intro hw
      rw [checkWin_congr w1 w2 w3 w6] at hw
      unfold winCheck
      rw [if_pos hw]
      rfl
    by_cases h2 : (cellAt st.grid r c).isMine = true
    · rw [if_pos h2, Option.some.injEq] at h
      subst h
      exact ⟨hmf, fun _ => rfl, fun hno => by rw [h2] at hno; exact absurd hno (by simp)⟩
    rw [if_neg h2] at h
    by_cases h3 : (cellAt st.grid r c).number > 0
    · rw [if_pos h3, Option.some.injEq] at h
      subst h
      exact ⟨(hwin _ hmf).1, fun hm => absurd hm h2, fun _ => (hwin _ hmf).2⟩
    rw [if_neg h3, Option.map_eq_some'] at h
    obtain ⟨s3, hs3, hst'⟩ := h
    subst hst'
    obtain ⟨hrow, hcol⟩ := (hwf r hr c hc).2
    rw [revealNeighborsWith_eq] at hs3
    have hfold := neighbours_sessionStep (revealCellAuxWith ds fuel)
      (revealCellAuxWith_sessionStep ds hds fuel) (cellAt st.grid r c)
      (r, c) hrow hcol ds (fun d hd => (hds d).mp hd) (markRevealed st r c) s3 hwfm hs3
    have hs3f : s3.firstClick = false := hfold.2.2.2 hmf
    exact ⟨(hwin _ hs3f).1, fun hm => absurd hm h2, fun _ => (hwin _ hs3f).2⟩

/-! ## The revealed set of a reveal, in any order -/

/-- Completeness of the cascade on any board: a revealed cell at the start of a
path through cascading cells has the unflagged end of the path revealed. -/
theorem spread_complete {st st' : MainScene} (hclosed : CascadeClosed st st')
    {a x : Nat × Nat} (hpath : SpreadPath st a x)
    (hx : (cellAt st.grid x.1 x.2).isFlagged = false) :
    (cellAt st'.grid a.1 a.2).isRevealed = true → (cellAt st'.grid x.1 x.2).isRevealed = true := by
  unfold SpreadPath at hpath
  induction hpath using Relation.ReflTransGen.head_induction_on with
  | refl => intro h; exact h
  | head hstep hrest ih =>
    rename_i a b
    intro hra
    obtain ⟨⟨⟨_, _, pa3, _, pa5⟩, hma⟩, hadj, hb1, hb2⟩ := hstep
    have hbflag : (cellAt st.grid b.1 b.2).isFlagged = false := by
      rcases Relation.ReflTransGen.cases_head hrest with h | ⟨_, hs, _⟩
      · rw [h]; exact hx
      · exact hs.1.1.2.2.2.1
    have hrb : (cellAt st'.grid b.1 b.2).isRevealed = true := by
      rcases hclosed a ⟨hra, pa3⟩ hma pa5 b hb1 hb2 hadj with h | h
      · exact h
      · rw [hbflag] at h; exact absurd h (by simp)
    exact ih hrb

/-- The revealed cells after a reveal at `p`, in any order: the cells revealed
before and the unflagged ends of the paths from `p` through cascading cells. -/
theorem revealed_iff_spread {st st' : MainScene} {p : Nat × Nat} (h : SpreadPost st p st')
    (x : Nat × Nat) :
    (cellAt st'.grid x.1 x.2).isRevealed = true ↔
      ((cellAt st.grid x.1 x.2).isRevealed = true ∨
        ((cellAt st.grid x.1 x.2).isFlagged = false ∧ SpreadPath st p x)) := by
  obtain ⟨hframe, hself, hsound, hclosed⟩ := h
  constructor
  · intro hrx
    cases hold : (cellAt st.grid x.1 x.2).isRevealed with
    | true => exact Or.inl rfl
    | false =>
      obtain ⟨_, _, h3, h4⟩ := hsound x ⟨hrx, hold⟩
      exact Or.inr ⟨h3, h4⟩
  · rintro (hold | ⟨hxf, hpath⟩)
    · exact (hframe.2.2.2.2.2 x.1 x.2).2 hold
    · have hpflag : (cellAt st.grid p.1 p.2).isFlagged = false := by
        rcases Relation.ReflTransGen.cases_head hpath with h | ⟨_, hs, _⟩
        · rw [h]; exact hxf
        · exact hs.1.1.2.2.2.1
      have hstart : (cellAt st'.grid p.1 p.2).isRevealed = true := by
        rcases hself with h | h
        · exact h
        · rw [hpflag] at h; exact absurd h (by simp)
      exact spread_complete hclosed hpath hxf hstart

/-- Two reveals of the same cell of the same board, in whatever orders, reveal
the same cells. -/
theorem spreadPost_same_revealed {st s1 s2 : MainScene} {p : Nat × Nat}
    (h1 : SpreadPost st p s1) (h2 : SpreadPost st p s2) (r c : Nat) :
    (cellAt s1.grid r c).isRevealed = (cellAt s2.grid r c).isRevealed := by
  rw [Bool.eq_iff_iff]
  exact (revealed_iff_spread h1 (r, c)).trans (revealed_iff_spread h2 (r, c)).symm

/-- On a board whose safe cells carry their mine-neighbour counts, a path
through cascading cells that starts on a safe cell ends on a safe cell. -/
theorem spread_safe {st : MainScene}
    (hnum : ∀ r, r < st.rows → ∀ c, c < st.cols → (cellAt st.grid r c).isMine = false →
      (cellAt st.grid r c).number = mineNeighbours st r c)
    {a x : Nat × Nat} (hpath : SpreadPath st a x)
    (ha : (cellAt st.grid a.1 a.2).isMine = false) : (cellAt st.grid x.1 x.2).isMine = false := by
  rcases Relation.ReflTransGen.cases_tail hpath with h | ⟨y, _, hstep⟩
  · rw [h]; exact ha
  · obtain ⟨⟨⟨y1, y2, _, _, y5⟩, hmy⟩, hadj, hx1, hx2⟩ := hstep
    have hzero : mineNeighbours st y.1 y.2 = 0 := by rw [← hnum y.1 y1 y.2 y2 hmy]; exact y5
    exact no_mine_neighbour hzero hx1 hx2 hadj

/-- A reveal of a safe cell on a board with computed numbers reveals no mine. -/
theorem spreadPost_noMine {st st' : MainScene} {p : Nat × Nat} (h : SpreadPost st p st')
    (hnum : ∀ r, r < st.rows → ∀ c, c < st.cols → (cellAt st.grid r c).isMine = false →
      (cellAt st.grid r c).number = mineNeighbours st r c)
    (hp : (cellAt st.grid p.1 p.2).isMine = false) :
    (∀ x, NewlyRevealed st st' x → (cellAt st.grid x.1 x.2).isMine = false) ∧
      (NoMineRevealed st → NoMineRevealed st') := by
  have hnew : ∀ x, NewlyRevealed st st' x → (cellAt st.grid x.1 x.2).isMine = false :=
    fun x hx => spread_safe hnum (h.2.2.1 x hx).2.2.2 hp
  refine ⟨hnew, ?_⟩
  intro hno r hr c hc hm
  have e := (h.1.2.2.2.2.2 r c).1
  rw [e.2.2.1] at hm
  cases hrev : (cellAt st'.grid r c).isRevealed with
  | false => rfl
  | true =>
    have hold := hno r (by rw [← h.1.1]; exact hr) c (by rw [← h.1.2.1]; exact hc) hm
    have := hnew (r, c) ⟨hrev, hold⟩
    simp only at this
    rw [hm] at this
    exact absurd this (by simp)

/-- A reveal of a mine reveals that cell only. -/
theorem spreadPost_mine_only {st st' : MainScene} {p : Nat × Nat} (h : SpreadPost st p st')
    (hp : (cellAt st.grid p.1 p.2).isMine = true) (x : Nat × Nat)
    (hx : NewlyRevealed st st' x) : x = p := by
  have hpath := (h.2.2.1 x hx).2.2.2
  rcases Relation.ReflTransGen.cases_head hpath with heq | ⟨_, hs, _⟩
  · exact heq.symm
  · have := hs.1.2
    rw [hp] at this
    exact absurd this (by simp)

theorem noMineRevealed_iff (st : MainScene) : NoMineRevealed st ↔ ¬ MineRevealed st := by
  unfold NoMineRevealed MineRevealed
  constructor
  · rintro h ⟨r, hr, c, hc, hm, hrev⟩
    rw [h r hr c hc hm] at hrev
    exact absurd hrev (by simp)
  · intro h r hr c hc hm
    cases hrev : (cellAt st.grid r c).isRevealed with
    | false => rfl
    | true => exact absurd ⟨r, hr, c, hc, hm, hrev⟩ h

/-- The outcome of a reveal, in any order, that passes the guard on a safe cell
of a board in play (exact mine count, computed numbers, no mine revealed, game
not over): no mine is revealed, and the game is over exactly when every safe
cell is revealed. -/
theorem reveal_safe_outcome (ds : List (Int × Int)) (hds : ∀ d, d ∈ ds ↔ d ∈ dirs)
    (fuel : Nat) (st : MainScene) (r c : Nat) (st' : MainScene) (hwf : WellFormed st)
    (hr : r < st.rows) (hc : c < st.cols)
    (hcount : cellCount st (fun x => x.isMine) = st.mines)
    (hnum : ∀ r, r < st.rows → ∀ c, c < st.cols → (cellAt st.grid r c).isMine = false →
      (cellAt st.grid r c).number = mineNeighbours st r c)
    (hno : NoMineRevealed st) (hgo : st.isGameOver = false)
    (hrev : (cellAt st.grid r c).isRevealed = false)
    (hflag : (cellAt st.grid r c).isFlagged = false)
    (hmine : (cellAt st.grid r c).isMine = false)
    (h : revealCellAuxWith ds fuel st r c = some st') :
    NoMineRevealed st' ∧ (st'.isGameOver = true ↔ AllSafeRevealed st') := by
  have hpost := revealCellAuxWith_spec ds hds fuel st r c st' hwf hr hc h
  have hsess := revealCellAuxWith_sessionStep ds hds fuel st r c st' hwf hr hc h
  have hguard := revealCellAuxWith_guard_passed ds hds fuel st r c st' hwf hr hc hrev hflag h
  have hno' : NoMineRevealed st' := (spreadPost_noMine hpost hnum hmine).2 hno
  refine ⟨hno', ?_, ?_⟩
  · intro hover
    rcases hsess.2.2.1 hcount hover with h1 | h1 | h1
    · rw [hgo] at h1; exact absurd h1 (by simp)
    · exact absurd h1 ((noMineRevealed_iff st').mp hno')
    · exact h1
  · intro hall
    exact hguard.2.2 hmine
      ((checkWin_iff_allSafe st' (mineCount_frame hpost.1 hcount) hno').mpr hall)

/-! ## The session invariant -/

/-- A field that the update keeps is the same in every cell after the update. -/
theorem cellAt_modifyCell_proj {α : Type} (φ : Cell → α) (f : Cell → Cell)
    (hφ : ∀ x, φ (f x) = φ x) (g : Grid) (r c r' c' : Nat) :
    φ (cellAt (modifyCell g r c f) r' c') = φ (cellAt g r' c') := by
  unfold cellAt
  rw [cellLookup_modifyCell]
  cases cellLookup g r' c' with
  | none => rfl
  | some x =>
    simp only [Option.map_some', Option.getD_some]
    split
    · exact hφ x
    · rfl

/-- The function `toggleFlag` touches only `isFlagged`, `flagSprite` and
`flagsLeft`, on every scene. -/
theorem toggleFlag_keeps (st : MainScene) (r c : Nat) :
    (toggleFlag st r c).rows = st.rows ∧ (toggleFlag st r c).cols = st.cols ∧
    (toggleFlag st r c).mines = st.mines ∧
    (toggleFlag st r c).isGameOver = st.isGameOver ∧
    (toggleFlag st r c).timerEvent = st.timerEvent ∧
    (toggleFlag st r c).firstClick = st.firstClick ∧
    ∀ r' c', (cellAt (toggleFlag st r c).grid r' c').isRevealed = (cellAt st.grid r' c').isRevealed ∧
      (cellAt (toggleFlag st r c).grid r' c').isMine = (cellAt st.grid r' c').isMine ∧
      (cellAt (toggleFlag st r c).grid r' c').number = (cellAt st.grid r' c').number := by
  have hcell : ∀ (b : Bool) (r' c' : Nat),
      (cellAt (modifyCell (modifyCell st.grid r c (fun x => { x with isFlagged := !x.isFlagged }))
          r c (fun x => { x with flagSprite := b })) r' c').isRevealed =
        (cellAt st.grid r' c').isRevealed ∧
      (cellAt (modifyCell (modifyCell st.grid r c (fun x => { x with isFlagged := !x.isFlagged }))
          r c (fun x => { x with flagSprite := b })) r' c').isMine =
        (cellAt st.grid r' c').isMine ∧
      (cellAt (modifyCell (modifyCell st.grid r c (fun x => { x with isFlagged := !x.isFlagged }))
          r c (fun x => { x with flagSprite := b })) r' c').number =
        (cellAt st.grid r' c').number := by
    intro b r' c'
    refine ⟨?_, ?_, ?_⟩
    · exact (cellAt_modifyCell_proj (fun x => x.isRevealed)
          (fun x => { x with flagSprite := b }) (fun _ => rfl) _ r c r' c').trans
        (cellAt_modifyCell_proj (fun x => x.isRevealed)
          (fun x => { x with isFlagged := !x.isFlagged }) (fun _ => rfl) _ r c r' c')
    · exact (cellAt_modifyCell_proj (fun x => x.isMine)
          (fun x => { x with flagSprite := b }) (fun _ => rfl) _ r c r' c').trans
        (cellAt_modifyCell_proj (fun x => x.isMine)
          (fun x => { x with isFlagged := !x.isFlagged }) (fun _ => rfl) _ r c r' c')
    · exact (cellAt_modifyCell_proj (fun x => x.number)
          (fun x => { x with flagSprite := b }) (fun _ => rfl) _ r c r' c').trans
        (cellAt_modifyCell_proj (fun x => x.number)
          (fun x => { x with isFlagged := !x.isFlagged }) (fun _ => rfl) _ r c r' c')
  unfold toggleFlag
  simp only
  split
  · exact ⟨rfl, rfl, rfl, rfl, rfl, rfl, fun _ _ => ⟨rfl, rfl, rfl⟩⟩
  · split
    · exact ⟨rfl, rfl, rfl, rfl, rfl, rfl, fun _ _ => ⟨rfl, rfl, rfl⟩⟩
    · split
      · exact ⟨rfl, rfl, rfl, rfl, rfl, rfl, fun r' c' => hcell false r' c'⟩
      · exact ⟨rfl, rfl, rfl, rfl, rfl, rfl, fun r' c' => hcell true r' c'⟩

/-- The session invariant only looks at the sizes, `mines`, `isGameOver` and at
`isMine` and `isRevealed` of the cells. -/
theorem sessionInv_congr {st st' : MainScene} (h : SessionInv st) (h1 : st'.rows = st.rows)
    (h2 : st'.cols = st.cols) (h3 : st'.mines = st.mines)
    (h4 : st'.isGameOver = st.isGameOver)
    (hcell : ∀ r c, (cellAt st'.grid r c).isRevealed = (cellAt st.grid r c).isRevealed ∧
      (cellAt st'.grid r c).isMine = (cellAt st.grid r c).isMine) : SessionInv st' := by
  have hmr : MineRevealed st' ↔ MineRevealed st := by
    unfold MineRevealed
    rw [h1, h2]
    simp only [hcell]
  have hall : AllSafeRevealed st' ↔ AllSafeRevealed st := by
    unfold AllSafeRevealed
    rw [h1, h2]
    simp only [hcell]
  unfold SessionInv
  rw [hmr, hall, h1, h2, h3, h4]
  exact h

/-- A board with fewer mines than cells has a safe cell. -/
theorem exists_safe_cell (st : MainScene) (hcount : cellCount st (fun x => x.isMine) = st.mines)
    (hsize : st.mines < st.rows * st.cols) :
    ∃ r, r < st.rows ∧ ∃ c, c < st.cols ∧ (cellAt st.grid r c).isMine = false := by
  by_contra hnone
  push_neg at hnone
  have hfull : cellCount st (fun x => x.isMine) = st.rows * st.cols := by
    unfold cellCount gridCount
    rw [Finset.filter_true_of_mem]
    · simp
    · intro q hq
      simp only [Finset.mem_product, Finset.mem_range] at hq
      have := hnone q.1 hq.1 q.2 hq.2
      simpa using this
  omega

theorem sessionInv_create (prev st : MainScene) (draws : List (Nat × Nat))
    (hin : ∀ d ∈ draws, d.1 < prev.rows ∧ d.2 < prev.cols) (h : create prev draws = some st) :
    SessionInv st := by
  obtain ⟨_, _, _, hgo, _, _, _, hinv, hfresh⟩ := create_spec prev st draws hin h
  have hnomine : ¬ MineRevealed st := by
    rintro ⟨r, hr, c, hc, _, hrev⟩
    rw [(hfresh r hr c hc).1] at hrev
    exact absurd hrev (by simp)
  refine ⟨fun hm => absurd hm hnomine, ?_⟩
  intro hsize
  have hnoall : ¬ AllSafeRevealed st := by
    intro hall
    obtain ⟨r, hr, c, hc, hm⟩ := exists_safe_cell st hinv.2.1 hsize
    have := hall r hr c hc hm
    rw [(hfresh r hr c hc).1] at this
    exact absurd this (by simp)
  refine ⟨?_, fun hboth => hnomine hboth.1⟩
  rw [hgo]
  constructor
  · intro hf; exact absurd hf (by simp)
  · rintro (hm | ha)
    · exact absurd hm hnomine
    · exact absurd ha hnoall

/-- A reveal on a state of a game that is not over keeps the session
invariant, in any neighbour order. -/
theorem sessionInv_reveal (ds : List (Int × Int)) (hds : ∀ d, d ∈ ds ↔ d ∈ dirs) (fuel : Nat)
    (st : MainScene) (r c : Nat) (st' : MainScene) (hinv : GameInv st) (hs : SessionInv st)
    (hr : r < st.rows) (hc : c < st.cols) (hgo : st.isGameOver = false)
    (h : revealCellAuxWith ds fuel st r c = some st') : SessionInv st' := by
  obtain ⟨hwf, hcount, _, _, _, _, hnum⟩ := hinv
  have hpost := revealCellAuxWith_spec ds hds fuel st r c st' hwf hr hc h
  have hnomine : ¬ MineRevealed st := by
    intro hm
    have := hs.1 hm
    rw [hgo] at this
    exact absurd this (by simp)
  have hno : NoMineRevealed st := (noMineRevealed_iff st).mpr hnomine
  by_cases hguard : (cellAt st.grid r c).isRevealed = true ∨ (cellAt st.grid r c).isFlagged = true
  · cases fuel with
    | zero => simp [revealCellAuxWith] at h
    | succ fuel =>
      rw [revealCellAuxWith_succ, if_pos hguard, Option.some.injEq] at h
      subst h
      exact hs
  have hrev : (cellAt st.grid r c).isRevealed = false := by
    cases hh : (cellAt st.grid r c).isRevealed with
    | false => rfl
    | true => exact absurd (Or.inl hh) hguard
  have hflag : (cellAt st.grid r c).isFlagged = false := by
    cases hh : (cellAt st.grid r c).isFlagged with
    | false => rfl
    | true => exact absurd (Or.inr hh) hguard
  have hpassed := revealCellAuxWith_guard_passed ds hds fuel st r c st' hwf hr hc hrev hflag h
  cases hmine : (cellAt st.grid r c).isMine with
  | true =>
    have hover : st'.isGameOver = true := hpassed.2.1 hmine
    have hself : (cellAt st'.grid r c).isRevealed = true := by
      rcases hpost.2.1 with h1 | h1
      · exact h1
      · simp only at h1; rw [hflag] at h1; exact absurd h1 (by simp)
    have hmr : MineRevealed st' :=
      ⟨r, by rw [hpost.1.1]; exact hr, c, by rw [hpost.1.2.1]; exact hc,
        by rw [(hpost.1.2.2.2.2.2 r c).1.2.2.1]; exact hmine, hself⟩
    refine ⟨fun _ => hover, ?_⟩
    intro hsize
    rw [hpost.1.2.2.1, hpost.1.1, hpost.1.2.1] at hsize
    have hnoall : ¬ AllSafeRevealed st := by
      intro hall
      have := (hs.2 hsize).1.mpr (Or.inr hall)
      rw [hgo] at this
      exact absurd this (by simp)
    refine ⟨⟨fun _ => Or.inl hmr, fun _ => hover⟩, ?_⟩
    rintro ⟨_, hall'⟩
    apply hnoall
    intro a ha b hb hm
    cases hold : (cellAt st.grid a b).isRevealed with
    | true => rfl
    | false =>
      have hm' : (cellAt st'.grid a b).isMine = false := by
        rw [(hpost.1.2.2.2.2.2 a b).1.2.2.1]; exact hm
      have hnew := hall' a (by rw [hpost.1.1]; exact ha) b (by rw [hpost.1.2.1]; exact hb) hm'
      have heq := spreadPost_mine_only hpost hmine (a, b) ⟨hnew, hold⟩
      simp only [Prod.mk.injEq] at heq
      rw [heq.1, heq.2, hmine] at hm
      exact absurd hm (by simp)
  | false =>
    obtain ⟨hno', hiff⟩ := reveal_safe_outcome ds hds fuel st r c st' hwf hr hc hcount hnum hno
      hgo hrev hflag hmine h
    have hnomine' : ¬ MineRevealed st' := (noMineRevealed_iff st').mp hno'
    refine ⟨fun hm => absurd hm hnomine', ?_⟩
    intro _
    refine ⟨⟨fun hover => Or.inr (hiff.mp hover), ?_⟩, fun hboth => hnomine' hboth.1⟩
    rintro (hm | ha)
    · exact absurd hm hnomine'
    · exact hiff.mpr ha

theorem sessionInv_pointerdown {st st' : MainScene} (hinv : GameInv st) (hs : SessionInv st)
    {r c : Nat} {flagMode : Bool} (hr : r < st.rows) (hc : c < st.cols)
    (hstep : pointerdown st r c flagMode = some st') : SessionInv st' := by
  unfold pointerdown at hstep
  by_cases hgo : st.isGameOver = true
  · rw [if_pos hgo, Option.some.injEq] at hstep
    subst hstep; exact hs
  rw [if_neg hgo] at hstep
  by_cases hfm : flagMode = true
  · rw [if_pos hfm, Option.some.injEq] at hstep
    subst hstep
    obtain ⟨k1, k2, k3, k4, _, _, kcell⟩ := toggleFlag_keeps st r c
    exact sessionInv_congr hs k1 k2 k3 k4 (fun a b => ⟨(kcell a b).1, (kcell a b).2.1⟩)
  · rw [if_neg hfm] at hstep
    unfold revealCell at hstep
    rw [← revealCellAuxWith_dirs] at hstep
    exact sessionInv_reveal dirs (fun _ => Iff.rfl) _ st r c st' hinv hs hr hc
      (by simpa using hgo) hstep

/-- Every state of a game satisfies the session invariant. -/
theorem reachable_sessionInv {st : MainScene} (h : Reachable st) : SessionInv st := by
  induction h with
  | created prev draws st hin hc => exact sessionInv_create prev st draws hin hc
  | click st st' r c flagMode hreach hr hc hstep ih =>
    exact sessionInv_pointerdown hreach.inv ih hr hc hstep

/-! ## Helper facts for the remaining claims -/

theorem sampleCentre_reachable : Reachable sampleCentre :=
  Reachable.created (MainScene.new 3 3 1) [(1, 1)] sampleCentre (by decide) (by decide)

theorem sampleCorner_reachable : Reachable sampleCorner :=
  Reachable.created (MainScene.new 3 3 1) [(2, 2)] sampleCorner (by decide) (by decide)

/-- The value of `checkWin` is determined by the sizes, `mines` and the
`isRevealed` fields of the cells of the grid. -/
theorem checkWin_eq_of_revealed {s1 s2 : MainScene} (h1 : s1.rows = s2.rows)
    (h2 : s1.cols = s2.cols) (h3 : s1.mines = s2.mines)
    (hcell : ∀ r, r < s1.rows → ∀ c, c < s1.cols →
      (cellAt s1.grid r c).isRevealed = (cellAt s2.grid r c).isRevealed) :
    checkWin s1 = checkWin s2 := by
  have hcount : cellCount s1 (fun x => x.isRevealed) = cellCount s2 (fun x => x.isRevealed) := by
    unfold cellCount
    rw [← h1, ← h2]
    exact gridCount_congr _ hcell
  unfold checkWin
  simp only [checkWin_loop]
  rw [hcount, h1, h2, h3]

theorem createGrid_rows_length (st : MainScene) :
    (createGrid st).grid.length = st.rows ∧ ∀ cs ∈ (createGrid st).grid, cs.length = st.cols := by
  rw [createGrid_grid]
  refine ⟨by simp, ?_⟩
  intro cs hcs
  simp only [List.mem_map, List.mem_range] at hcs
  obtain ⟨r, _, hr⟩ := hcs
  rw [← hr]
  simp

theorem modifyCell_self (g : Grid) (r c : Nat) (f : Cell → Cell)
    (hf : f (cellAt g r c) = cellAt g r c) : modifyCell g r c f = g := by
  rw [modifyCell_congr g r c f (fun x => x) hf]
  unfold modifyCell
  apply List.ext_getElem?
  intro i
  rw [List.getElem?_modify]
  cases hg : g[i]? with
  | none => rfl
  | some cs =>
    have hrow : List.modify (fun x => x) c cs = cs := by
      apply List.ext_getElem?
      intro j
      rw [List.getElem?_modify]
      cases cs[j]? <;> simp
    by_cases hr : r = i <;> simp [hr, hrow]

theorem reachable_gameBoard {st : MainScene} (h : Reachable st) : GameBoard st :=
  ⟨h.inv.2.1, h.inv.2.2.2.2.2.2, (reachable_sessionInv h).1⟩

theorem cell_ext (a b : Cell) (h1 : a.row = b.row) (h2 : a.col = b.col)
    (h3 : a.isMine = b.isMine) (h4 : a.isRevealed = b.isRevealed)
    (h5 : a.isFlagged = b.isFlagged) (h6 : a.number = b.number)
    (h7 : a.flagSprite = b.flagSprite) : a = b := by
  cases a
  cases b
  simp only [Cell.mk.injEq]
  exact ⟨h1, h2, h3, h4, h5, h6, h7⟩

/-- A reveal that newly reveals a cell of the grid strictly lowers the number of
unrevealed cells. -/
theorem unrevealedCount_lt {s s' : MainScene} (h : RevealFrame s s') {r c : Nat}
    (hr : r < s.rows) (hc : c < s.cols) (hold : (cellAt s.grid r c).isRevealed = false)
    (hnew : (cellAt s'.grid r c).isRevealed = true) :
    unrevealedCount s' < unrevealedCount s := by
  unfold unrevealedCount cellCount gridCount
  rw [h.1, h.2.1]
  apply Finset.card_lt_card
  rw [Finset.ssubset_iff_of_subset]
  · refine ⟨(r, c), ?_, ?_⟩
    · simp [hr, hc, hold]
    · simp [hnew]
  · intro q hq
    simp only [Finset.mem_filter, Bool.not_eq_true'] at hq ⊢
    refine ⟨hq.1, ?_⟩
    cases hrev : (cellAt s.grid q.1 q.2).isRevealed with
    | false => rfl
    | true =>
      have := (h.2.2.2.2.2 q.1 q.2).2 hrev
      rw [this] at hq
      exact absurd hq.2 (by simp)

/-- The returned `isGameOver` of a reveal on a game board does not depend on the
neighbour order. -/
theorem reveal_isGameOver_order (d1 d2 : List (Int × Int)) (h1 : ∀ d, d ∈ d1 ↔ d ∈ dirs)
    (h2 : ∀ d, d ∈ d2 ↔ d ∈ dirs) (f1 f2 : Nat) (st : MainScene) (r c : Nat)
    (s1 s2 : MainScene) (hwf : WellFormed st) (hr : r < st.rows) (hc : c < st.cols)
    (hboard : GameBoard st)
    (e1 : revealCellAuxWith d1 f1 st r c = some s1)
    (e2 : revealCellAuxWith d2 f2 st r c = some s2) :
    s1.isGameOver = s2.isGameOver := by
  obtain ⟨hcount, hnum, hlost⟩ := hboard
  have p1 := revealCellAuxWith_spec d1 h1 f1 st r c s1 hwf hr hc e1
  have p2 := revealCellAuxWith_spec d2 h2 f2 st r c s2 hwf hr hc e2
  have q1 := revealCellAuxWith_sessionStep d1 h1 f1 st r c s1 hwf hr hc e1
  have q2 := revealCellAuxWith_sessionStep d2 h2 f2 st r c s2 hwf hr hc e2
  cases hgo : st.isGameOver with
  | true => rw [q1.2.1 hgo, q2.2.1 hgo]
  | false =>
    have hno : NoMineRevealed st := by
      rw [noMineRevealed_iff]
      intro hm
      have := hlost hm
      rw [hgo] at this
      exact absurd this (by simp)
    by_cases hguard : (cellAt st.grid r c).isRevealed = true ∨
        (cellAt st.grid r c).isFlagged = true
    · cases f1 with
      | zero => simp [revealCellAuxWith] at e1
      | succ f1 =>
        cases f2 with
        | zero => simp [revealCellAuxWith] at e2
        | succ f2 =>
          rw [revealCellAuxWith_succ, if_pos hguard, Option.some.injEq] at e1 e2
          rw [← e1, ← e2]
    have hrev : (cellAt st.grid r c).isRevealed = false := by
      cases hh : (cellAt st.grid r c).isRevealed with
      | false => rfl
      | true => exact absurd (Or.inl hh) hguard
    have hflag : (cellAt st.grid r c).isFlagged = false := by
      cases hh : (cellAt st.grid r c).isFlagged with
      | false => rfl
      | true => exact absurd (Or.inr hh) hguard
    cases hmine : (cellAt st.grid r c).isMine with
    | true =>
      rw [(revealCellAuxWith_guard_passed d1 h1 f1 st r c s1 hwf hr hc hrev hflag e1).2.1 hmine,
        (revealCellAuxWith_guard_passed d2 h2 f2 st r c s2 hwf hr hc hrev hflag e2).2.1 hmine]
    | false =>
      obtain ⟨_, i1⟩ := reveal_safe_outcome d1 h1 f1 st r c s1 hwf hr hc hcount hnum hno hgo
        hrev hflag hmine e1
      obtain ⟨_, i2⟩ := reveal_safe_outcome d2 h2 f2 st r c s2 hwf hr hc hcount hnum hno hgo
        hrev hflag hmine e2
      have hall : AllSafeRevealed s1 ↔ AllSafeRevealed s2 := by
        unfold AllSafeRevealed
        rw [p1.1.1, p1.1.2.1, p2.1.1, p2.1.2.1]
        have hm : ∀ a b, (cellAt s1.grid a b).isMine = (cellAt s2.grid a b).isMine := by
          intro a b
          rw [(p1.1.2.2.2.2.2 a b).1.2.2.1, (p2.1.2.2.2.2.2 a b).1.2.2.1]
        simp only [hm, spreadPost_same_revealed p1 p2]
      rw [Bool.eq_iff_iff, i1, i2, hall]

/-- Off the states of a game the returned `isGameOver` can depend on the
neighbour order: on the hand-made 1 x 5 board `sampleRevealedMine` (mine `(0, 0)`
already revealed while `isGameOver` is false, a state that no game reaches) the
reveal of `(0, 2)` in the order of `dirs` ends with `isGameOver = false`, and in
the reverse order with `isGameOver = true`, because the win check of a nested
call sees four revealed cells only in the second order. -/
theorem isGameOver_depends_on_order_off_game :
    WellFormed sampleRevealedMine ∧ sampleRevealedMine.isGameOver = false ∧
    dirs.reverse.Perm dirs ∧
    (revealCell sampleRevealedMine 0 2).map (fun s => s.isGameOver) = some false ∧
    (revealCellWith dirs.reverse sampleRevealedMine 0 2).map (fun s => s.isGameOver) =
      some true :=
  ⟨by decide, by decide, List.reverse_perm dirs, by decide, by decide⟩

/-- The board `sampleRevealedMine` is not a state of a game: its mine is revealed
and `isGameOver` is false. -/
theorem sampleRevealedMine_not_reachable : ¬ Reachable sampleRevealedMine := by
  intro h
  have hover := (reachable_sessionInv h).1 (by decide)
  exact absurd hover (by decide)

/-! ## The claims -/

/-- C1: on a board whose numbers were computed by `calculateNumbers`, revealing
an unrevealed, unflagged, non-mine cell `(r, c)` returns, and afterwards a cell
`x` of the grid is revealed exactly when it was revealed before or it is
unflagged and there is a path `(r, c) = p0, ..., pk = x` (`k ≥ 0`) of in-grid
Moore-adjacent cells in which every cell before `x` was unrevealed, unflagged
and has number 0. -/
theorem revealCell_reveals_cascade (st0 st : MainScene) (hwf : WellFormed st0)
    (hst : st = calculateNumbers st0) (r c : Nat) (hr : r < st.rows) (hc : c < st.cols)
    (hrev : (cellAt st.grid r c).isRevealed = false)
    (hflag : (cellAt st.grid r c).isFlagged = false)
    (hmine : (cellAt st.grid r c).isMine = false) :
    ∃ st', revealCell st r c = some st' ∧
      ∀ x : Nat × Nat, x.1 < st.rows → x.2 < st.cols →
        ((cellAt st'.grid x.1 x.2).isRevealed = true ↔
          ((cellAt st.grid x.1 x.2).isRevealed = true ∨
            ((cellAt st.grid x.1 x.2).isFlagged = false ∧ CascadePath st (r, c) x))) := by
  obtain ⟨hno, _⟩ := calculateNumbers_spec st0 hwf
  have hwf' : WellFormed st := by rw [hst]; exact hno.2.2.2.2.2.2.2.1
  have hnum : ∀ a, a < st.rows → ∀ b, b < st.cols → (cellAt st.grid a b).isMine = false →
      (cellAt st.grid a b).number = mineNeighbours st a b := by
    intro a ha b hb hm
    subst hst
    exact calculateNumbers_number st0 hwf a b (by rw [← hno.1]; exact ha)
      (by rw [← hno.2.1]; exact hb) hm
  obtain ⟨st', hst'⟩ := revealCell_total st r c hwf' hr hc
  obtain ⟨hframe, hself, hsound, hclosed⟩ := revealCell_spec st r c st' hwf' hr hc hst'
  refine ⟨st', hst', ?_⟩
  intro x hx1 hx2
  constructor
  · intro hrx
    cases hold : (cellAt st.grid x.1 x.2).isRevealed with
    | true => exact Or.inl rfl
    | false =>
      obtain ⟨_, _, h3, h4⟩ := hsound x ⟨hrx, hold⟩
      exact Or.inr ⟨h3, h4⟩
  · rintro (hold | ⟨hxf, hpath⟩)
    · exact (hframe.2.2.2.2.2 x.1 x.2).2 hold
    · have hstart : (cellAt st'.grid r c).isRevealed = true := by
        rcases hself with h | h
        · exact h
        · simp only at h; rw [hflag] at h; exact absurd h (by simp)
      exact cascade_complete hnum hclosed hpath hxf hmine hstart

/-- C1 on the 3 x 3 sample board with its mine at `(2, 2)`, clicked at `(0, 0)`. -/
theorem revealCell_reveals_cascade_witness :
    WellFormed sampleMined ∧
    (cellAt (calculateNumbers sampleMined).grid 0 0).isRevealed = false ∧
    (cellAt (calculateNumbers sampleMined).grid 0 0).isFlagged = false ∧
    (cellAt (calculateNumbers sampleMined).grid 0 0).isMine = false ∧
    ∃ st', revealCell (calculateNumbers sampleMined) 0 0 = some st' ∧
      ∀ x : Nat × Nat, x.1 < (calculateNumbers sampleMined).rows →
        x.2 < (calculateNumbers sampleMined).cols →
        ((cellAt st'.grid x.1 x.2).isRevealed = true ↔
          ((cellAt (calculateNumbers sampleMined).grid x.1 x.2).isRevealed = true ∨
            ((cellAt (calculateNumbers sampleMined).grid x.1 x.2).isFlagged = false ∧
              CascadePath (calculateNumbers sampleMined) (0, 0) x))) :=
  ⟨by decide, by decide, by decide, by decide,
    revealCell_reveals_cascade sampleMined (calculateNumbers sampleMined) (by decide) rfl 0 0
      (by decide) (by decide) (by decide) (by decide) (by decide)⟩

/-- C2: after `calculateNumbers` on a board of any size and mine placement,
every non-mine cell `(r, c)` of the grid has `number` equal to the count of
mine cells among its Moore neighbours inside the grid; the mine placement is
the one before the call. -/
theorem calculateNumbers_counts_mine_neighbours (st : MainScene) (hwf : WellFormed st)
    (r c : Nat) (hr : r < st.rows) (hc : c < st.cols)
    (hm : (cellAt (calculateNumbers st).grid r c).isMine = false) :
    (cellAt (calculateNumbers st).grid r c).number = mineNeighbours (calculateNumbers st) r c ∧
      mineNeighbours (calculateNumbers st) r c = mineNeighbours st r c ∧
      ∀ a b, (cellAt (calculateNumbers st).grid a b).isMine = (cellAt st.grid a b).isMine := by
  obtain ⟨hno, _⟩ := calculateNumbers_spec st hwf
  have hmine : ∀ a b, (cellAt (calculateNumbers st).grid a b).isMine = (cellAt st.grid a b).isMine :=
    fun a b => (hno.2.2.2.2.2.2.2.2.1 a b).2.2.1
  exact ⟨calculateNumbers_number st hwf r c hr hc hm,
    mineNeighbours_congr hno.1 hno.2.1 hmine r c, hmine⟩

/-- C2 on the 3 x 3 sample board, at the cell `(1, 1)` next to the mine. -/
theorem calculateNumbers_counts_mine_neighbours_witness :
    WellFormed sampleMined ∧
    (cellAt (calculateNumbers sampleMined).grid 1 1).isMine = false ∧
    (cellAt (calculateNumbers sampleMined).grid 1 1).number = 1 ∧
    ((cellAt (calculateNumbers sampleMined).grid 1 1).number =
        mineNeighbours (calculateNumbers sampleMined) 1 1 ∧
      mineNeighbours (calculateNumbers sampleMined) 1 1 = mineNeighbours sampleMined 1 1 ∧
      ∀ a b, (cellAt (calculateNumbers sampleMined).grid a b).isMine =
        (cellAt sampleMined.grid a b).isMine) :=
  ⟨by decide, by decide, by decide,
    calculateNumbers_counts_mine_neighbours sampleMined (by decide) 1 1 (by decide) (by decide)
      (by decide)⟩

/-- C3: after `createGrid` followed by a `placeMines` that finishes on in-range
draws, exactly `mines` cells of the grid have `isMine = true`; a draw on an
existing mine places nothing and is not counted. -/
theorem placeMines_places_exactly_mines (st st' : MainScene) (draws : List (Nat × Nat))
    (hin : ∀ d ∈ draws, d.1 < st.rows ∧ d.2 < st.cols)
    (h : placeMines (createGrid st) draws = some st') :
    cellCount st' (fun x => x.isMine) = st.mines ∧
      ∀ (placed : Nat) (g : Grid) (r c : Nat) (rest : List (Nat × Nat)),
        placed < st.mines → (cellAt g r c).isMine = true →
        placeMinesLoop st.mines placed g ((r, c) :: rest) =
          placeMinesLoop st.mines placed g rest := by
  refine ⟨(placeMines_createGrid_spec st st' draws hin h).2.2.2.2.2.2.2.2.1, ?_⟩
  intro placed g r c rest hlt hm
  rw [placeMinesLoop]
  simp [hlt, hm]

/-- C3 on a 2 x 2 board with two mines and a repeated draw. -/
theorem placeMines_places_exactly_mines_witness :
    placeMines (createGrid (MainScene.new 2 2 2)) [(0, 0), (0, 0), (1, 1), (1, 0)] =
        some sampleTwoMines ∧
      (cellCount sampleTwoMines (fun x => x.isMine) = (MainScene.new 2 2 2).mines ∧
        ∀ (placed : Nat) (g : Grid) (r c : Nat) (rest : List (Nat × Nat)),
          placed < (MainScene.new 2 2 2).mines → (cellAt g r c).isMine = true →
          placeMinesLoop (MainScene.new 2 2 2).mines placed g ((r, c) :: rest) =
            placeMinesLoop (MainScene.new 2 2 2).mines placed g rest) :=
  ⟨by decide,
    placeMines_places_exactly_mines (MainScene.new 2 2 2) sampleTwoMines
      [(0, 0), (0, 0), (1, 1), (1, 0)] (by decide) (by decide)⟩

/-- C4, as stated, fails: in the game `sampleLost` (2 x 2, one mine at `(0, 0)`,
reveals of `(0, 1)`, `(1, 0)` and then of the mine) three cells are revealed,
so `checkWin` returns `true`, while the safe cell `(1, 1)` is not revealed. -/
theorem checkWin_not_iff_allSafe_when_lost :
    Reachable sampleLost ∧ checkWin sampleLost = true ∧ ¬ AllSafeRevealed sampleLost ∧
      (cellAt sampleLost.grid 1 1).isMine = false ∧
      (cellAt sampleLost.grid 1 1).isRevealed = false ∧
      (cellAt sampleLost.grid 0 0).isMine = true ∧
      (cellAt sampleLost.grid 0 0).isRevealed = true :=
  ⟨sampleLost_reachable, by decide, by decide, by decide, by decide, by decide, by decide⟩

/-- C4, amended: in every state of a game in which no mine cell is revealed,
`checkWin` returns `true` if and only if every non-mine cell is revealed. -/
theorem checkWin_iff_allSafeRevealed (st : MainScene) (h : Reachable st)
    (hno : NoMineRevealed st) : checkWin st = true ↔ AllSafeRevealed st :=
  checkWin_iff_allSafe st h.inv.2.1 hno

/-- C4, amended, in the won sample game. -/
theorem checkWin_iff_allSafeRevealed_witness :
    Reachable sampleWon ∧ NoMineRevealed sampleWon ∧ checkWin sampleWon = true ∧
      (checkWin sampleWon = true ↔ AllSafeRevealed sampleWon) :=
  ⟨sampleWon_reachable, by decide, by decide,
    checkWin_iff_allSafeRevealed sampleWon sampleWon_reachable (by decide)⟩

/-- C5: in every state of a game, `flagsLeft` plus the number of flagged cells
is `mines`, and a cell of the grid has a flag sprite exactly when it is
flagged. -/
theorem flagsLeft_add_flagged_eq_mines (st : MainScene) (h : Reachable st) :
    st.flagsLeft + (cellCount st (fun x => x.isFlagged) : Int) = (st.mines : Int) ∧
      ∀ r, r < st.rows → ∀ c, c < st.cols →
        (cellAt st.grid r c).flagSprite = (cellAt st.grid r c).isFlagged :=
  ⟨h.inv.2.2.2.1, h.inv.2.2.1⟩

/-- C5 in the sample game with one flag placed. -/
theorem flagsLeft_add_flagged_eq_mines_witness :
    Reachable sampleFlagged ∧ sampleFlagged.flagsLeft = 0 ∧
    sampleFlagged.flagsLeft + (cellCount sampleFlagged (fun x => x.isFlagged) : Int) =
        (sampleFlagged.mines : Int) ∧
      ∀ r, r < sampleFlagged.rows → ∀ c, c < sampleFlagged.cols →
        (cellAt sampleFlagged.grid r c).flagSprite = (cellAt sampleFlagged.grid r c).isFlagged :=
  ⟨sampleFlagged_reachable, by decide,
    flagsLeft_add_flagged_eq_mines sampleFlagged sampleFlagged_reachable⟩

/-- C6: in every state of a game and for every cell `(r, c)` of the grid,
`toggleFlag` leaves the scene unchanged if the cell is revealed, or unflagged
with `flagsLeft = 0`; if the cell is flagged it unflags it (and drops its
sprite) and adds 1 to `flagsLeft`; otherwise it flags it (and sets its sprite)
and subtracts 1 from `flagsLeft`.  Nothing else changes. -/
theorem toggleFlag_effect (st : MainScene) (h : Reachable st) (r c : Nat) (hr : r < st.rows)
    (hc : c < st.cols) :
    (((cellAt st.grid r c).isRevealed = true ∨
        ((cellAt st.grid r c).isFlagged = false ∧ st.flagsLeft = 0)) →
      toggleFlag st r c = st) ∧
    ((cellAt st.grid r c).isFlagged = true →
      toggleFlag st r c =
        { st with
          grid := modifyCell st.grid r c (fun x => { x with isFlagged := false, flagSprite := false })
          flagsLeft := st.flagsLeft + 1 }) ∧
    ((cellAt st.grid r c).isRevealed = false → (cellAt st.grid r c).isFlagged = false →
      st.flagsLeft ≠ 0 →
      toggleFlag st r c =
        { st with
          grid := modifyCell st.grid r c (fun x => { x with isFlagged := true, flagSprite := true })
          flagsLeft := st.flagsLeft - 1 }) := by
  obtain ⟨hwf, _, hsprite, _, hpos, hexcl, _⟩ := h.inv
  have hsp := hsprite r hr c hc
  refine ⟨?_, ?_, ?_⟩
  · rintro (h1 | ⟨h1, h2⟩)
    · exact toggleFlag_noop st r c (Or.inl h1)
    · exact toggleFlag_noop st r c (Or.inr ⟨h1, by omega⟩)
  · intro hf
    have hrev : (cellAt st.grid r c).isRevealed = false := by
      cases hh : (cellAt st.grid r c).isRevealed with
      | false => rfl
      | true => exact absurd ⟨hh, hf⟩ (hexcl r hr c hc)
    have hfs : (cellAt st.grid r c).flagSprite = true := by rw [hsp, hf]
    rw [toggleFlag_flip st hwf r c hr hc hrev (Or.inl hf), if_pos hfs]
    congr 1
    apply modifyCell_congr
    simp [hf, hfs]
  · intro hrev hf hne
    have hfs : (cellAt st.grid r c).flagSprite = false := by rw [hsp, hf]
    have hfs' : ¬ (cellAt st.grid r c).flagSprite = true := by rw [hfs]; simp
    rw [toggleFlag_flip st hwf r c hr hc hrev (Or.inr (by omega)), if_neg hfs']
    congr 1
    apply modifyCell_congr
    simp [hf, hfs]

/-- C6 in the sample game, on the flagged cell `(1, 1)`. -/
theorem toggleFlag_effect_witness :
    Reachable sampleFlagged ∧ (cellAt sampleFlagged.grid 1 1).isFlagged = true ∧
    (((cellAt sampleFlagged.grid 1 1).isRevealed = true ∨
        ((cellAt sampleFlagged.grid 1 1).isFlagged = false ∧ sampleFlagged.flagsLeft = 0)) →
      toggleFlag sampleFlagged 1 1 = sampleFlagged) ∧
    ((cellAt sampleFlagged.grid 1 1).isFlagged = true →
      toggleFlag sampleFlagged 1 1 =
        { sampleFlagged with
          grid := modifyCell sampleFlagged.grid 1 1
            (fun x => { x with isFlagged := false, flagSprite := false })
          flagsLeft := sampleFlagged.flagsLeft + 1 }) ∧
    ((cellAt sampleFlagged.grid 1 1).isRevealed = false →
      (cellAt sampleFlagged.grid 1 1).isFlagged = false → sampleFlagged.flagsLeft ≠ 0 →
      toggleFlag sampleFlagged 1 1 =
        { sampleFlagged with
          grid := modifyCell sampleFlagged.grid 1 1
            (fun x => { x with isFlagged := true, flagSprite := true })
          flagsLeft := sampleFlagged.flagsLeft - 1 }) :=
  ⟨sampleFlagged_reachable, by decide,
    toggleFlag_effect sampleFlagged sampleFlagged_reachable 1 1 (by decide) (by decide)⟩

/-- C7: in every state of a game `0 ≤ flagsLeft ≤ mines`, and at most `mines`
cells are flagged. -/
theorem flagsLeft_bounds (st : MainScene) (h : Reachable st) :
    0 ≤ st.flagsLeft ∧ st.flagsLeft ≤ (st.mines : Int) ∧
      cellCount st (fun x => x.isFlagged) ≤ st.mines := by
  obtain ⟨_, _, _, hflags, hpos, _, _⟩ := h.inv
  refine ⟨hpos, ?_, ?_⟩ <;> omega

/-- C7 in the sample game with one flag placed. -/
theorem flagsLeft_bounds_witness :
    Reachable sampleFlagged ∧ 0 ≤ sampleFlagged.flagsLeft ∧ sampleFlagged.flagsLeft ≤ (sampleFlagged.mines : Int) ∧
      cellCount sampleFlagged (fun x => x.isFlagged) ≤ sampleFlagged.mines :=
  ⟨sampleFlagged_reachable, flagsLeft_bounds sampleFlagged sampleFlagged_reachable⟩

/-- C8: on every board, `revealCell` on an unrevealed, unflagged mine cell
`(r, c)` returns with `isGameOver = true` and without cascading: the cell at
`(r, c)` gets `isRevealed = true` and every other cell, and every other field
of this one, is as before. -/
theorem revealCell_mine_ends_game (st : MainScene) (hwf : WellFormed st) (r c : Nat)
    (hr : r < st.rows) (hc : c < st.cols)
    (hrev : (cellAt st.grid r c).isRevealed = false)
    (hflag : (cellAt st.grid r c).isFlagged = false)
    (hmine : (cellAt st.grid r c).isMine = true) :
    ∃ st', revealCell st r c = some st' ∧ st'.isGameOver = true ∧
      st'.grid = modifyCell st.grid r c (fun x => { x with isRevealed := true }) ∧
      ∀ r' c', cellAt st'.grid r' c' =
        if r = r' ∧ c = c' then { cellAt st.grid r c with isRevealed := true }
        else cellAt st.grid r' c' := by
  have hnot : ¬ ((cellAt st.grid r c).isRevealed = true ∨ (cellAt st.grid r c).isFlagged = true) := by
    rw [hrev, hflag]; simp
  refine ⟨gameOver (markRevealed st r c) false, ?_, rfl, ?_, ?_⟩
  · unfold revealCell
    rw [revealCellAux_succ, if_neg hnot, if_pos hmine]
  · exact (markRevealed_fields st r c).2.2.2.2.2.2.2
  · intro r' c'
    exact cellAt_markRevealed hwf r c hr hc r' c'

/-- C8 in the fresh sample game, on the mine `(0, 0)`. -/
theorem revealCell_mine_ends_game_witness :
    WellFormed sampleStart ∧ (cellAt sampleStart.grid 0 0).isMine = true ∧
    ∃ st', revealCell sampleStart 0 0 = some st' ∧ st'.isGameOver = true ∧
      st'.grid = modifyCell sampleStart.grid 0 0 (fun x => { x with isRevealed := true }) ∧
      ∀ r' c', cellAt st'.grid r' c' =
        if 0 = r' ∧ 0 = c' then { cellAt sampleStart.grid 0 0 with isRevealed := true }
        else cellAt sampleStart.grid r' c' :=
  ⟨by decide, by decide,
    revealCell_mine_ends_game sampleStart (by decide) 0 0 (by decide) (by decide) (by decide)
      (by decide) (by decide)⟩

/-- C9: once `isGameOver` is true, a click on any cell in either mode returns
the scene unchanged, and so does every run of clicks; in particular
`isGameOver` stays true. -/
theorem gameOver_is_terminal (st : MainScene) (hover : st.isGameOver = true) :
    (∀ r c flagMode, pointerdown st r c flagMode = some st) ∧
      ∀ clicks, pointerdowns st clicks = some st := by
  have hone : ∀ r c flagMode, pointerdown st r c flagMode = some st := by
    intro r c flagMode
    unfold pointerdown
    rw [if_pos hover]
  refine ⟨hone, ?_⟩
  intro clicks
  induction clicks with
  | nil => rfl
  | cons k rest ih =>
    obtain ⟨r, c, flagMode⟩ := k
    simp only [pointerdowns, hone, ih]

/-- C9 in the lost sample game. -/
theorem gameOver_is_terminal_witness :
    sampleLost.isGameOver = true ∧
    (∀ r c flagMode, pointerdown sampleLost r c flagMode = some sampleLost) ∧
      ∀ clicks, pointerdowns sampleLost clicks = some sampleLost :=
  ⟨by decide, gameOver_is_terminal sampleLost (by decide)⟩

/-- C10: in every state of a game no cell of the grid is both revealed and
flagged. -/
theorem revealed_flagged_exclusive (st : MainScene) (h : Reachable st) (r c : Nat)
    (hr : r < st.rows) (hc : c < st.cols) :
    ¬ ((cellAt st.grid r c).isRevealed = true ∧ (cellAt st.grid r c).isFlagged = true) :=
  h.inv.2.2.2.2.2.1 r hr c hc

/-- C10 in the sample game, on the flagged cell `(1, 1)`. -/
theorem revealed_flagged_exclusive_witness :
    Reachable sampleFlagged ∧
    ¬ ((cellAt sampleFlagged.grid 1 1).isRevealed = true ∧
      (cellAt sampleFlagged.grid 1 1).isFlagged = true) :=
  ⟨sampleFlagged_reachable,
    revealed_flagged_exclusive sampleFlagged sampleFlagged_reachable 1 1 (by decide)
      (by decide)⟩

/-- C11: on every scene, `revealCell` on a cell that is already revealed or is
flagged returns the scene unchanged (no cell, `isGameOver`, `firstClick` or
timer changes); and a reveal that passes the guard on a well-formed board
leaves `firstClick = false`. -/
theorem revealCell_guarded_noop (st : MainScene) (r c : Nat) :
    (((cellAt st.grid r c).isRevealed = true ∨ (cellAt st.grid r c).isFlagged = true) →
      revealCell st r c = some st) ∧
    (WellFormed st → r < st.rows → c < st.cols →
      (cellAt st.grid r c).isRevealed = false → (cellAt st.grid r c).isFlagged = false →
      ∃ st', revealCell st r c = some st' ∧ st'.firstClick = false ∧
        (cellAt st'.grid r c).isRevealed = true) := by
  refine ⟨?_, ?_⟩
  · intro h
    unfold revealCell
    rw [revealCellAux_succ, if_pos h]
  · intro hwf hr hc hrev hflag
    obtain ⟨st', hst'⟩ := revealCell_total st r c hwf hr hc
    refine ⟨st', hst', ?_, ?_⟩
    · unfold revealCell at hst'
      rw [← revealCellAuxWith_dirs] at hst'
      exact (revealCellAuxWith_guard_passed dirs (fun _ => Iff.rfl) _ st r c st' hwf hr hc
        hrev hflag hst').1
    · rcases (revealCell_spec st r c st' hwf hr hc hst').2.1 with h | h
      · exact h
      · simp only at h; rw [hflag] at h; exact absurd h (by simp)

/-- C11 in the sample game with a flag on `(1, 1)`: a reveal of the flagged cell
changes nothing, a reveal of `(0, 1)` consumes the first click. -/
theorem revealCell_guarded_noop_witness :
    (cellAt sampleFlagged.grid 1 1).isFlagged = true ∧ sampleFlagged.firstClick = true ∧
    revealCell sampleFlagged 1 1 = some sampleFlagged ∧
    ∃ st', revealCell sampleFlagged 0 1 = some st' ∧ st'.firstClick = false ∧
      (cellAt st'.grid 0 1).isRevealed = true :=
  ⟨by decide, by decide,
    (revealCell_guarded_noop sampleFlagged 1 1).1 (Or.inr (by decide)),
    (revealCell_guarded_noop sampleFlagged 0 1).2 (by decide) (by decide) (by decide)
      (by decide) (by decide)⟩

/-- C12: in every state of a game created with `mines < rows * cols`,
`isGameOver` is true if and only if some mine cell is revealed (lost) or every
non-mine cell is revealed (won), and the two never hold together. -/
theorem isGameOver_iff_lost_or_won (st : MainScene) (h : Reachable st)
    (hsize : st.mines < st.rows * st.cols) :
    (st.isGameOver = true ↔ (MineRevealed st ∨ AllSafeRevealed st)) ∧
      ¬ (MineRevealed st ∧ AllSafeRevealed st) :=
  (reachable_sessionInv h).2 hsize

/-- C12 in the lost sample game. -/
theorem isGameOver_iff_lost_or_won_witness :
    Reachable sampleLost ∧ MineRevealed sampleLost ∧ sampleLost.isGameOver = true ∧
    ((sampleLost.isGameOver = true ↔ (MineRevealed sampleLost ∨ AllSafeRevealed sampleLost)) ∧
      ¬ (MineRevealed sampleLost ∧ AllSafeRevealed sampleLost)) :=
  ⟨sampleLost_reachable, by decide, by decide,
    isGameOver_iff_lost_or_won sampleLost sampleLost_reachable (by decide)⟩

/-- C13, as stated, fails: on the fresh 3 x 3 board with its mine at `(1, 1)` the
reveal of `(0, 0)` leaves the safe cell `(0, 1)`, among others, unrevealed. -/
theorem centre_mine_reveal_does_not_cascade :
    create (MainScene.new 3 3 1) [(1, 1)] = some sampleCentre ∧
    revealCell sampleCentre 0 0 = some sampleCentreClicked ∧
    (cellAt sampleCentreClicked.grid 0 1).isMine = false ∧
    (cellAt sampleCentreClicked.grid 0 1).isRevealed = false ∧
    ¬ AllSafeRevealed sampleCentreClicked :=
  ⟨by decide, by decide, by decide, by decide, by decide⟩

/-- C13, amended: on the fresh 3 x 3 board whose single mine is at `(1, 1)`, all
8 non-mine cells have number 1; the reveal of `(0, 0)` therefore does not
cascade: it reveals `(0, 0)` and no other cell, and the game is not over. -/
theorem centre_mine_reveal_corner_only :
    create (MainScene.new 3 3 1) [(1, 1)] = some sampleCentre ∧
    (∀ r, r < 3 → ∀ c, c < 3 →
      ((cellAt sampleCentre.grid r c).isMine = true ↔ (r = 1 ∧ c = 1))) ∧
    (∀ r, r < 3 → ∀ c, c < 3 → ¬ (r = 1 ∧ c = 1) → (cellAt sampleCentre.grid r c).number = 1) ∧
    revealCell sampleCentre 0 0 = some sampleCentreClicked ∧
    (∀ r, r < 3 → ∀ c, c < 3 →
      ((cellAt sampleCentreClicked.grid r c).isRevealed = true ↔ (r = 0 ∧ c = 0))) ∧
    (cellAt sampleCentreClicked.grid 0 0).number = 1 ∧
    sampleCentreClicked.isGameOver = false :=
  ⟨by decide, by decide, by decide, by decide, by decide, by decide, by decide⟩

/-- C14, as stated, fails: with `mines = 4 = rows * cols` on a 2 x 2 grid, and
with `rows = 0`, construction is not rejected: `createGrid` builds the grid, and
`create` returns a game whose four cells are all mines. -/
theorem construction_is_never_rejected :
    (MainScene.new 2 2 4).mines ≥ (MainScene.new 2 2 4).rows * (MainScene.new 2 2 4).cols ∧
    create (MainScene.new 2 2 4) [(0, 0), (0, 1), (1, 0), (1, 1)] = some sampleFull ∧
    WellFormed sampleFull ∧ sampleFull.grid.length = 2 ∧
    cellCount sampleFull (fun x => x.isMine) = 4 ∧
    (createGrid (MainScene.new 0 3 0)).grid = [] ∧
    (create (MainScene.new 0 3 0) []).isSome = true :=
  ⟨by decide, by decide, by decide, by decide, by decide, by decide, by decide⟩

/-- C14, amended: board construction validates nothing; for every `rows`, `cols`
and `mines`, `createGrid` builds `rows` rows of `cols` cells, `rows * cols`
cells in all, each carrying its coordinates with `isMine`, `isRevealed`,
`isFlagged` false and `number` 0, and leaves the other fields of the scene as
they were. -/
theorem createGrid_builds_default_cells (st : MainScene) :
    (createGrid st).rows = st.rows ∧ (createGrid st).cols = st.cols ∧
    (createGrid st).mines = st.mines ∧
    (createGrid st).grid.length = st.rows ∧
    (∀ cs ∈ (createGrid st).grid, cs.length = st.cols) ∧
    (createGrid st).grid.flatten.length = st.rows * st.cols ∧
    ∀ r, r < st.rows → ∀ c, c < st.cols →
      cellLookup (createGrid st).grid r c =
        some { row := r, col := c, isMine := false, isRevealed := false, isFlagged := false,
               number := 0, flagSprite := false } := by
  obtain ⟨hlen, hrows⟩ := createGrid_rows_length st
  refine ⟨rfl, rfl, rfl, hlen, hrows, ?_, ?_⟩
  · rw [List.length_flatten]
    have hmap : List.map List.length (createGrid st).grid =
        List.replicate st.rows st.cols := by
      rw [List.eq_replicate_iff]
      refine ⟨by simp [hlen], ?_⟩
      intro n hn
      simp only [List.mem_map] at hn
      obtain ⟨cs, hcs, hn⟩ := hn
      rw [← hn]
      exact hrows cs hcs
    rw [hmap]
    simp
  · intro r hr c hc
    exact cellLookup_createGrid st r c hr hc

/-- C14, amended, at the sizes the source fixes: 9 x 9 with 10 mines. -/
theorem createGrid_builds_default_cells_witness :
    (createGrid (MainScene.new 9 9 10)).rows = 9 ∧ (createGrid (MainScene.new 9 9 10)).cols = 9 ∧
    (createGrid (MainScene.new 9 9 10)).mines = 10 ∧
    (createGrid (MainScene.new 9 9 10)).grid.length = 9 ∧
    (∀ cs ∈ (createGrid (MainScene.new 9 9 10)).grid, cs.length = 9) ∧
    (createGrid (MainScene.new 9 9 10)).grid.flatten.length = 9 * 9 ∧
    ∀ r, r < 9 → ∀ c, c < 9 →
      cellLookup (createGrid (MainScene.new 9 9 10)).grid r c =
        some { row := r, col := c, isMine := false, isRevealed := false, isFlagged := false,
               number := 0, flagSprite := false } :=
  createGrid_builds_default_cells (MainScene.new 9 9 10)

/-- C15: `checkWin` does not depend on the flags: on every scene it returns the
same value before and after `toggleFlag` on any cell, and it returns the same
value on any two scenes with the same sizes and `mines` whose cells agree on
`isRevealed`. -/
theorem checkWin_ignores_flags (st : MainScene) (r c : Nat) (s1 s2 : MainScene)
    (h1 : s1.rows = s2.rows) (h2 : s1.cols = s2.cols) (h3 : s1.mines = s2.mines)
    (hcell : ∀ a, a < s1.rows → ∀ b, b < s1.cols →
      (cellAt s1.grid a b).isRevealed = (cellAt s2.grid a b).isRevealed) :
    checkWin (toggleFlag st r c) = checkWin st ∧ checkWin s1 = checkWin s2 := by
  refine ⟨?_, checkWin_eq_of_revealed h1 h2 h3 hcell⟩
  obtain ⟨k1, k2, k3, _, _, _, kcell⟩ := toggleFlag_keeps st r c
  exact checkWin_eq_of_revealed k1 k2 k3 (fun a _ b _ => (kcell a b).1)

/-- C15 on the fresh 2 x 2 sample game and the same game with `(1, 1)` flagged. -/
theorem checkWin_ignores_flags_witness :
    (cellAt sampleStart.grid 1 1).isFlagged ≠ (cellAt sampleFlagged.grid 1 1).isFlagged ∧
    (checkWin (toggleFlag sampleWon 0 0) = checkWin sampleWon ∧
      checkWin sampleStart = checkWin sampleFlagged) :=
  ⟨by decide,
    checkWin_ignores_flags sampleWon 0 0 sampleStart sampleFlagged (by decide) (by decide)
      (by decide) (by decide)⟩

/-- C16: the recursive reveal terminates on every board: for every well-formed
scene and cell of the grid `revealCell` returns, with the same result for
every fuel (bound on the nesting of calls) above the number of unrevealed
cells; that number never grows, and a call that passes the guard marks a
previously unrevealed cell, which lowers it by exactly one before recursing,
and returns with it strictly lower. -/
theorem revealCell_terminates (st : MainScene) (hwf : WellFormed st) (r c : Nat)
    (hr : r < st.rows) (hc : c < st.cols) :
    ∃ st', revealCell st r c = some st' ∧
      (∀ fuel, unrevealedCount st < fuel → revealCellAux fuel st r c = some st') ∧
      unrevealedCount st' ≤ unrevealedCount st ∧
      ((cellAt st.grid r c).isRevealed = false → (cellAt st.grid r c).isFlagged = false →
        unrevealedCount (markRevealed st r c) + 1 = unrevealedCount st ∧
          unrevealedCount st' < unrevealedCount st) := by
  obtain ⟨st', hst'⟩ := revealCell_total st r c hwf hr hc
  have hpost := revealCell_spec st r c st' hwf hr hc hst'
  refine ⟨st', hst', ?_, unrevealedCount_frame hpost.1, ?_⟩
  · intro fuel hfuel
    exact revealCellAux_fuel_irrelevant st r c st' hwf hr hc hst' fuel hfuel
  · intro hrev hflag
    refine ⟨unrevealedCount_markRevealed hwf hr hc hrev, ?_⟩
    have hself : (cellAt st'.grid r c).isRevealed = true := by
      rcases hpost.2.1 with h | h
      · exact h
      · simp only at h; rw [hflag] at h; exact absurd h (by simp)
    exact unrevealedCount_lt hpost.1 hr hc hrev hself

/-- C16 on the fresh 3 x 3 corner-mine game, clicked at `(0, 0)`: nine
unrevealed cells before the call. -/
theorem revealCell_terminates_witness :
    WellFormed sampleCorner ∧ unrevealedCount sampleCorner = 9 ∧
    ∃ st', revealCell sampleCorner 0 0 = some st' ∧
      (∀ fuel, unrevealedCount sampleCorner < fuel →
        revealCellAux fuel sampleCorner 0 0 = some st') ∧
      unrevealedCount st' ≤ unrevealedCount sampleCorner ∧
      ((cellAt sampleCorner.grid 0 0).isRevealed = false →
        (cellAt sampleCorner.grid 0 0).isFlagged = false →
        unrevealedCount (markRevealed sampleCorner 0 0) + 1 = unrevealedCount sampleCorner ∧
          unrevealedCount st' < unrevealedCount sampleCorner) :=
  ⟨by decide, by decide, revealCell_terminates sampleCorner (by decide) 0 0 (by decide) (by decide)⟩

/-- C17: for every board state of a game (every `Reachable` scene; the part on
the cells holds on every well-formed board), every clicked cell of the grid and
every permutation `ds` of `dirs`, the reveal that visits the neighbours in the
order `ds` and `revealCell` both return, with the same final board: the same
`isRevealed` (and every other field) of every cell and the same `isGameOver`.
The `isGameOver` part is also given for every board with exactly `mines` mines,
computed numbers and `isGameOver` set whenever a mine is revealed. -/
theorem revealCell_order_independent (st : MainScene) (hwf : WellFormed st)
    (ds : List (Int × Int)) (hperm : ds.Perm dirs) (r c : Nat) (hr : r < st.rows)
    (hc : c < st.cols) :
    ∃ s1 s2, revealCellWith ds st r c = some s1 ∧ revealCell st r c = some s2 ∧
      (∀ a b, (cellAt s1.grid a b).isRevealed = (cellAt s2.grid a b).isRevealed) ∧
      (∀ a b, cellAt s1.grid a b = cellAt s2.grid a b) ∧
      (GameBoard st → s1.isGameOver = s2.isGameOver) ∧
      (Reachable st → s1.isGameOver = s2.isGameOver) := by
  have hds : ∀ d, d ∈ ds ↔ d ∈ dirs := fun d => hperm.mem_iff
  have hdirs : ∀ d, d ∈ dirs ↔ d ∈ dirs := fun _ => Iff.rfl
  obtain ⟨s1, e1⟩ := revealCellWith_total ds hds st r c hwf hr hc
  obtain ⟨s2, e2⟩ := revealCell_total st r c hwf hr hc
  have e2' : revealCellAuxWith dirs (st.rows * st.cols + 1) st r c = some s2 := by
    rw [revealCellAuxWith_dirs]; exact e2
  have p1 := revealCellAuxWith_spec ds hds _ st r c s1 hwf hr hc e1
  have p2 := revealCellAuxWith_spec dirs hdirs _ st r c s2 hwf hr hc e2'
  have hrev := spreadPost_same_revealed p1 p2
  have hboard : GameBoard st → s1.isGameOver = s2.isGameOver := fun hb =>
    reveal_isGameOver_order ds dirs hds hdirs _ _ st r c s1 s2 hwf hr hc hb e1 e2'
  refine ⟨s1, s2, e1, e2, hrev, ?_, hboard, fun hreach => hboard (reachable_gameBoard hreach)⟩
  intro a b
  obtain ⟨x1, x2, x3, x4, x5, x6⟩ := (p1.1.2.2.2.2.2 a b).1
  obtain ⟨y1, y2, y3, y4, y5, y6⟩ := (p2.1.2.2.2.2.2 a b).1
  exact cell_ext _ _ (x1.trans y1.symm) (x2.trans y2.symm) (x3.trans y3.symm) (hrev a b)
    (x5.trans y5.symm) (x4.trans y4.symm) (x6.trans y6.symm)

/-- C17 on the fresh 3 x 3 corner-mine game, a state of a game, clicked at
`(0, 0)`, with the neighbours visited in the reverse of the order of `dirs`. -/
theorem revealCell_order_independent_witness :
    Reachable sampleCorner ∧ WellFormed sampleCorner ∧ dirs.reverse ≠ dirs ∧
    dirs.reverse.Perm dirs ∧
    ∃ s1 s2, revealCellWith dirs.reverse sampleCorner 0 0 = some s1 ∧
      revealCell sampleCorner 0 0 = some s2 ∧
      (∀ a b, (cellAt s1.grid a b).isRevealed = (cellAt s2.grid a b).isRevealed) ∧
      (∀ a b, cellAt s1.grid a b = cellAt s2.grid a b) ∧
      (GameBoard sampleCorner → s1.isGameOver = s2.isGameOver) ∧
      (Reachable sampleCorner → s1.isGameOver = s2.isGameOver) :=
  ⟨sampleCorner_reachable, by decide, by decide, List.reverse_perm dirs,
    revealCell_order_independent sampleCorner (by decide) dirs.reverse (List.reverse_perm dirs)
      0 0 (by decide) (by decide)⟩

/-- C18: on every well-formed board and for every cell of the grid, `revealCell`
returns a scene in which `flagsLeft` and every cell's `isMine`, `number` and
`isFlagged` are as before, every cell revealed before is still revealed, and
every cell flagged before has its `isRevealed` unchanged (a covered flagged
cell stays covered, even under cascade). -/
theorem revealCell_frame (st : MainScene) (hwf : WellFormed st) (r c : Nat)
    (hr : r < st.rows) (hc : c < st.cols) :
    ∃ st', revealCell st r c = some st' ∧ st'.flagsLeft = st.flagsLeft ∧
      st'.rows = st.rows ∧ st'.cols = st.cols ∧ st'.mines = st.mines ∧
      ∀ a b,
        (cellAt st'.grid a b).isMine = (cellAt st.grid a b).isMine ∧
        (cellAt st'.grid a b).number = (cellAt st.grid a b).number ∧
        (cellAt st'.grid a b).isFlagged = (cellAt st.grid a b).isFlagged ∧
        ((cellAt st.grid a b).isRevealed = true → (cellAt st'.grid a b).isRevealed = true) ∧
        ((cellAt st.grid a b).isFlagged = true →
          (cellAt st'.grid a b).isRevealed = (cellAt st.grid a b).isRevealed) := by
  obtain ⟨st', hst'⟩ := revealCell_total st r c hwf hr hc
  obtain ⟨⟨f1, f2, f3, f4, _, f6⟩, _, hsound, _⟩ := revealCell_spec st r c st' hwf hr hc hst'
  refine ⟨st', hst', f4, f1, f2, f3, ?_⟩
  intro a b
  obtain ⟨⟨_, _, e3, e4, e5, _⟩, hmono⟩ := f6 a b
  refine ⟨e3, e4, e5, hmono, ?_⟩
  intro hflagged
  cases hold : (cellAt st.grid a b).isRevealed with
  | true => exact hmono hold
  | false =>
    cases hnew : (cellAt st'.grid a b).isRevealed with
    | false => rfl
    | true =>
      have := (hsound (a, b) ⟨hnew, hold⟩).2.2.1
      simp only at this
      rw [hflagged] at this
      exact absurd this (by simp)

/-- C18 in the sample game with a flag on `(1, 1)`, clicked at `(0, 1)`. -/
theorem revealCell_frame_witness :
    WellFormed sampleFlagged ∧ (cellAt sampleFlagged.grid 1 1).isFlagged = true ∧
    ∃ st', revealCell sampleFlagged 0 1 = some st' ∧ st'.flagsLeft = sampleFlagged.flagsLeft ∧
      st'.rows = sampleFlagged.rows ∧ st'.cols = sampleFlagged.cols ∧
      st'.mines = sampleFlagged.mines ∧
      ∀ a b,
        (cellAt st'.grid a b).isMine = (cellAt sampleFlagged.grid a b).isMine ∧
        (cellAt st'.grid a b).number = (cellAt sampleFlagged.grid a b).number ∧
        (cellAt st'.grid a b).isFlagged = (cellAt sampleFlagged.grid a b).isFlagged ∧
        ((cellAt sampleFlagged.grid a b).isRevealed = true →
          (cellAt st'.grid a b).isRevealed = true) ∧
        ((cellAt sampleFlagged.grid a b).isFlagged = true →
          (cellAt st'.grid a b).isRevealed = (cellAt sampleFlagged.grid a b).isRevealed) :=
  ⟨by decide, by decide, revealCell_frame sampleFlagged (by decide) 0 1 (by decide) (by decide)⟩

/-- C19: on a board whose numbers were computed by `calculateNumbers`, the reveal
of a non-mine cell returns and leaves `isRevealed` of every mine cell as it
was: no mine is newly revealed; so if no mine was revealed before, none is
after, and (with exactly `mines` mines on the board) the game can only have
ended by every safe cell being revealed. -/
theorem revealCell_safe_reveals_no_mine (st0 st : MainScene) (hwf : WellFormed st0)
    (hst : st = calculateNumbers st0) (r c : Nat) (hr : r < st.rows) (hc : c < st.cols)
    (hmine : (cellAt st.grid r c).isMine = false) :
    ∃ st', revealCell st r c = some st' ∧
      (∀ a b, (cellAt st.grid a b).isMine = true →
        (cellAt st'.grid a b).isRevealed = (cellAt st.grid a b).isRevealed) ∧
      (NoMineRevealed st → NoMineRevealed st') ∧
      (NoMineRevealed st → cellCount st (fun x => x.isMine) = st.mines →
        st'.isGameOver = true → st.isGameOver = true ∨ AllSafeRevealed st') := by
  obtain ⟨hno, _⟩ := calculateNumbers_spec st0 hwf
  have hwf' : WellFormed st := by rw [hst]; exact hno.2.2.2.2.2.2.2.1
  have hnum : ∀ a, a < st.rows → ∀ b, b < st.cols → (cellAt st.grid a b).isMine = false →
      (cellAt st.grid a b).number = mineNeighbours st a b := by
    intro a ha b hb hm
    subst hst
    exact calculateNumbers_number st0 hwf a b (by rw [← hno.1]; exact ha)
      (by rw [← hno.2.1]; exact hb) hm
  obtain ⟨st', hst'⟩ := revealCell_total st r c hwf' hr hc
  have hst'' : revealCellAuxWith dirs (st.rows * st.cols + 1) st r c = some st' := by
    rw [revealCellAuxWith_dirs]; exact hst'
  have hpost := revealCellAuxWith_spec dirs (fun _ => Iff.rfl) _ st r c st' hwf' hr hc hst''
  have hsess := revealCellAuxWith_sessionStep dirs (fun _ => Iff.rfl) _ st r c st' hwf' hr hc
    hst''
  obtain ⟨hnew, hkeep⟩ := spreadPost_noMine hpost hnum hmine
  refine ⟨st', hst', ?_, hkeep, ?_⟩
  · intro a b hm
    cases hold : (cellAt st.grid a b).isRevealed with
    | true => exact (hpost.1.2.2.2.2.2 a b).2 hold
    | false =>
      cases hrev : (cellAt st'.grid a b).isRevealed with
      | false => rfl
      | true =>
        have := hnew (a, b) ⟨hrev, hold⟩
        simp only at this
        rw [hm] at this
        exact absurd this (by simp)
  · intro hnone hcount hover
    rcases hsess.2.2.1 hcount hover with h | h | h
    · exact Or.inl h
    · exact absurd h ((noMineRevealed_iff st').mp (hkeep hnone))
    · exact Or.inr h

/-- C19 on the 3 x 3 sample board with its mine at `(2, 2)`, clicked at `(0, 0)`. -/
theorem revealCell_safe_reveals_no_mine_witness :
    WellFormed sampleMined ∧ (cellAt (calculateNumbers sampleMined).grid 0 0).isMine = false ∧
    ∃ st', revealCell (calculateNumbers sampleMined) 0 0 = some st' ∧
      (∀ a b, (cellAt (calculateNumbers sampleMined).grid a b).isMine = true →
        (cellAt st'.grid a b).isRevealed =
          (cellAt (calculateNumbers sampleMined).grid a b).isRevealed) ∧
      (NoMineRevealed (calculateNumbers sampleMined) → NoMineRevealed st') ∧
      (NoMineRevealed (calculateNumbers sampleMined) →
        cellCount (calculateNumbers sampleMined) (fun x => x.isMine) =
          (calculateNumbers sampleMined).mines →
        st'.isGameOver = true →
        (calculateNumbers sampleMined).isGameOver = true ∨ AllSafeRevealed st') :=
  ⟨by decide, by decide,
    revealCell_safe_reveals_no_mine sampleMined (calculateNumbers sampleMined) (by decide) rfl
      0 0 (by decide) (by decide) (by decide)⟩

/-- C20: in every state of a game and for every cell of the grid, `toggleFlag`
applied twice gives back the scene: every cell's `isFlagged` (and sprite) and
`flagsLeft` are restored, also when the cell is revealed or `flagsLeft = 0`. -/
theorem toggleFlag_involution (st : MainScene) (h : Reachable st) (r c : Nat)
    (hr : r < st.rows) (hc : c < st.cols) :
    toggleFlag (toggleFlag st r c) r c = st := by
  obtain ⟨hwf, _, hsprite, _, hpos, _, _⟩ := h.inv
  by_cases hnoop : (cellAt st.grid r c).isRevealed = true ∨
      ((cellAt st.grid r c).isFlagged = false ∧ st.flagsLeft ≤ 0)
  · rw [toggleFlag_noop st r c hnoop, toggleFlag_noop st r c hnoop]
  have hrev : (cellAt st.grid r c).isRevealed = false := by
    cases hh : (cellAt st.grid r c).isRevealed with
    | false => rfl
    | true => exact absurd (Or.inl hh) hnoop
  have hgo : (cellAt st.grid r c).isFlagged = true ∨ 0 < st.flagsLeft := by
    cases hh : (cellAt st.grid r c).isFlagged with
    | true => exact Or.inl rfl
    | false =>
      right
      by_contra hle
      exact hnoop (Or.inr ⟨hh, by omega⟩)
  have hsp := hsprite r hr c hc
  have hinv1 : GameInv (toggleFlag st r c) := GameInv.toggleFlag h.inv r c hr hc
  have hfirst := toggleFlag_flip st hwf r c hr hc hrev hgo
  have hcell1 : cellAt (toggleFlag st r c).grid r c =
      { cellAt st.grid r c with
        isFlagged := !(cellAt st.grid r c).isFlagged,
        flagSprite := !(cellAt st.grid r c).flagSprite } := by
    rw [hfirst]
    exact cellAt_modifyCell_eq _ _ _ _ (hwf r hr c hc).1
  have hleft1 : (toggleFlag st r c).flagsLeft =
      if (cellAt st.grid r c).flagSprite = true then st.flagsLeft + 1 else st.flagsLeft - 1 := by
    rw [hfirst]
  have hgrid1 : (toggleFlag st r c).grid = modifyCell st.grid r c (fun x =>
      { x with isFlagged := !x.isFlagged, flagSprite := !(cellAt st.grid r c).flagSprite }) := by
    rw [hfirst]
  have hfields : (toggleFlag st r c).rows = st.rows ∧ (toggleFlag st r c).cols = st.cols ∧
      (toggleFlag st r c).mines = st.mines ∧ (toggleFlag st r c).isGameOver = st.isGameOver ∧
      (toggleFlag st r c).timerEvent = st.timerEvent ∧
      (toggleFlag st r c).firstClick = st.firstClick := by
    obtain ⟨k1, k2, k3, k4, k5, k6, _⟩ := toggleFlag_keeps st r c
    exact ⟨k1, k2, k3, k4, k5, k6⟩
  have hrev1 : (cellAt (toggleFlag st r c).grid r c).isRevealed = false := by
    rw [hcell1]; exact hrev
  have hgo1 : (cellAt (toggleFlag st r c).grid r c).isFlagged = true ∨
      0 < (toggleFlag st r c).flagsLeft := by
    rw [hcell1, hleft1]
    cases hf : (cellAt st.grid r c).isFlagged with
    | true =>
      right
      have hfs : (cellAt st.grid r c).flagSprite = true := by rw [hsp, hf]
      rw [if_pos hfs]; omega
    | false => left; rfl
  rw [toggleFlag_flip (toggleFlag st r c) hinv1.1 r c (by rw [hfields.1]; exact hr)
    (by rw [hfields.2.1]; exact hc) hrev1 hgo1]
  have hgrid2 : modifyCell (toggleFlag st r c).grid r c (fun x =>
      { x with isFlagged := !x.isFlagged,
               flagSprite := !(cellAt (toggleFlag st r c).grid r c).flagSprite }) = st.grid := by
    have hs1 : (cellAt (toggleFlag st r c).grid r c).flagSprite =
        !(cellAt st.grid r c).flagSprite := by rw [hcell1]
    rw [hs1, hgrid1, modifyCell_modifyCell]
    apply modifyCell_self
    simp
  have hleft2 : (if (cellAt (toggleFlag st r c).grid r c).flagSprite = true then
      (toggleFlag st r c).flagsLeft + 1 else (toggleFlag st r c).flagsLeft - 1) = st.flagsLeft := by
    rw [hcell1, hleft1]
    cases hfs : (cellAt st.grid r c).flagSprite <;> simp
  rw [hgrid2, hleft2]
  obtain ⟨k1, k2, k3, k4, k5, k6⟩ := hfields
  rw [k1, k2, k3, k4, k5, k6]

/-- C20 in the sample game with a flag on `(1, 1)` and `flagsLeft = 0`, on the
flagged cell and on an unflagged one. -/
theorem toggleFlag_involution_witness :
    Reachable sampleFlagged ∧ sampleFlagged.flagsLeft = 0 ∧
    toggleFlag sampleFlagged 1 1 ≠ sampleFlagged ∧
    toggleFlag (toggleFlag sampleFlagged 1 1) 1 1 = sampleFlagged :=
  ⟨sampleFlagged_reachable, by decide, by decide,
    toggleFlag_involution sampleFlagged sampleFlagged_reachable 1 1 (by decide) (by decide)⟩

end PiSweeper
